import Mathlib

/-! # CellularHelper: response decoding

A shallow embedding of the decoding core of `src/CellularHelper.cpp` and
`src/CellularHelper.h`, and of the operator-list decoder of
`examples/2-show-carriers`, followed by theorems about it.

Conventions of the embedding:

* C strings and reply buffers are lists of byte values (`List Nat`); `str`
  turns a Lean string literal into such a list.  A C string ends at its first
  NUL byte, which `cstr` makes explicit.
* The platform's `String` is the list of its bytes, `concat` adding one at the
  end.
* `int` fields are integers (`Int`).  The source compares them, does a little
  arithmetic on them (`-121 + code`, `-113 + 2 * code`), which `wrapInt32`
  brings back into the range of the 32-bit `int`, or stores the result of
  `atoi` / `strtol` / `sscanf`; the library conversions are embedded with the
  saturation of a 32-bit `long`.
* Heap allocation (`malloc`, `strdup`) is taken to succeed.
* Code that can touch storage it does not own returns `Option`; `none` is the
  fault.
-/

namespace CellularHelper

/-! ## Signal bars -/

/-- `CellularHelperClass::rssiToBars` (CellularHelper.cpp, lines 1035-1046). -/
def rssiToBars (rssi : Int) : Int :=
  if rssi < 0 then
    if rssi ≥ -57 then 5
    else if rssi > -68 then 4
    else if rssi > -80 then 3
    else if rssi > -92 then 2
    else if rssi > -104 then 1
    else 0
  else 0

/-! ## Byte strings and the C library

The routines below are the C library calls the source makes (`strtok_r`,
`strncmp`, `strchr`, `strstr`, `toupper`, `atoi`, `strtol`), written over byte
lists. -/

/-- Bytes of a string literal. -/
def str (s : String) : List Nat := s.toList.map Char.toNat

/-- The C string held in a buffer: the bytes before the first NUL.  It is what
`strncpy(copy, buf, len); copy[len] = 0;` and `strdup` leave to be scanned. -/
def cstr (buf : List Nat) : List Nat := buf.takeWhile (fun c => c != 0)

/-- Scanning state of the `strtok_r` loop: `cur` holds the bytes of the token
being read, latest first.  A delimiter closes a non-empty token and is skipped
otherwise, so no token is empty. -/
def strtokAux (delims : List Nat) : List Nat → List Nat → List (List Nat)
  | [], cur => if cur.isEmpty then [] else [cur.reverse]
  | c :: cs, cur =>
    if delims.contains c then
      if cur.isEmpty then strtokAux delims cs [] else cur.reverse :: strtokAux delims cs []
    else strtokAux delims cs (c :: cur)

/-- The tokens that `strtok_r(s, delims, &end)` followed by
`strtok_r(NULL, delims, &end)` return, in order, until the call returns NULL. -/
def strtokAll (s delims : List Nat) : List (List Nat) := strtokAux delims s []

/-- The test `strncmp(a, b, n) == 0` on C strings: the first `n` bytes agree,
where a string that ends before `n` bytes agrees only with one ending there too. -/
def strncmpEq (a b : List Nat) (n : Nat) : Bool := a.take n == b.take n

/-- The call `strchr(s, c)` followed by `*p = 0; ++p`: the bytes before the first
`c` and the bytes after it, or `none` when `c` does not occur. -/
def splitAtByte (c : Nat) : List Nat → Option (List Nat × List Nat)
  | [] => none
  | x :: xs =>
    if x = c then some ([], xs)
    else (splitAtByte c xs).map (fun p => (x :: p.1, p.2))

/-- The call `strstr(hay, needle)`: the part of `hay` from the first occurrence
of `needle` on, or `none` (NULL). -/
def strstr : List Nat → List Nat → Option (List Nat)
  | [], needle => if needle.isEmpty then some [] else none
  | c :: cs, needle =>
    if needle.isPrefixOf (c :: cs) then some (c :: cs) else strstr cs needle

/-- The C-locale `toupper` on a byte. -/
def toupper (c : Nat) : Nat := if 97 ≤ c ∧ c ≤ 122 then c - 32 else c

/-- The C-locale `isspace`: space, `\t`, `\n`, `\v`, `\f`, `\r`. -/
def isspace (c : Nat) : Bool := c == 32 || (9 ≤ c && c ≤ 13)

/-- Value of a byte as a digit in bases up to 36. -/
def digitVal (c : Nat) : Option Nat :=
  if 48 ≤ c ∧ c ≤ 57 then some (c - 48)
  else if 65 ≤ c ∧ c ≤ 90 then some (c - 55)
  else if 97 ≤ c ∧ c ≤ 122 then some (c - 87)
  else none

/-- Value of the longest run of leading digits valid in `base`. -/
def accDigits (base : Nat) : List Nat → Nat → Nat
  | [], acc => acc
  | c :: cs, acc =>
    match digitVal c with
    | some d => if d < base then accDigits base cs (acc * base + d) else acc
    | none => acc

/-- Largest value of a 32-bit `long`. -/
def LONG_MAX : Int := 2147483647

/-- Smallest value of a 32-bit `long`. -/
def LONG_MIN : Int := -2147483648

/-- The `int` left by an arithmetic operation of exact result `z` on the 32-bit
target: the result modulo 2^32, in two's complement.  The C standard leaves the
overflow of a signed operation undefined; the compiled code wraps. -/
def wrapInt32 (z : Int) : Int := (z + 2147483648) % 4294967296 - 2147483648

/-- An optional sign in front of the digits: whether it is `-`, and what follows. -/
def takeSign : List Nat → Bool × List Nat
  | 45 :: r => (true, r)
  | 43 :: r => (false, r)
  | s => (false, s)

/-- The `0x` / `0X` that `strtol` accepts in front of base-16 digits. -/
def skipHexMark (base : Nat) : List Nat → List Nat
  | 48 :: x :: r => if base = 16 ∧ (x = 120 ∨ x = 88) then r else 48 :: x :: r
  | s => s

/-- The call `strtol(s, NULL, base)` for a 32-bit `long`: leading white space,
an optional sign, for base 16 an optional `0x`, then digits; a value out of
range saturates at `LONG_MAX` / `LONG_MIN`; no digits give 0. -/
def strtol (s : List Nat) (base : Nat) : Int :=
  let signed := takeSign (s.dropWhile isspace)
  let v : Int := accDigits base (skipHexMark base signed.2) 0
  if signed.1 then (if -v < LONG_MIN then LONG_MIN else -v)
  else (if LONG_MAX < v then LONG_MAX else v)

/-- The call `atoi(s)`, which is `(int) strtol(s, NULL, 10)`. -/
def atoi (s : List Nat) : Int := strtol s 10

/-! ## Cell records -/

/-- `CellularHelperEnvironmentCellData` (CellularHelper.h).  The fields `mcc`,
`mnc`, `isUMTS` and `rscpLev` have member initialisers (65535, 255, false, 255);
the others start with whatever the storage held. -/
structure CellData where
  mcc : Int
  mnc : Int
  lac : Int
  ci : Int
  bsic : Int
  arfcn : Int
  rxlev : Int
  isUMTS : Bool
  dlf : Int
  ulf : Int
  rscpLev : Int
  deriving DecidableEq, Repr

namespace CellData

/-- A newly constructed record: the member initialisers of the header, and the
given values for the fields the header leaves uninitialised. -/
def fresh (lac ci bsic arfcn rxlev dlf ulf : Int) : CellData :=
  { mcc := 65535, mnc := 255, lac := lac, ci := ci, bsic := bsic, arfcn := arfcn,
    rxlev := rxlev, isUMTS := false, dlf := dlf, ulf := ulf, rscpLev := 255 }

/-- `CellularHelperEnvironmentCellData::isValid` (lines 324-343). -/
def isValid (r : CellData) (ignoreCI : Bool) : Bool :=
  if r.mcc > 999 then false
  else if !ignoreCI then
    if r.isUMTS then
      if r.ci ≥ 0xfffffff then false else true
    else
      if r.ci ≥ 0xffff then false else true
  else true

/-- `CellularHelperEnvironmentCellData::addKeyValue` (lines 346-418).  The two
`Log.info` branches only report and leave the record as it is. -/
def addKeyValue (r : CellData) (key value : List Nat) : CellData :=
  if key.length > 15 then r
  else
    let ucCopy := key.map toupper
    if ucCopy = str "RAT" then { r with isUMTS := (strstr value (str "UMTS")).isSome }
    else if ucCopy = str "MCC" then { r with mcc := atoi value }
    else if ucCopy = str "MNC" then { r with mnc := atoi value }
    else if ucCopy = str "LAC" then { r with lac := strtol value 16 }
    else if ucCopy = str "CI" then { r with ci := strtol value 16 }
    else if ucCopy = str "BSIC" then { r with bsic := strtol value 16 }
    else if ucCopy = str "ARFCN" then { r with arfcn := atoi value }
    else if ucCopy = str "ARFCN_DED" ∨ ucCopy = str "RXLEVSUB" ∨ ucCopy = str "T_ADV" then r
    else if ucCopy = str "RXLEV" then { r with rxlev := strtol value 16 }
    else if ucCopy = str "DLF" then { r with dlf := atoi value }
    else if ucCopy = str "ULF" then { r with ulf := atoi value, isUMTS := true }
    else if ucCopy = str "RSCP LEV" then { r with rscpLev := atoi value }
    else if ucCopy = str "RAC" ∨ ucCopy = str "SC" ∨ ucCopy = str "ECN0 LEV" then r
    else r

/-- Body of the `while (pair)` loop of `parse`: drop leading spaces, split at the
first colon, hand key and value to `addKeyValue`; a pair without colon is skipped. -/
def parsePair (r : CellData) (pair : List Nat) : CellData :=
  match splitAtByte 58 (pair.dropWhile (fun c => c == 32)) with
  | some (key, value) => r.addKeyValue key value
  | none => r

/-- `CellularHelperEnvironmentCellData::parse` (lines 296-322). -/
def parse (r : CellData) (s : List Nat) : CellData :=
  (strtokAll (cstr s) (str ",")).foldl parsePair r

/-- The statement `freq = 800; break;` under `case 387: case 412: case 437:`.
The argument is the value `freq` has when control arrives. -/
def band800Group (_freq : Int) : Int := 800

/-- `CellularHelperEnvironmentCellData::getBand` (lines 420-613).  The `switch`
groups are taken in source order; `case 3942: case 3967:` assigns 700 and, having
no `break`, runs on into the group of `case 387`. -/
def getBand (r : CellData) : Int :=
  if r.isUMTS then
    if r.ulf ∈ [12, 37, 62, 87, 112, 137, 162, 187, 212, 237, 262, 287] then 1900
    else if r.ulf ∈ [1662, 1687, 1712, 1737, 1762, 1787, 1812, 1837, 1862] then 1700
    else if r.ulf ∈ [782, 787, 807, 812, 837, 862] then 850
    else if r.ulf ∈ [2362, 2387, 2412, 2437, 2462, 2487, 2512, 2537, 2562, 2587,
        2612, 2637, 2662, 2687] then 2600
    else if r.ulf ∈ [3187, 3212, 3237, 3262, 3287, 3312, 3337, 3362, 3387, 3412,
        3437, 3462] then 1700
    else if r.ulf ∈ [3707, 3732, 3737, 3762, 3767] then 700
    else if r.ulf ∈ [3842, 3867] then 700
    else if r.ulf ∈ [3942, 3967] then band800Group 700
    else if r.ulf ∈ [387, 412, 437] then band800Group 0
    else if r.ulf ∈ [6067, 6092, 6117, 6142, 6167, 6192, 6217, 6242, 6267, 6292,
        6317, 6342, 6367] then 1900
    else if r.ulf ∈ [5712, 5737, 5762, 5767, 5787, 5792, 5812, 5817, 5837, 5842,
        5862] then 850
    else if r.ulf ≥ 0 ∧ r.ulf ≤ 124 then 900
    else if r.ulf ≥ 128 ∧ r.ulf ≤ 251 then 850
    else if r.ulf ≥ 512 ∧ r.ulf ≤ 885 then 1800
    else if r.ulf ≥ 975 ∧ r.ulf ≤ 1023 then 900
    else if r.ulf ≥ 1312 ∧ r.ulf ≤ 1513 then 1700
    else if r.ulf ≥ 2712 ∧ r.ulf ≤ 2863 then 900
    else if r.ulf ≥ 4132 ∧ r.ulf ≤ 4233 then 850
    else if (r.ulf ≥ 4162 ∧ r.ulf ≤ 4188) ∨ (r.ulf ≥ 20312 ∧ r.ulf ≤ 20363) then 800
    else if r.ulf ≥ 9262 ∧ r.ulf ≤ 9538 then 1900
    else if r.ulf ≥ 9612 ∧ r.ulf ≤ 9888 then 2100
    else 0
  else
    if r.arfcn ≥ 0 ∧ r.arfcn ≤ 124 then 900
    else if r.arfcn ≥ 128 ∧ r.arfcn ≤ 251 then 850
    else if r.arfcn ≥ 512 ∧ r.arfcn ≤ 885 then 1800
    else if r.arfcn ≥ 975 ∧ r.arfcn ≤ 1023 then 900
    else 0

/-- `CellularHelperEnvironmentCellData::getRSSI` (lines 666-683); the sum is an
`int` addition. -/
def getRSSI (r : CellData) : Int :=
  if r.isUMTS then
    if r.rscpLev ≤ 96 then wrapInt32 (-121 + r.rscpLev) else 0
  else
    if r.rxlev ≤ 96 then wrapInt32 (-121 + r.rxlev) else 0

end CellData

/-! ## The Environment decoder -/

/-- The fragment kinds of the platform's `Cellular.command` callback, as listed
in the `switch` of `logCellularDebug`.  Particle.h, which gives them their
numbers, is not part of the sources; the decoders only test `type` for equality
with one of these kinds. -/
inductive RespType
  | TYPE_UNKNOWN | TYPE_OK | TYPE_ERROR | TYPE_RING | TYPE_CONNECT | TYPE_NOCARRIER
  | TYPE_NODIALTONE | TYPE_BUSY | TYPE_NOANSWER | TYPE_PROMPT | TYPE_PLUS | TYPE_TEXT
  | TYPE_ABORTED
  deriving DecidableEq, Repr

/-- Modelled from the spec: the platform code by which `parse` asks the transport
to keep waiting for more fragments ("decoders in this design always request
keep receiving").  Particle.h, which defines `WAIT`, is not part of the sources;
the number is the one of Device OS and nothing below depends on it. -/
def WAIT : Int := -1

/-- `CellularHelperEnvironmentResponse` (CellularHelper.h): the members `parse`,
`clear` and `getNumNeighbors` read or write.  `neighbors` is the caller's array
behind the pointer, `none` being the NULL pointer; `numNeighbors` is the size the
caller declared for it. -/
structure EnvironmentResponse where
  command : List Nat
  service : CellData
  neighbors : Option (List CellData)
  numNeighbors : Nat
  curDataIndex : Int
  deriving DecidableEq, Repr

namespace EnvironmentResponse

/-- The default constructor `CellularHelperEnvironmentResponse()`: no neighbor
array, an empty command, `curDataIndex = -1`. -/
def create (service : CellData) : EnvironmentResponse :=
  { command := [], service := service, neighbors := none, numNeighbors := 0,
    curDataIndex := -1 }

/-- The constructor `CellularHelperEnvironmentResponse(neighbors, numNeighbors)`. -/
def createWith (service : CellData) (neighbors : Option (List CellData))
    (numNeighbors : Nat) : EnvironmentResponse :=
  { command := [], service := service, neighbors := neighbors,
    numNeighbors := numNeighbors, curDataIndex := -1 }

/-- `CellularHelperEnvironmentResponseStatic<MAX_NEIGHBOR_CELLS>`: the array is a
member of the object and `numNeighbors` is its length. -/
def createStatic (service : CellData) (staticNeighbors : List CellData) :
    EnvironmentResponse :=
  createWith service (some staticNeighbors) staticNeighbors.length

/-- The buffer `searchFor` after `snprintf(searchFor, 32, "+%s: ", command)`:
at most 31 bytes are kept. -/
def searchFor (e : EnvironmentResponse) : List Nat :=
  (str "+" ++ cstr e.command ++ str ": ").take 31

/-- The value `snprintf` returns: the length of the untruncated text. -/
def searchForLen (e : EnvironmentResponse) : Nat := (cstr e.command).length + 3

/-- The step `if (type == TYPE_PLUS && strncmp(line, searchFor, searchForLen) == 0)
line += searchForLen;`.  When `searchFor` was truncated the comparison can succeed
on a line shorter than `searchForLen`; the pointer then leaves the line, which is
the fault `none`. -/
def skipTag (e : EnvironmentResponse) (type : RespType) (line : List Nat) :
    Option (List Nat) :=
  if type = RespType.TYPE_PLUS ∧ strncmpEq line e.searchFor e.searchForLen then
    if e.searchForLen ≤ line.length then some (line.drop e.searchForLen) else none
  else some line

/-- The assignment `neighbors[i].parse(line)`: a fault when slot `i` is not in
the array. -/
def writeNeighbor (arr : List CellData) (i : Nat) (line : List Nat) :
    Option (List CellData) :=
  match arr.get? i with
  | some cell => some (arr.set i (cell.parse line))
  | none => none

/-- What `parse` does with a line once the tag has been skipped (lines 267-285). -/
def routeLine (e : EnvironmentResponse) (line : List Nat) : Option EnvironmentResponse :=
  if strncmpEq line (str "MCC:") 4 then
    if e.curDataIndex < 0 then
      some { e with service := e.service.parse line, curDataIndex := e.curDataIndex + 1 }
    else
      match e.neighbors with
      | some arr =>
        if e.curDataIndex.toNat < e.numNeighbors then
          match writeNeighbor arr e.curDataIndex.toNat line with
          | some arr2 => some { e with neighbors := some arr2, curDataIndex := e.curDataIndex + 1 }
          | none => none
        else some e
      | none => some e
  else if strncmpEq line (str "RAT:") 4 then
    some { e with service := e.service.parse line }
  else some e

/-- Body of the `while (line)` loop of `parse` (lines 260-286). -/
def parseLine (type : RespType) (e : EnvironmentResponse) (line : List Nat) :
    Option EnvironmentResponse :=
  if line.isEmpty then some e
  else
    match e.skipTag type line with
    | some rest => e.routeLine rest
    | none => none

/-- `CellularHelperEnvironmentResponse::parse` (lines 239-294): the state after
the call together with the returned code, or `none` on a fault. -/
def parse (e : EnvironmentResponse) (type : RespType) (buf : List Nat) :
    Option (EnvironmentResponse × Int) :=
  if type = RespType.TYPE_UNKNOWN ∨ type = RespType.TYPE_PLUS then
    match (strtokAll (cstr buf) (str "\r\n")).foldlM (parseLine type) e with
    | some e2 => some (e2, WAIT)
    | none => none
  else some (e, WAIT)

/-- The transport delivering fragments one after the other to `parse`; it is
handed `WAIT` each time and goes on. -/
def feed (e : EnvironmentResponse) : List (RespType × List Nat) → Option EnvironmentResponse
  | [] => some e
  | f :: fs =>
    match e.parse f.1 f.2 with
    | some (e2, _) => feed e2 fs
    | none => none

/-- The loop of `getNumNeighbors`: `n` slots are still to be looked at and `ii`
is the index of the head of the list.  Reading beyond the array is a fault. -/
def scanNeighbors : List CellData → Nat → Nat → Option Nat
  | _, 0, ii => some ii
  | [], _ + 1, _ => none
  | c :: cs, n + 1, ii => if c.isValid false then scanNeighbors cs n (ii + 1) else some ii

/-- `CellularHelperEnvironmentResponse::getNumNeighbors` (lines 717-731). -/
def getNumNeighbors (e : EnvironmentResponse) : Option Nat :=
  if e.curDataIndex < 0 then some 0
  else
    match e.neighbors with
    | some arr => scanNeighbors arr e.curDataIndex.toNat 0
    | none => some e.curDataIndex.toNat

/-- `CellularHelperEnvironmentResponse::clear` (lines 701-703). -/
def clear (e : EnvironmentResponse) : EnvironmentResponse :=
  { e with curDataIndex := -1 }

end EnvironmentResponse

/-! ## Invariants of the Environment decoder -/

/-- The neighbor storage `now` has the shape of the storage `start` the decoder
was given (same pointer, same length) and agrees with it from slot `n` on. -/
def sameBeyond (n : Nat) : Option (List CellData) → Option (List CellData) → Prop
  | none, none => True
  | some a, some b => b.length = a.length ∧ b.drop n = a.drop n
  | _, _ => False

/-- A decoder state `e` reached from `start` with capacity `n`: same command,
same declared capacity, cursor in `-1..n`, and no slot from `n` on touched. -/
structure Bounded (n : Nat) (start e : EnvironmentResponse) : Prop where
  command_eq : e.command = start.command
  num_eq : e.numNeighbors = n
  lo : -1 ≤ e.curDataIndex
  hi : e.curDataIndex ≤ n
  nbrs : sameBeyond n start.neighbors e.neighbors

/-! ## Reply lines and the slots they fill -/

/-- A reply line that begins with `MCC:` and holds no NUL, line feed or carriage
return. -/
def isMccLine (l : List Nat) : Bool :=
  (str "MCC:").isPrefixOf l && l.all (fun c => c != 0 && c != 10 && c != 13)

/-- A reply line that begins with `RAT:` and holds no NUL, line feed or carriage
return. -/
def isRatLine (l : List Nat) : Bool :=
  (str "RAT:").isPrefixOf l && l.all (fun c => c != 0 && c != 10 && c != 13)

/-- A fragment made of the given lines, each ended by carriage return and line
feed. -/
def joinLines : List (List Nat) → List Nat
  | [] => []
  | l :: ls => l ++ str "\r\n" ++ joinLines ls

/-- Slot `i` of the array decoded from line `i` of `lines` by `CellData.parse`,
for as many slots as there are lines; the other slots as they are. -/
def fillNeighbors : List CellData → List (List Nat) → List CellData
  | c :: cs, l :: ls => c.parse l :: fillNeighbors cs ls
  | cs, [] => cs
  | [], _ :: _ => []

/-! ## The Plain and Tagged decoders -/

/-- The codes of `Cellular.command` that the header documents: `RESP_OK = -2`. -/
def RESP_OK : Int := -2

/-- The codes of `Cellular.command` that the header documents: `RESP_ERROR = -3`. -/
def RESP_ERROR : Int := -3

/-- `CellularHelperClass::appendBufferToString` (lines 1025-1032): the loop over
`buf[0..len)`, `str.concat` adding one byte at the end of the string. -/
def appendBufferToString (s buf : List Nat) (noEOL : Bool) : List Nat :=
  buf.foldl (fun acc c => if !noEOL || (c != 13 && c != 10) then acc ++ [c] else acc) s

/-- `CellularHelperStringResponse` (the Plain decoder). -/
structure StringResponse where
  resp : Int
  string : List Nat
  deriving DecidableEq, Repr

/-- `CellularHelperStringResponse::parse` (lines 102-110): the state after the
call and the returned code. -/
def StringResponse.parse (r : StringResponse) (type : RespType) (buf : List Nat) :
    StringResponse × Int :=
  if type = RespType.TYPE_UNKNOWN then
    ({ r with string := appendBufferToString r.string buf true }, WAIT)
  else (r, WAIT)

/-- `CellularHelperPlusStringResponse` (the Tagged decoder). -/
structure PlusStringResponse where
  resp : Int
  command : List Nat
  string : List Nat
  deriving DecidableEq, Repr

namespace PlusStringResponse

/-- The buffer `searchFor` after `snprintf(searchFor, 32, "\n+%s: ", command)`:
at most 31 bytes are kept. -/
def searchFor (r : PlusStringResponse) : List Nat :=
  (str "\n+" ++ cstr r.command ++ str ": ").take 31

/-- The marker `"\n+<command>: "` in full, as the replies carry it. -/
def marker (r : PlusStringResponse) : List Nat := str "\n+" ++ cstr r.command ++ str ": "

/-- `CellularHelperPlusStringResponse::parse` (lines 113-146).  When the marker is
found and no carriage return follows it, `end` is NULL and `end - start` is not a
length: that is the fault `none`. -/
def parse (r : PlusStringResponse) (type : RespType) (buf : List Nat) :
    Option (PlusStringResponse × Int) :=
  if type = RespType.TYPE_PLUS then
    match strstr (cstr buf) r.searchFor with
    | some found =>
      match splitAtByte 13 (found.drop r.searchFor.length) with
      | some (payload, _) =>
        some ({ r with string := appendBufferToString r.string payload true }, WAIT)
      | none => none
    | none => some (r, WAIT)
  else some (r, WAIT)

/-- The loop of `getDoubleQuotedPart` (lines 154-167) from position `ii` on, the
rest of the string being the list; `break` ends it with the result so far. -/
def quotedLoop (onlyFirst : Bool) : List Nat → Bool → List Nat → List Nat
  | [], _, result => result
  | ch :: rest, inQuoted, result =>
    if ch = 34 then
      let toggled := !inQuoted
      if !toggled && onlyFirst then result
      else quotedLoop onlyFirst rest toggled result
    else if inQuoted then quotedLoop onlyFirst rest inQuoted (result ++ [ch])
    else quotedLoop onlyFirst rest inQuoted result

/-- `CellularHelperPlusStringResponse::getDoubleQuotedPart` (lines 148-170). -/
def getDoubleQuotedPart (r : PlusStringResponse) (onlyFirst : Bool) : List Nat :=
  quotedLoop onlyFirst r.string false []

end PlusStringResponse

/-! ## Formatted input and output of integers -/

/-- A decimal digit byte. -/
def isDigit (c : Nat) : Bool := 48 ≤ c && c ≤ 57

/-- The conversion `%d` of `sscanf` on a 32-bit target: white space, an optional
sign, then the longest run of decimal digits, converted as by `strtol`; it fails
when there is no digit.  The result is the value and the unread input. -/
def scanInt (s : List Nat) : Option (Int × List Nat) :=
  let signed := takeSign (s.dropWhile isspace)
  let digits := signed.2.takeWhile isDigit
  if digits.isEmpty then none
  else
    let v : Int := accDigits 10 digits 0
    some (if signed.1 then (if -v < LONG_MIN then LONG_MIN else -v)
          else (if LONG_MAX < v then LONG_MAX else v),
          signed.2.dropWhile isDigit)

/-- The values `sscanf` converts for a format of `k` conversions `%d` separated
by commas (`"%d,%d"` for `k = 2`), in order; the scan stops at the first
conversion or comma that does not match.  The call returns their number, or EOF
when the input ends before the first conversion; either way it returns `k` only
when `k` values were converted. -/
def sscanfInts : Nat → List Nat → List Int
  | 0, _ => []
  | k + 1, s =>
    match scanInt s with
    | none => []
    | some (v, rest) =>
      v :: (if k = 0 then []
            else match rest with
              | 44 :: more => sscanfInts k more
              | _ => [])

/-- Decimal digits of `n`, lowest first; `fuel` bounds their number. -/
def decimalRev : Nat → Nat → List Nat
  | 0, _ => []
  | fuel + 1, n => (48 + n % 10) :: (if n < 10 then [] else decimalRev fuel (n / 10))

/-- The decimal text of a natural number. -/
def formatNat (n : Nat) : List Nat := (decimalRev (n + 1) n).reverse

/-- The text `printf` writes for `%d`, which is also how a decimal integer is
written in a reply. -/
def formatInt (z : Int) : List Nat :=
  if z < 0 then 45 :: formatNat z.natAbs else formatNat z.toNat

/-- Integer fields written in decimal and separated by commas. -/
def joinFields : List Int → List Nat
  | [] => []
  | [a] => formatInt a
  | a :: b :: rest => formatInt a ++ 44 :: joinFields (b :: rest)

/-! ## The signal-quality decoders -/

/-- `CellularHelperRSSIQualResponse` (AT+CSQ). -/
structure RSSIQualResponse where
  resp : Int
  command : List Nat
  string : List Nat
  rssi : Int
  qual : Int
  deriving DecidableEq, Repr

namespace RSSIQualResponse

/-- A newly constructed object: `resp = RESP_ERROR`, `rssi = 99`, `qual = 99`. -/
def create : RSSIQualResponse :=
  { resp := RESP_ERROR, command := [], string := [], rssi := 99, qual := 99 }

/-- `CellularHelperRSSIQualResponse::postProcess` (lines 173-195).  `sscanf`
stores each value as it converts it, so a lone first field lands in `rssi` even
though the call then fails.  The product and the sum are `int` operations. -/
def postProcess (r : RSSIQualResponse) : RSSIQualResponse :=
  match sscanfInts 2 (cstr r.string) with
  | [a, b] =>
    { r with rssi := if a < 99 then wrapInt32 (-113 + wrapInt32 (a * 2)) else 0, qual := b,
             resp := RESP_OK }
  | [a] => { r with rssi := a, resp := RESP_ERROR }
  | _ => { r with resp := RESP_ERROR }

/-- `CellularHelperRSSIQualResponse::toString` (lines 197-200). -/
def toString (r : RSSIQualResponse) : List Nat :=
  str "rssi=" ++ formatInt r.rssi ++ str " qual=" ++ formatInt r.qual

end RSSIQualResponse

/-- `CellularHelperExtendedQualResponse` (AT+CESQ); the six values are `uint8_t`. -/
structure ExtendedQualResponse where
  resp : Int
  command : List Nat
  string : List Nat
  rxlev : Nat
  ber : Nat
  rscp : Nat
  ecn0 : Nat
  rsrq : Nat
  rsrp : Nat
  deriving DecidableEq, Repr

namespace ExtendedQualResponse

/-- A newly constructed object: `resp = RESP_ERROR` and the member initialisers
of the header. -/
def create : ExtendedQualResponse :=
  { resp := RESP_ERROR, command := [], string := [], rxlev := 99, ber := 99, rscp := 99,
    ecn0 := 255, rsrq := 255, rsrp := 255 }

/-- The cast `(uint8_t) v`. -/
def toUInt8 (v : Int) : Nat := (v % 256).toNat

/-- `CellularHelperExtendedQualResponse::postProcess` (lines 203-222).  The values
go to a local array first, so the fields change only when all six converted. -/
def postProcess (r : ExtendedQualResponse) : ExtendedQualResponse :=
  match sscanfInts 6 (cstr r.string) with
  | [v0, v1, v2, v3, v4, v5] =>
    { r with rxlev := toUInt8 v0, ber := toUInt8 v1, rscp := toUInt8 v2,
             ecn0 := toUInt8 v3, rsrq := toUInt8 v4, rsrp := toUInt8 v5, resp := RESP_OK }
  | _ => { r with resp := RESP_ERROR }

end ExtendedQualResponse

/-! ## The operator-list decoder of `examples/2-show-carriers` -/

/-- `OperatorName` (2-show-carriers.cpp, lines 89-94). -/
structure OperatorName where
  mcc : Int
  mnc : Int
  name : List Nat
  deriving DecidableEq, Repr

/-- `CellularHelperCOPNResponse` (lines 96-113): `operators` holds the slots
`operators[0 .. numOperators)`, the only ones the code reads. -/
structure COPNResponse where
  resp : Int
  operators : List OperatorName
  deriving DecidableEq, Repr

namespace COPNResponse

/-- `CellularHelperCOPNResponse::checkOperator` (lines 152-184). -/
def checkOperator (c : COPNResponse) (buf : List Nat) : COPNResponse :=
  match buf with
  | 34 :: numStart =>
    match splitAtByte 34 numStart with
    | some (num, afterNum) =>
      if num.length = 6 then
        match splitAtByte 34 afterNum with
        | some (_, nameStart) =>
          match splitAtByte 34 nameStart with
          | some (name, _) =>
            { c with operators := c.operators.map (fun o =>
                if o.mcc = atoi (num.take 3) ∧ o.mnc = atoi ((num.drop 3).take 3)
                then { o with name := name } else o) }
          | none => c
        | none => c
      else c
    | none => c
  | _ => c

/-- `CellularHelperCOPNResponse::parse` (lines 187-224). -/
def parse (c : COPNResponse) (type : RespType) (buf : List Nat) : COPNResponse × Int :=
  if type = RespType.TYPE_PLUS then
    match strstr (cstr buf) (str "\n+COPN: ") with
    | some found =>
      match splitAtByte 13 (found.drop 8) with
      | some (line, _) => (c.checkOperator line, WAIT)
      | none => (c, WAIT)
    | none => (c, WAIT)
  else (c, WAIT)

/-- The constant `MAX_OPERATORS` (line 108). -/
def MAX_OPERATORS : Nat := 16

/-- A newly constructed cache: `numOperators = 0`, `resp = RESP_ERROR`. -/
def create : COPNResponse := { resp := RESP_ERROR, operators := [] }

/-- `CellularHelperCOPNResponse::requestOperator(int mcc, int mnc)` (lines
127-140).  The slot taken is one no call has written, so its name is empty. -/
def requestOperator (c : COPNResponse) (mcc mnc : Int) : COPNResponse :=
  if c.operators.any (fun o => o.mcc == mcc && o.mnc == mnc) then c
  else if c.operators.length < MAX_OPERATORS then
    { c with operators := c.operators ++ [{ mcc := mcc, mnc := mnc, name := [] }] }
  else c

/-- `CellularHelperCOPNResponse::getOperatorName` (lines 142-149): the C string
of the first entry for the pair, or `"unknown"`. -/
def getOperatorName (c : COPNResponse) (mcc mnc : Int) : List Nat :=
  match c.operators.find? (fun o => o.mcc == mcc && o.mnc == mnc) with
  | some o => cstr o.name
  | none => str "unknown"

/-- The requests of a list of pairs, one after the other. -/
def requestAll (c : COPNResponse) (pairs : List (Int × Int)) : COPNResponse :=
  pairs.foldl (fun acc p => acc.requestOperator p.1 p.2) c

/-- The fragments of a reply delivered one after the other to `parse`. -/
def feed (c : COPNResponse) (frags : List (RespType × List Nat)) : COPNResponse :=
  frags.foldl (fun acc f => (acc.parse f.1 f.2).1) c

end COPNResponse

/-- What the application does with the cache: a request for a pair, or a
fragment handed to `parse`. -/
inductive CacheCall
  | request (mcc mnc : Int)
  | fragment (type : RespType) (buf : List Nat)

/-- The cache after a sequence of calls. -/
def COPNResponse.run (c : COPNResponse) (calls : List CacheCall) : COPNResponse :=
  calls.foldl (fun acc call =>
    match call with
    | CacheCall.request mcc mnc => acc.requestOperator mcc mnc
    | CacheCall.fragment type buf => (acc.parse type buf).1) c

/-- The pairs of a list of requests without their repetitions, in the order of
their first occurrence. -/
def firstDistinct : List (Int × Int) → List (Int × Int)
  | [] => []
  | p :: ps => p :: (firstDistinct ps).filter (fun q => q != p)

/-- The number of entries of the table for a pair. -/
def entryCount (c : COPNResponse) (mcc mnc : Int) : Nat :=
  (c.operators.filter (fun o => o.mcc == mcc && o.mnc == mnc)).length

/-- A number below 1000 written with three decimal digits. -/
def digits3 (n : Nat) : List Nat := [48 + n / 100 % 10, 48 + n / 10 % 10, 48 + n % 10]

/-- The line `"cccnnn","name"` of the operator list. -/
def operatorLine (mcc mnc : Nat) (name : List Nat) : List Nat :=
  34 :: (digits3 mcc ++ digits3 mnc ++ 34 :: 44 :: 34 :: (name ++ [34]))


/-! ## The callback -/

/-- The object behind the `void *param` of `responseCallback`: one of the
subclasses of `CellularHelperCommonResponse`. -/
inductive Decoder
  | plain (r : StringResponse)
  | tagged (r : PlusStringResponse)
  | environment (e : EnvironmentResponse)
  | operatorList (c : COPNResponse)
  deriving DecidableEq, Repr

/-- The virtual call `presp->parse(type, buf, len)`. -/
def Decoder.parse (d : Decoder) (type : RespType) (buf : List Nat) : Option (Decoder × Int) :=
  match d with
  | .plain r => some (Decoder.plain (r.parse type buf).1, (r.parse type buf).2)
  | .tagged r => (r.parse type buf).map (fun p => (Decoder.tagged p.1, p.2))
  | .environment e => (e.parse type buf).map (fun p => (Decoder.environment p.1, p.2))
  | .operatorList c => some (Decoder.operatorList (c.parse type buf).1, (c.parse type buf).2)

/-- `CellularHelperClass::responseCallback` (lines 1049-1053). -/
def responseCallback (type : RespType) (buf : List Nat) (param : Decoder) :
    Option (Decoder × Int) :=
  param.parse type buf

/-! ## The Location and Registration decoders -/

/-- Pieces of text separated by single commas. -/
def joinComma : List (List Nat) → List Nat
  | [] => []
  | [a] => a
  | a :: b :: rest => a ++ 44 :: joinComma (b :: rest)

/-- `CellularHelperLocationResponse` (AT+ULOC).  `lat` and `lon` are `float`;
their type `F` is left open, as is `atof`, which `postProcess` takes as an
argument. -/
structure LocationResponse (F : Type) where
  resp : Int
  command : List Nat
  string : List Nat
  valid : Bool
  lat : F
  lon : F
  alt : Int
  uncertainty : Int

namespace LocationResponse

/-- A newly constructed object: `resp = RESP_ERROR`, `valid = false`, the numeric
fields zero (`zero` stands for the float `0.0`). -/
def create {F : Type} (zero : F) : LocationResponse F :=
  { resp := RESP_ERROR, command := [], string := [], valid := false, lat := zero, lon := zero,
    alt := 0, uncertainty := 0 }

/-- `CellularHelperLocationResponse::postProcess` (lines 737-778): each field is
stored as soon as `strtok_r` has returned it. -/
def postProcess {F : Type} (atof : List Nat → F) (r : LocationResponse F) : LocationResponse F :=
  match strtokAll (cstr r.string) (str ",") with
  | _ :: _ :: latPart :: rest3 =>
    match rest3 with
    | lonPart :: rest4 =>
      match rest4 with
      | altPart :: rest5 =>
        match rest5 with
        | uncPart :: _ =>
          { r with lat := atof latPart, lon := atof lonPart, alt := atoi altPart,
                   uncertainty := atoi uncPart, valid := true, resp := RESP_OK }
        | [] => { r with lat := atof latPart, lon := atof lonPart, alt := atoi altPart }
      | [] => { r with lat := atof latPart, lon := atof lonPart }
    | [] => { r with lat := atof latPart }
  | _ => r

end LocationResponse

/-- A stand-in for `atof` on texts that are decimal integers, whose float is
that integer; it serves to evaluate `postProcess` on examples. -/
def atofWhole (s : List Nat) : Int := atoi s

/-- One item of a `sscanf` format: `%d`, `%x`, or a character to be matched. -/
inductive ScanItem
  | dec
  | hex
  | lit (c : Nat)
  deriving DecidableEq, Repr

/-- A hexadecimal digit byte. -/
def isHexDigit (c : Nat) : Bool :=
  (48 ≤ c && c ≤ 57) || (65 ≤ c && c ≤ 70) || (97 ≤ c && c ≤ 102)

/-- The `0x` / `0X` that `%x` accepts in front of the digits; without a digit
after it only the `0` is read. -/
def skipScanHexMark : List Nat → List Nat
  | 48 :: x :: d :: r => if (x = 120 ∨ x = 88) ∧ isHexDigit d then d :: r else 48 :: x :: d :: r
  | s => s

/-- Largest value of a 32-bit `unsigned long`. -/
def ULONG_MAX : Nat := 4294967295

/-- The `int` that holds the bits of a 32-bit unsigned value. -/
def toInt32 (u : Nat) : Int := if u < 2147483648 then u else (u : Int) - 4294967296

/-- The conversion `%x` of `sscanf` on a 32-bit target, stored into an `int`:
white space, an optional sign, an optional `0x`, then the longest run of
hexadecimal digits, converted as by `strtoul`; it fails when there is no digit. -/
def scanHex (s : List Nat) : Option (Int × List Nat) :=
  let signed := takeSign (s.dropWhile isspace)
  let body := skipScanHexMark signed.2
  let digits := body.takeWhile isHexDigit
  if digits.isEmpty then none
  else
    let v := accDigits 16 digits 0
    some (toInt32 (if ULONG_MAX < v then ULONG_MAX
                   else if signed.1 then (4294967296 - v) % 4294967296 else v),
          body.dropWhile isHexDigit)

/-- The values `sscanf` converts for a format made of the given items, in
order; the scan stops at the first item that does not match. -/
def scanItems : List ScanItem → List Nat → List Int
  | [], _ => []
  | ScanItem.dec :: fmt, s =>
    match scanInt s with
    | some (v, rest) => v :: scanItems fmt rest
    | none => []
  | ScanItem.hex :: fmt, s =>
    match scanHex s with
    | some (v, rest) => v :: scanItems fmt rest
    | none => []
  | ScanItem.lit c :: fmt, s =>
    match s with
    | x :: rest => if x = c then scanItems fmt rest else []
    | [] => []

/-- The format `"%d,%d,\"%x\",\"%x\",%d"`. -/
def cregFormat5 : List ScanItem :=
  [ScanItem.dec, ScanItem.lit 44, ScanItem.dec, ScanItem.lit 44, ScanItem.lit 34, ScanItem.hex,
   ScanItem.lit 34, ScanItem.lit 44, ScanItem.lit 34, ScanItem.hex, ScanItem.lit 34,
   ScanItem.lit 44, ScanItem.dec]

/-- The format `"%d,\"%x\",\"%x\",%d"`. -/
def cregFormat4 : List ScanItem :=
  [ScanItem.dec, ScanItem.lit 44, ScanItem.lit 34, ScanItem.hex, ScanItem.lit 34,
   ScanItem.lit 44, ScanItem.lit 34, ScanItem.hex, ScanItem.lit 34, ScanItem.lit 44,
   ScanItem.dec]

/-- `CellularHelperCREGResponse` (AT+CREG?). -/
structure CREGResponse where
  resp : Int
  command : List Nat
  string : List Nat
  valid : Bool
  stat : Int
  lac : Int
  ci : Int
  rat : Int
  deriving DecidableEq, Repr

namespace CREGResponse

/-- A newly constructed object: the member initialisers of the header, the
`int` initialised with `0xFFFFFFFF` holding -1. -/
def create : CREGResponse :=
  { resp := RESP_ERROR, command := [], string := [], valid := false, stat := 0, lac := 0xFFFF,
    ci := -1, rat := 0 }

/-- The stores `sscanf` makes into `&stat, &lac, &ci, &rat` for the values it
converted, in that order. -/
def store (r : CREGResponse) : List Int → CREGResponse
  | [] => r
  | [a] => { r with stat := a }
  | [a, b] => { r with stat := a, lac := b }
  | [a, b, c] => { r with stat := a, lac := b, ci := c }
  | a :: b :: c :: d :: _ => { r with stat := a, lac := b, ci := c, rat := d }

/-- `CellularHelperCREGResponse::postProcess` (lines 789-803).  The first value of
the five-field format goes to the local `n`. -/
def postProcess (r : CREGResponse) : CREGResponse :=
  if (scanItems cregFormat5 (cstr r.string)).length = 5 then
    { r.store ((scanItems cregFormat5 (cstr r.string)).drop 1) with valid := true }
  else if (scanItems cregFormat4 (cstr r.string)).length = 4 then
    { (r.store ((scanItems cregFormat5 (cstr r.string)).drop 1)).store
        (scanItems cregFormat4 (cstr r.string)) with valid := true }
  else
    (r.store ((scanItems cregFormat5 (cstr r.string)).drop 1)).store
      (scanItems cregFormat4 (cstr r.string))

end CREGResponse

/-- Digits of `n` in base 16, lowest first, with `A`-`F` or `a`-`f`; `fuel`
bounds their number. -/
def hexRev (upper : Bool) : Nat → Nat → List Nat
  | 0, _ => []
  | fuel + 1, n =>
    (if n % 16 < 10 then 48 + n % 16 else (if upper then 55 else 87) + n % 16) ::
      (if n < 16 then [] else hexRev upper fuel (n / 16))

/-- The hexadecimal text of a natural number. -/
def formatHex (upper : Bool) (n : Nat) : List Nat := (hexRev upper (n + 1) n).reverse

/-! ## Further notions used in the statements -/

/-- A decoder whose command fits the 32-byte `searchFor` buffer and whose
neighbor array is at least as long as the declared `numNeighbors`. -/
structure WellFormed (e : EnvironmentResponse) : Prop where
  command_fits : (cstr e.command).length ≤ 28
  storage : ∀ arr, e.neighbors = some arr → e.numNeighbors ≤ arr.length

/-- The text `"q1" p1 "q2" p2 ...` made of quoted parts `q` each followed by an
unquoted part `p`. -/
def quotedText : List (List Nat × List Nat) → List Nat
  | [] => []
  | (q, p) :: more => 34 :: q ++ 34 :: p ++ quotedText more

/-- The quoted parts of `quotedText`, one after the other. -/
def quotedParts : List (List Nat × List Nat) → List Nat
  | [] => []
  | (q, _) :: more => q ++ quotedParts more

/-- The five-field line `n,stat,"lac","ci",rat` of AT+CREG?, the decimal fields
written as by `%d`, the hexadecimal ones in upper or lower case. -/
def cregLine5 (n stat : Int) (upLac : Bool) (lac : Nat) (upCi : Bool) (ci : Nat) (rat : Int) :
    List Nat :=
  formatInt n ++ 44 :: (formatInt stat ++ 44 :: 34 :: (formatHex upLac lac ++
    34 :: 44 :: 34 :: (formatHex upCi ci ++ 34 :: 44 :: formatInt rat)))

/-- The four-field line `stat,"lac","ci",rat` of AT+CREG?. -/
def cregLine4 (stat : Int) (upLac : Bool) (lac : Nat) (upCi : Bool) (ci : Nat) (rat : Int) :
    List Nat :=
  formatInt stat ++ 44 :: 34 :: (formatHex upLac lac ++
    34 :: 44 :: 34 :: (formatHex upCi ci ++ 34 :: 44 :: formatInt rat))

/-- The other letter case of a letter; any other byte is left as it is. -/
def flipCase (c : Nat) : Nat :=
  if 97 ≤ c ∧ c ≤ 122 then c - 32 else if 65 ≤ c ∧ c ≤ 90 then c + 32 else c

/-- A line with the letter case of its keys changed.  The key of a
comma-separated pair is what stands before its first colon; `mask` tells for the
key bytes of the line, one after the other, whether the case is flipped (no when
`mask` is used up).  `inKey` tells whether the scan is inside a key. -/
def recaseKeys : Bool → List Bool → List Nat → List Nat
  | _, _, [] => []
  | inKey, mask, c :: cs =>
    if c = 44 then 44 :: recaseKeys true mask cs
    else if c = 58 then 58 :: recaseKeys false mask cs
    else if inKey then
      (if mask.headD false then flipCase c else c) :: recaseKeys true mask.tail cs
    else c :: recaseKeys false mask cs

/-- A line with spaces inserted after its commas: `counts` gives their number
for the commas of the line, one after the other (none when `counts` is used up). -/
def padCommas : List Nat → List Nat → List Nat
  | _, [] => []
  | counts, c :: cs =>
    if c = 44 then 44 :: (List.replicate (counts.headD 0) 32 ++ padCommas counts.tail cs)
    else c :: padCommas counts cs

/-- Two beginnings of a pair that differ by the letter case of the key only;
`inKey` tells that no colon has been met yet. -/
def KeyRel (inKey : Bool) (p q : List Nat) : Prop :=
  ∃ k j v, p = k ++ v ∧ q = j ++ v ∧ k.map toupper = j.map toupper ∧ 58 ∉ k ∧
    (if inKey then v = [] else ∃ w, v = 58 :: w)

/-- The uplink channels that the `switch` of `getBand` lists one by one as
`case` labels (lines 426-547), in source order. -/
def listedChannels : List Int :=
  [12, 37, 62, 87, 112, 137, 162, 187, 212, 237, 262, 287] ++
  [1662, 1687, 1712, 1737, 1762, 1787, 1812, 1837, 1862] ++
  [782, 787, 807, 812, 837, 862] ++
  [2362, 2387, 2412, 2437, 2462, 2487, 2512, 2537, 2562, 2587, 2612, 2637, 2662, 2687] ++
  [3187, 3212, 3237, 3262, 3287, 3312, 3337, 3362, 3387, 3412, 3437, 3462] ++
  [3707, 3732, 3737, 3762, 3767] ++
  [3842, 3867] ++
  [3942, 3967] ++
  [387, 412, 437] ++
  [6067, 6092, 6117, 6142, 6167, 6192, 6217, 6242, 6267, 6292, 6317, 6342, 6367] ++
  [5712, 5737, 5762, 5767, 5787, 5792, 5812, 5817, 5837, 5842, 5862]

/-- The key of a comma-separated pair as `CellData.parse` hands it to
`addKeyValue`: what stands between the leading spaces and the first colon;
`none` for a pair without colon. -/
def pairKey (pair : List Nat) : Option (List Nat) :=
  (splitAtByte 58 (pair.dropWhile (fun c => c == 32))).map (fun p => p.1)

/-- The keys for which `addKeyValue` stores something (lines 358-405). -/
def effectiveKeys : List (List Nat) :=
  [str "RAT", str "MCC", str "MNC", str "LAC", str "CI", str "BSIC", str "ARFCN", str "RXLEV",
   str "DLF", str "ULF", str "RSCP LEV"]

/-- The keys that `addKeyValue` recognizes and ignores (lines 388-390, 408-410). -/
def ignoredKeys : List (List Nat) :=
  [str "ARFCN_DED", str "RXLEVSUB", str "T_ADV", str "RAC", str "SC", str "ECN0 LEV"]

/-- A pair that has no colon, or a key longer than 15 bytes, or a key that in
upper case is not one of `effectiveKeys`. -/
def inertSegment (seg : List Nat) : Bool :=
  match pairKey seg with
  | none => true
  | some key => decide (key.length > 15) || decide (key.map toupper ∉ effectiveKeys)

/-- `CellularHelperEnvironmentCellData::getBandString` (lines 616-664);
`String(freq)` is the decimal text of `freq`. -/
def CellData.getBandString (r : CellData) : List Nat :=
  let freq := r.getBand
  if r.isUMTS then
    if (r.ulf ≥ 0 ∧ r.ulf ≤ 124) ∨ (r.ulf ≥ 128 ∧ r.ulf ≤ 251) then str "GSM " ++ formatInt freq
    else if r.ulf ≥ 512 ∧ r.ulf ≤ 885 then str "DCS 1800"
    else if r.ulf ≥ 975 ∧ r.ulf ≤ 1023 then str "ESGM 900"
    else if freq ≠ 0 then str "UMTS " ++ formatInt freq
    else str "3G unknown"
  else
    if r.arfcn ≥ 512 ∧ r.arfcn ≤ 885 then str "DCS 1800 or 1900"
    else if r.arfcn ≥ 975 ∧ r.arfcn ≤ 1024 then str "EGSM 900"
    else if freq ≠ 0 then str "GSM " ++ formatInt freq
    else str "2G unknown"

/-- The value of a hexadecimal digit byte. -/
def hexDigitValue (c : Nat) : Nat :=
  if c ≤ 57 then c - 48 else if c ≤ 70 then c - 55 else c - 87

/-- The base-16 value of a string of hexadecimal digits, highest digit first. -/
def hexValue (h : List Nat) : Nat := h.foldl (fun acc c => acc * 16 + hexDigitValue c) 0

/-- The pair whose entries `checkOperator` names on a line, `none` for a line
that it leaves aside (the tests of lines 153-170). -/
def COPNResponse.lineKey (buf : List Nat) : Option (Int × Int) :=
  match buf with
  | 34 :: numStart =>
    match splitAtByte 34 numStart with
    | some (num, afterNum) =>
      if num.length = 6 then
        match splitAtByte 34 afterNum with
        | some (_, nameStart) =>
          match splitAtByte 34 nameStart with
          | some (_, _) => some (atoi (num.take 3), atoi ((num.drop 3).take 3))
          | none => none
        | none => none
      else none
    | none => none
  | _ => none

/-- The pair whose entries `parse` names on a fragment, `none` for a fragment
that changes no name. -/
def COPNResponse.fragmentKey (type : RespType) (buf : List Nat) : Option (Int × Int) :=
  if type = RespType.TYPE_PLUS then
    match strstr (cstr buf) (str "\n+COPN: ") with
    | some found =>
      match splitAtByte 13 (found.drop 8) with
      | some (line, _) => COPNResponse.lineKey line
      | none => none
    | none => none
  else none

/-! ## Theorems -/

/-- C1: `rssiToBars` follows the five-bucket threshold table: 5 on `-57 ≤ rssi < 0`,
4 on `-68 < rssi < -57`, 3 on `-80 < rssi ≤ -68`, 2 on `-92 < rssi ≤ -80`,
1 on `-104 < rssi ≤ -92`, and 0 everywhere else (`rssi ≤ -104` or `rssi ≥ 0`);
the boundary values -57, -68, -104 and -105 give 5, 3, 0 and 0. -/
theorem rssiToBars_table (rssi : Int) :
    ((-57 ≤ rssi ∧ rssi < 0) → rssiToBars rssi = 5) ∧
    ((-68 < rssi ∧ rssi < -57) → rssiToBars rssi = 4) ∧
    ((-80 < rssi ∧ rssi ≤ -68) → rssiToBars rssi = 3) ∧
    ((-92 < rssi ∧ rssi ≤ -80) → rssiToBars rssi = 2) ∧
    ((-104 < rssi ∧ rssi ≤ -92) → rssiToBars rssi = 1) ∧
    ((rssi ≤ -104 ∨ 0 ≤ rssi) → rssiToBars rssi = 0) ∧
    rssiToBars (-57) = 5 ∧ rssiToBars (-68) = 3 ∧
    rssiToBars (-104) = 0 ∧ rssiToBars (-105) = 0 := by
  refine ⟨?_, ?_, ?_, ?_, ?_, ?_, by decide, by decide, by decide, by decide⟩ <;>
    intro h <;> unfold rssiToBars <;> split_ifs <;> omega

/-- C2 (as stated, refuted): RSSI -1 gives 5 bars and the larger RSSI 0 gives
0 bars, so the bars value is not non-decreasing over all integers. -/
theorem rssiToBars_not_monotone :
    (-1 : Int) ≤ 0 ∧ rssiToBars (-1) = 5 ∧ rssiToBars 0 = 0 ∧
      ¬ (rssiToBars (-1) ≤ rssiToBars 0) := by
  decide

/-- C2 (amended): for RSSI values `a ≤ b`, `rssiToBars a ≤ rssiToBars b` holds
exactly when `b < 0`, or `0 ≤ a`, or `a ≤ -104`; in particular the bars value is
non-decreasing over the negative RSSI values. -/
theorem rssiToBars_monotone_iff (a b : Int) (hab : a ≤ b) :
    rssiToBars a ≤ rssiToBars b ↔ (b < 0 ∨ 0 ≤ a ∨ a ≤ -104) := by
  unfold rssiToBars
  constructor
  · intro h
    by_contra hc
    push_neg at hc
    obtain ⟨h1, h2, h3⟩ := hc
    rw [if_neg (by omega : ¬ b < 0)] at h
    rw [if_pos h2] at h
    split_ifs at h <;> omega
  · intro h
    split_ifs <;> omega

/-- Instance of the amended C2 at RSSI -60 and -50. -/
theorem rssiToBars_monotone_iff_witness :
    rssiToBars (-60) ≤ rssiToBars (-50) ↔ ((-50 : Int) < 0 ∨ (0 : Int) ≤ -60 ∨ (-60 : Int) ≤ -104) :=
  rssiToBars_monotone_iff (-60) (-50) (by decide)

/-- A line that does not start with `+` is never taken for the command's tag. -/
theorem skipTag_of_head_ne (e : EnvironmentResponse) (type : RespType) (c : Nat)
    (rest : List Nat) (hc : c ≠ 43) : e.skipTag type (c :: rest) = some (c :: rest) := by
  have hplus : str "+" = [43] := rfl
  unfold EnvironmentResponse.skipTag strncmpEq EnvironmentResponse.searchFor
    EnvironmentResponse.searchForLen
  rw [if_neg]
  rintro ⟨-, h⟩
  rw [hplus] at h
  simp [hc] at h

/-- C3: the line `MCC:310,MNC:260,LAC:ab22,CI:a78a,BSIC:23,Arfcn:596,RxLev:24`,
fed as an unlabeled or as a tagged fragment to a newly constructed decoder
without neighbors (whatever command tag it is then given), is accepted with
`WAIT` and leaves a service record with mcc 310, mnc 260, lac 0xab22, ci 0xa78a,
isUMTS false and arfcn 596 (decimal), for which `isValid(false)` is true. -/
theorem environment_roundtrip (command : List Nat) (lac ci bsic arfcn rxlev dlf ulf : Int) :
    ∃ e1 e2 : EnvironmentResponse,
      ({ EnvironmentResponse.create (CellData.fresh lac ci bsic arfcn rxlev dlf ulf) with
          command := command }).parse RespType.TYPE_UNKNOWN
          (str "MCC:310,MNC:260,LAC:ab22,CI:a78a,BSIC:23,Arfcn:596,RxLev:24") = some (e1, WAIT) ∧
      ({ EnvironmentResponse.create (CellData.fresh lac ci bsic arfcn rxlev dlf ulf) with
          command := command }).parse RespType.TYPE_PLUS
          (str "MCC:310,MNC:260,LAC:ab22,CI:a78a,BSIC:23,Arfcn:596,RxLev:24") = some (e2, WAIT) ∧
      e1 = e2 ∧
      e1.service.mcc = 310 ∧ e1.service.mnc = 260 ∧ e1.service.lac = 0xab22 ∧
      e1.service.ci = 0xa78a ∧ e1.service.isUMTS = false ∧ e1.service.arfcn = 596 ∧
      e1.service.arfcn ≠ 0x596 ∧ e1.service.isValid false = true := by
  refine ⟨_, _, rfl, ?_, rfl, rfl, rfl, rfl, rfl, rfl, rfl,
    by show (596 : Int) ≠ 0x596; decide, rfl⟩
  have htok : strtokAll (cstr (str "MCC:310,MNC:260,LAC:ab22,CI:a78a,BSIC:23,Arfcn:596,RxLev:24"))
      (str "\r\n") = [str "MCC:310,MNC:260,LAC:ab22,CI:a78a,BSIC:23,Arfcn:596,RxLev:24"] := by rfl
  have hline : str "MCC:310,MNC:260,LAC:ab22,CI:a78a,BSIC:23,Arfcn:596,RxLev:24" =
      77 :: str "CC:310,MNC:260,LAC:ab22,CI:a78a,BSIC:23,Arfcn:596,RxLev:24" := rfl
  unfold EnvironmentResponse.parse
  rw [htok, if_pos (Or.inr rfl)]
  simp only [List.foldlM, EnvironmentResponse.parseLine]
  rw [hline, skipTag_of_head_ne _ _ _ _ (by decide)]
  rfl

/-- C4: `isValid(ignoreCI)` is false exactly when `mcc > 999`, or `ignoreCI` is
false and the cell identity is out of range for the generation (`ci ≥ 0x0FFFFFFF`
for 3G, `ci ≥ 0xFFFF` for 2G); a newly constructed record is invalid either way. -/
theorem isValid_false_iff (r : CellData) (ignoreCI : Bool)
    (lac ci bsic arfcn rxlev dlf ulf : Int) :
    (r.isValid ignoreCI = false ↔
      (r.mcc > 999 ∨ (ignoreCI = false ∧
        ((r.isUMTS = true ∧ r.ci ≥ 0x0FFFFFFF) ∨ (r.isUMTS = false ∧ r.ci ≥ 0xFFFF))))) ∧
    (CellData.fresh lac ci bsic arfcn rxlev dlf ulf).isValid ignoreCI = false := by
  constructor
  · unfold CellData.isValid
    cases ignoreCI <;> cases hu : r.isUMTS <;> simp <;> omega
  · simp [CellData.isValid, CellData.fresh]

/-- C5: on a 2G record `getBand` is 900 for arfcn in 0..124 or 975..1023, 850 for
128..251, 1800 for 512..885 and 0 for every other arfcn, whatever the other
fields hold. -/
theorem getBand_2G (r : CellData) (h2G : r.isUMTS = false) :
    (((0 ≤ r.arfcn ∧ r.arfcn ≤ 124) ∨ (975 ≤ r.arfcn ∧ r.arfcn ≤ 1023)) → r.getBand = 900) ∧
    ((128 ≤ r.arfcn ∧ r.arfcn ≤ 251) → r.getBand = 850) ∧
    ((512 ≤ r.arfcn ∧ r.arfcn ≤ 885) → r.getBand = 1800) ∧
    (¬ ((0 ≤ r.arfcn ∧ r.arfcn ≤ 124) ∨ (975 ≤ r.arfcn ∧ r.arfcn ≤ 1023) ∨
        (128 ≤ r.arfcn ∧ r.arfcn ≤ 251) ∨ (512 ≤ r.arfcn ∧ r.arfcn ≤ 885)) → r.getBand = 0) := by
  unfold CellData.getBand
  rw [h2G]
  simp only [Bool.false_eq_true, if_false]
  refine ⟨?_, ?_, ?_, ?_⟩ <;> intro h <;> split_ifs <;> omega

/-- Instance of C5 at a newly constructed record with arfcn 596. -/
theorem getBand_2G_witness :
    (CellData.fresh 0 0 0 596 0 0 0).getBand = 1800 :=
  ((getBand_2G (CellData.fresh 0 0 0 596 0 0 0) rfl).2.2.1) (by decide)

/-- A conditional lies in a list as soon as both of its branches do. -/
theorem ite_mem_of_mem {c : Prop} [Decidable c] {a b : Int} {l : List Int}
    (ha : a ∈ l) (hb : b ∈ l) : (if c then a else b) ∈ l := by
  split_ifs <;> assumption

/-- On a 3G record `getBand` is a function of the uplink channel alone. -/
theorem getBand_3G_at (r : CellData) (h3G : r.isUMTS = true) (v : Int) (hv : r.ulf = v) :
    r.getBand = ({ CellData.fresh 0 0 0 0 0 0 v with isUMTS := true }).getBand := by
  cases r
  simp only at h3G hv
  subst h3G
  subst hv
  rfl

/-- C6 (as stated, refuted): a 3G record with uplink channel 2362 (IMT-E) has
band 2600, which is neither 0 nor one of 700, 800, 850, 900, 1700, 1800, 1900,
2100. -/
theorem getBand_outside_enumeration :
    ({ CellData.fresh 0 0 0 0 0 0 2362 with isUMTS := true }).getBand = 2600 ∧
      ({ CellData.fresh 0 0 0 0 0 0 2362 with isUMTS := true }).getBand ∉
        ([0, 700, 800, 850, 900, 1700, 1800, 1900, 2100] : List Int) := by
  decide

/-- C6 (amended): for every cell record `getBand` is 0 or one of 700, 800, 850,
900, 1700, 1800, 1900, 2100, 2600. -/
theorem getBand_mem_enumeration (r : CellData) :
    r.getBand ∈ ([0, 700, 800, 850, 900, 1700, 1800, 1900, 2100, 2600] : List Int) := by
  unfold CellData.getBand CellData.band800Group
  repeat' apply ite_mem_of_mem
  all_goals decide

/-- C7 (the code at the failing input): on a 3G record with uplink channel 3942
or 3967 `getBand` is 800, not the 700 assigned under `case 3967`, because that
group has no `break`. -/
theorem getBand_usmhD (r : CellData) :
    ({ r with isUMTS := true, ulf := 3942 }).getBand = 800 ∧
    ({ r with isUMTS := true, ulf := 3967 }).getBand = 800 ∧
    ({ r with isUMTS := true, ulf := 3942 }).getBand ≠ 700 ∧
    ({ r with isUMTS := true, ulf := 3967 }).getBand ≠ 700 := by
  refine ⟨rfl, rfl, ?_, ?_⟩ <;>
    · show (800 : Int) ≠ 700
      decide

/-- C8: on a 3G record each individually listed uplink channel gets the band of
its group, ahead of the generic ranges: 12 + 25k (k ≤ 11) is 1900, 1662 + 25k
(k ≤ 8) is 1700, the six CLR channels are 850, 2362 + 25k (k ≤ 13) is 2600,
3187 + 25k (k ≤ 11) is 1700, the LSMH and USMH C channels are 700, 387, 412, 437
are 800, 6067 + 25k (k ≤ 12) is 1900 and the eleven ECLR channels are 850. -/
theorem getBand_3G_listed (r : CellData) (h3G : r.isUMTS = true) :
    (∀ k : Int, 0 ≤ k → k ≤ 11 → r.ulf = 12 + 25 * k → r.getBand = 1900) ∧
    (∀ k : Int, 0 ≤ k → k ≤ 8 → r.ulf = 1662 + 25 * k → r.getBand = 1700) ∧
    (r.ulf ∈ ([782, 787, 807, 812, 837, 862] : List Int) → r.getBand = 850) ∧
    (∀ k : Int, 0 ≤ k → k ≤ 13 → r.ulf = 2362 + 25 * k → r.getBand = 2600) ∧
    (∀ k : Int, 0 ≤ k → k ≤ 11 → r.ulf = 3187 + 25 * k → r.getBand = 1700) ∧
    (r.ulf ∈ ([3707, 3732, 3737, 3762, 3767] : List Int) → r.getBand = 700) ∧
    (r.ulf ∈ ([3842, 3867] : List Int) → r.getBand = 700) ∧
    (r.ulf ∈ ([387, 412, 437] : List Int) → r.getBand = 800) ∧
    (∀ k : Int, 0 ≤ k → k ≤ 12 → r.ulf = 6067 + 25 * k → r.getBand = 1900) ∧
    (r.ulf ∈ ([5712, 5737, 5762, 5767, 5787, 5792, 5812, 5817, 5837, 5842, 5862] : List Int) →
      r.getBand = 850) := by
  refine ⟨?_, ?_, ?_, ?_, ?_, ?_, ?_, ?_, ?_, ?_⟩
  · intro k h0 h1 hk
    rw [getBand_3G_at r h3G _ hk]
    interval_cases k <;> decide
  · intro k h0 h1 hk
    rw [getBand_3G_at r h3G _ hk]
    interval_cases k <;> decide
  · intro h
    simp only [List.mem_cons, List.mem_singleton, List.not_mem_nil, or_false] at h
    rcases h with h | h | h | h | h | h <;> (rw [getBand_3G_at r h3G _ h]; decide)
  · intro k h0 h1 hk
    rw [getBand_3G_at r h3G _ hk]
    interval_cases k <;> decide
  · intro k h0 h1 hk
    rw [getBand_3G_at r h3G _ hk]
    interval_cases k <;> decide
  · intro h
    simp only [List.mem_cons, List.mem_singleton, List.not_mem_nil, or_false] at h
    rcases h with h | h | h | h | h <;> (rw [getBand_3G_at r h3G _ h]; decide)
  · intro h
    simp only [List.mem_cons, List.mem_singleton, List.not_mem_nil, or_false] at h
    rcases h with h | h <;> (rw [getBand_3G_at r h3G _ h]; decide)
  · intro h
    simp only [List.mem_cons, List.mem_singleton, List.not_mem_nil, or_false] at h
    rcases h with h | h | h <;> (rw [getBand_3G_at r h3G _ h]; decide)
  · intro k h0 h1 hk
    rw [getBand_3G_at r h3G _ hk]
    interval_cases k <;> decide
  · intro h
    simp only [List.mem_cons, List.mem_singleton, List.not_mem_nil, or_false] at h
    rcases h with h | h | h | h | h | h | h | h | h | h | h <;>
      (rw [getBand_3G_at r h3G _ h]; decide)

/-- Instance of C8: uplink channel 12 lies in the generic range 0..124 (900) and
still gives 1900. -/
theorem getBand_3G_listed_witness :
    ({ CellData.fresh 0 0 0 0 0 0 12 with isUMTS := true }).getBand = 1900 :=
  (getBand_3G_listed { CellData.fresh 0 0 0 0 0 0 12 with isUMTS := true } rfl).1 0
    (by decide) (by decide) (by decide)

/-- An `int` operation whose exact result is in the `int` range yields it. -/
theorem wrapInt32_of_range (z : Int) (hlo : LONG_MIN ≤ z) (hhi : z ≤ LONG_MAX) :
    wrapInt32 z = z := by
  unfold LONG_MIN at hlo
  unfold LONG_MAX at hhi
  unfold wrapInt32
  omega

/-- With a command of at most 28 bytes `searchFor` is not truncated, and the
tag is only skipped on a line that holds all of it. -/
theorem skipTag_isSome (e : EnvironmentResponse) (type : RespType) (line : List Nat)
    (hcmd : (cstr e.command).length ≤ 28) : ∃ rest, e.skipTag type line = some rest := by
  unfold EnvironmentResponse.skipTag
  split_ifs with h1 h2
  · exact ⟨_, rfl⟩
  · exfalso
    obtain ⟨-, h⟩ := h1
    unfold strncmpEq EnvironmentResponse.searchFor at h
    have hlen := congrArg List.length (eq_of_beq h)
    unfold EnvironmentResponse.searchForLen at hlen h2
    have h1len : (str "+").length = 1 := rfl
    have h2len : (str ": ").length = 2 := rfl
    simp only [List.length_take, List.length_append, h1len, h2len] at hlen
    omega
  · exact ⟨_, rfl⟩

/-- Same storage relation after one more slot below `n` has been written. -/
theorem sameBeyond_write (n : Nat) (start : Option (List CellData)) (arr arr2 : List CellData)
    (i : Nat) (line : List Nat) (hi : i < n) (h : sameBeyond n start (some arr))
    (hw : EnvironmentResponse.writeNeighbor arr i line = some arr2) :
    sameBeyond n start (some arr2) := by
  unfold EnvironmentResponse.writeNeighbor at hw
  cases hget : arr.get? i with
  | none => rw [hget] at hw; exact absurd hw (by simp)
  | some cell =>
    rw [hget] at hw
    simp only [Option.some.injEq] at hw
    subst hw
    cases start with
    | none => exact h
    | some a =>
      obtain ⟨hl, hd⟩ := h
      exact ⟨by rw [List.length_set]; exact hl, by rw [List.drop_set_of_lt _ _ hi]; exact hd⟩

/-- A write below the declared capacity lands in the array when the array is at
least as long as declared. -/
theorem writeNeighbor_isSome (arr : List CellData) (i : Nat) (line : List Nat)
    (hi : i < arr.length) : ∃ arr2, EnvironmentResponse.writeNeighbor arr i line = some arr2 := by
  unfold EnvironmentResponse.writeNeighbor
  rw [List.get?_eq_get hi]
  exact ⟨_, rfl⟩

/-- Routing one line keeps the decoder within its capacity and never faults. -/
theorem routeLine_bounded (n : Nat) (start e : EnvironmentResponse) (line : List Nat)
    (hcap : ∀ arr, start.neighbors = some arr → n ≤ arr.length) (hb : Bounded n start e) :
    ∃ e2, e.routeLine line = some e2 ∧ Bounded n start e2 := by
  obtain ⟨hc, hn, hlo, hhi, hs⟩ := hb
  unfold EnvironmentResponse.routeLine
  by_cases hm : strncmpEq line (str "MCC:") 4 = true
  · rw [if_pos hm]
    by_cases hneg : e.curDataIndex < 0
    · rw [if_pos hneg]
      exact ⟨_, rfl, ⟨hc, hn, by simp only; omega, by simp only; omega, hs⟩⟩
    · rw [if_neg hneg]
      cases hnb : e.neighbors with
      | none => exact ⟨_, rfl, ⟨hc, hn, hlo, hhi, hs⟩⟩
      | some arr =>
        simp only
        by_cases hlt : e.curDataIndex.toNat < e.numNeighbors
        · rw [if_pos hlt]
          rw [hnb] at hs
          have hlen : n ≤ arr.length := by
            cases hst : start.neighbors with
            | none => rw [hst] at hs; exact absurd hs (by simp [sameBeyond])
            | some a =>
              rw [hst] at hs
              have := hcap a hst
              have := hs.1
              omega
          obtain ⟨arr2, hw⟩ := writeNeighbor_isSome arr e.curDataIndex.toNat line (by omega)
          rw [hw]
          refine ⟨_, rfl, ⟨hc, hn, by simp only; omega, by simp only; omega, ?_⟩⟩
          exact sameBeyond_write n _ arr arr2 _ line (by omega) hs hw
        · rw [if_neg hlt]
          exact ⟨_, rfl, ⟨hc, hn, hlo, hhi, hs⟩⟩
  · rw [if_neg hm]
    split_ifs
    · exact ⟨_, rfl, ⟨hc, hn, hlo, hhi, hs⟩⟩
    · exact ⟨_, rfl, ⟨hc, hn, hlo, hhi, hs⟩⟩

/-- One pass of the line loop keeps the decoder within its capacity. -/
theorem parseLine_bounded (n : Nat) (start e : EnvironmentResponse) (type : RespType)
    (line : List Nat) (hcmd : (cstr start.command).length ≤ 28)
    (hcap : ∀ arr, start.neighbors = some arr → n ≤ arr.length) (hb : Bounded n start e) :
    ∃ e2, EnvironmentResponse.parseLine type e line = some e2 ∧ Bounded n start e2 := by
  unfold EnvironmentResponse.parseLine
  split_ifs
  · exact ⟨e, rfl, hb⟩
  · obtain ⟨rest, hrest⟩ := skipTag_isSome e type line (by rw [hb.command_eq]; exact hcmd)
    rw [hrest]
    exact routeLine_bounded n start e rest hcap hb

/-- The whole line loop keeps the decoder within its capacity. -/
theorem foldlM_parseLine_bounded (n : Nat) (start : EnvironmentResponse) (type : RespType)
    (hcmd : (cstr start.command).length ≤ 28)
    (hcap : ∀ arr, start.neighbors = some arr → n ≤ arr.length) (lines : List (List Nat)) :
    ∀ e, Bounded n start e →
      ∃ e2, lines.foldlM (EnvironmentResponse.parseLine type) e = some e2 ∧ Bounded n start e2 := by
  induction lines with
  | nil => intro e hb; exact ⟨e, rfl, hb⟩
  | cons line rest ih =>
    intro e hb
    obtain ⟨e1, h1, hb1⟩ := parseLine_bounded n start e type line hcmd hcap hb
    obtain ⟨e2, h2, hb2⟩ := ih e1 hb1
    refine ⟨e2, ?_, hb2⟩
    rw [List.foldlM_cons, h1]
    exact h2

/-- One call of `parse` keeps the decoder within its capacity and returns `WAIT`. -/
theorem parse_bounded (n : Nat) (start e : EnvironmentResponse) (type : RespType)
    (buf : List Nat) (hcmd : (cstr start.command).length ≤ 28)
    (hcap : ∀ arr, start.neighbors = some arr → n ≤ arr.length) (hb : Bounded n start e) :
    ∃ e2, e.parse type buf = some (e2, WAIT) ∧ Bounded n start e2 := by
  unfold EnvironmentResponse.parse
  split_ifs
  · obtain ⟨e2, h2, hb2⟩ := foldlM_parseLine_bounded n start type hcmd hcap _ e hb
    rw [h2]
    exact ⟨e2, rfl, hb2⟩
  · exact ⟨e, rfl, hb⟩

/-- Any sequence of fragments keeps the decoder within its capacity. -/
theorem feed_bounded (n : Nat) (start : EnvironmentResponse)
    (hcmd : (cstr start.command).length ≤ 28)
    (hcap : ∀ arr, start.neighbors = some arr → n ≤ arr.length)
    (frags : List (RespType × List Nat)) :
    ∀ e, Bounded n start e → ∃ e2, e.feed frags = some e2 ∧ Bounded n start e2 := by
  induction frags with
  | nil => intro e hb; exact ⟨e, rfl, hb⟩
  | cons f fs ih =>
    intro e hb
    obtain ⟨e1, h1, hb1⟩ := parse_bounded n start e f.1 f.2 hcmd hcap hb
    obtain ⟨e2, h2, hb2⟩ := ih e1 hb1
    refine ⟨e2, ?_, hb2⟩
    unfold EnvironmentResponse.feed
    rw [h1]
    exact h2

/-- The scan of `getNumNeighbors` stays inside the array and stops at or before
the cursor. -/
theorem scanNeighbors_le (m : Nat) :
    ∀ (arr : List CellData) (ii : Nat), m ≤ arr.length →
      ∃ k, EnvironmentResponse.scanNeighbors arr m ii = some k ∧ k ≤ ii + m := by
  induction m with
  | zero =>
    intro arr ii _
    cases arr <;> exact ⟨ii, rfl, by omega⟩
  | succ m ih =>
    intro arr ii hlen
    cases arr with
    | nil => simp at hlen
    | cons c cs =>
      unfold EnvironmentResponse.scanNeighbors
      split_ifs
      · obtain ⟨k, hk, hle⟩ := ih cs (ii + 1) (by simpa using hlen)
        exact ⟨k, hk, by omega⟩
      · exact ⟨ii, rfl, by omega⟩

/-- C10: a newly constructed decoder of neighbor capacity `n` (cursor -1, an
array of at least the declared `n` slots or no array, command of at most 28
bytes so that `searchFor` holds it) accepts every sequence of fragments without
fault; afterwards the cursor is within `-1..n`, the array has its length and its
slots from `n` on are as they were, and `getNumNeighbors()` reads inside the
array and is at most `n`. -/
theorem environment_cursor_bounded (n : Nat) (e : EnvironmentResponse)
    (frags : List (RespType × List Nat))
    (hcur : e.curDataIndex = -1) (hnum : e.numNeighbors = n)
    (hcap : ∀ arr, e.neighbors = some arr → n ≤ arr.length)
    (hcmd : (cstr e.command).length ≤ 28) :
    ∃ e2, e.feed frags = some e2 ∧ -1 ≤ e2.curDataIndex ∧ e2.curDataIndex ≤ n ∧
      sameBeyond n e.neighbors e2.neighbors ∧
      ∃ k, e2.getNumNeighbors = some k ∧ k ≤ n := by
  have hstart : Bounded n e e := by
    refine ⟨rfl, hnum, by omega, by omega, ?_⟩
    cases hnb : e.neighbors with
    | none => trivial
    | some arr => exact ⟨rfl, rfl⟩
  obtain ⟨e2, hfeed, hb⟩ := feed_bounded n e hcmd hcap frags e hstart
  refine ⟨e2, hfeed, hb.lo, hb.hi, hb.nbrs, ?_⟩
  unfold EnvironmentResponse.getNumNeighbors
  by_cases hneg : e2.curDataIndex < 0
  · rw [if_pos hneg]
    exact ⟨0, rfl, Nat.zero_le n⟩
  · rw [if_neg hneg]
    have hhi := hb.hi
    cases hnb : e2.neighbors with
    | none => exact ⟨_, rfl, by omega⟩
    | some arr2 =>
      have hs := hb.nbrs
      rw [hnb] at hs
      have hlen : n ≤ arr2.length := by
        cases hst : e.neighbors with
        | none => rw [hst] at hs; exact absurd hs (by simp [sameBeyond])
        | some a =>
          rw [hst] at hs
          have := hcap a hst
          have := hs.1
          omega
      obtain ⟨k, hk, hle⟩ := scanNeighbors_le e2.curDataIndex.toNat arr2 0 (by omega)
      exact ⟨k, hk, by omega⟩

/-- Instance of C10: a decoder with one neighbor slot fed four `MCC:` lines, two
of them in one fragment. -/
theorem environment_cursor_bounded_witness :
    ∃ e2, (EnvironmentResponse.createStatic (CellData.fresh 0 0 0 0 0 0 0)
        [CellData.fresh 0 0 0 0 0 0 0]).feed
        [(RespType.TYPE_UNKNOWN, str "MCC:310,CI:1\r\nMCC:310,CI:2\r\n"),
         (RespType.TYPE_PLUS, str "MCC:310,CI:3"),
         (RespType.TYPE_UNKNOWN, str "MCC:310,CI:4")] = some e2 ∧
      -1 ≤ e2.curDataIndex ∧ e2.curDataIndex ≤ (1 : Nat) ∧
      sameBeyond 1 (some [CellData.fresh 0 0 0 0 0 0 0]) e2.neighbors ∧
      ∃ k, e2.getNumNeighbors = some k ∧ k ≤ 1 :=
  environment_cursor_bounded 1
    (EnvironmentResponse.createStatic (CellData.fresh 0 0 0 0 0 0 0)
      [CellData.fresh 0 0 0 0 0 0 0])
    [(RespType.TYPE_UNKNOWN, str "MCC:310,CI:1\r\nMCC:310,CI:2\r\n"),
     (RespType.TYPE_PLUS, str "MCC:310,CI:3"),
     (RespType.TYPE_UNKNOWN, str "MCC:310,CI:4")]
    rfl rfl (fun arr h => by cases h; exact Nat.le_refl 1) (by decide)

/-- A buffer without NUL byte is its own C string. -/
theorem cstr_eq_self (l : List Nat) (h : ∀ c ∈ l, c ≠ 0) : cstr l = l := by
  unfold cstr
  rw [List.takeWhile_eq_self_iff]
  intro c hc
  simpa using h c hc

/-- The token scan takes a byte that is not a delimiter into the current token. -/
theorem strtokAux_cons_clean (delims : List Nat) (c : Nat) (cs cur : List Nat)
    (h : delims.contains c = false) :
    strtokAux delims (c :: cs) cur = strtokAux delims cs (c :: cur) := by
  rw [strtokAux, if_neg (by simpa using h)]

/-- A delimiter closes the current token when there is one. -/
theorem strtokAux_cons_delim (delims : List Nat) (c : Nat) (cs cur : List Nat)
    (h : delims.contains c = true) (hcur : cur ≠ []) :
    strtokAux delims (c :: cs) cur = cur.reverse :: strtokAux delims cs [] := by
  rw [strtokAux, if_pos (by simpa using h), if_neg (by simpa using hcur)]

/-- A delimiter met outside a token is skipped. -/
theorem strtokAux_cons_skip (delims : List Nat) (c : Nat) (cs : List Nat)
    (h : delims.contains c = true) :
    strtokAux delims (c :: cs) [] = strtokAux delims cs [] := by
  rw [strtokAux, if_pos (by simpa using h), if_pos (by rfl)]

/-- The token scan runs over bytes that are not delimiters and collects them. -/
theorem strtokAux_append (delims l : List Nat) (h : ∀ c ∈ l, delims.contains c = false) :
    ∀ (s cur : List Nat),
      strtokAux delims (l ++ s) cur = strtokAux delims s (l.reverse ++ cur) := by
  induction l with
  | nil => intro s cur; rfl
  | cons c cs ih =>
    intro s cur
    have hc : delims.contains c = false := h c (List.mem_cons_self c cs)
    have hcs : ∀ x ∈ cs, delims.contains x = false :=
      fun x hx => h x (List.mem_cons_of_mem c hx)
    rw [List.cons_append, strtokAux_cons_clean delims c _ cur hc, ih hcs s (c :: cur)]
    simp

/-- Bytes other than carriage return and line feed are not line delimiters. -/
theorem not_crlf_of_clean (l : List Nat) (h : ∀ c ∈ l, c ≠ 10 ∧ c ≠ 13) :
    ∀ c ∈ l, (str "\r\n").contains c = false := by
  intro c hc
  have hcrlf : str "\r\n" = [13, 10] := rfl
  have := h c hc
  rw [hcrlf]
  simp [this.1, this.2]

/-- A fragment that is one line without line terminator gives that line. -/
theorem strtokAll_line (l : List Nat) (hne : l ≠ [])
    (h : ∀ c ∈ l, c ≠ 10 ∧ c ≠ 13) : strtokAll l (str "\r\n") = [l] := by
  unfold strtokAll
  have := strtokAux_append (str "\r\n") l (not_crlf_of_clean l h) [] []
  rw [List.append_nil] at this
  rw [this, List.append_nil, strtokAux, if_neg (by simpa using hne), List.reverse_reverse]

/-- The lines of a fragment written by `joinLines` are found again by the scan. -/
theorem strtokAll_joinLines (ls : List (List Nat))
    (h : ∀ l ∈ ls, l ≠ [] ∧ ∀ c ∈ l, c ≠ 10 ∧ c ≠ 13) :
    strtokAll (joinLines ls) (str "\r\n") = ls := by
  unfold strtokAll
  induction ls with
  | nil => rfl
  | cons l ls ih =>
    obtain ⟨hne, hl⟩ := h l (List.mem_cons_self l ls)
    have hcrlf : str "\r\n" = [13, 10] := rfl
    have h13 : (str "\r\n").contains 13 = true := by decide
    have h10 : (str "\r\n").contains 10 = true := by decide
    rw [joinLines, List.append_assoc, strtokAux_append (str "\r\n") l (not_crlf_of_clean l hl),
      List.append_nil]
    nth_rewrite 2 [hcrlf]
    rw [List.cons_append, List.cons_append, List.nil_append,
      strtokAux_cons_delim _ 13 _ _ h13 (by simpa using hne), List.reverse_reverse,
      strtokAux_cons_skip _ 10 _ h10, ih (fun l2 h2 => h l2 (List.mem_cons_of_mem l h2))]

/-- Shape of a line accepted by `isRatLine`. -/
theorem ratLine_form (l : List Nat) (h : isRatLine l = true) :
    (∃ rest, l = 82 :: 65 :: 84 :: 58 :: rest) ∧ ∀ c ∈ l, c ≠ 0 ∧ c ≠ 10 ∧ c ≠ 13 := by
  unfold isRatLine at h
  rw [Bool.and_eq_true, List.isPrefixOf_iff_prefix, List.all_eq_true] at h
  obtain ⟨⟨rest, hrest⟩, hall⟩ := h
  refine ⟨⟨rest, hrest.symm⟩, ?_⟩
  intro c hc
  have := hall c hc
  simp only [Bool.and_eq_true, bne_iff_ne, ne_eq] at this
  exact ⟨this.1.1, this.1.2, this.2⟩

/-- Shape of a line accepted by `isMccLine`. -/
theorem mccLine_form (l : List Nat) (h : isMccLine l = true) :
    (∃ rest, l = 77 :: 67 :: 67 :: 58 :: rest) ∧ ∀ c ∈ l, c ≠ 0 ∧ c ≠ 10 ∧ c ≠ 13 := by
  unfold isMccLine at h
  rw [Bool.and_eq_true, List.isPrefixOf_iff_prefix, List.all_eq_true] at h
  obtain ⟨⟨rest, hrest⟩, hall⟩ := h
  refine ⟨⟨rest, hrest.symm⟩, ?_⟩
  intro c hc
  have := hall c hc
  simp only [Bool.and_eq_true, bne_iff_ne, ne_eq] at this
  exact ⟨this.1.1, this.1.2, this.2⟩

/-- A `RAT:` line goes to the service record, whatever the fragment kind. -/
theorem parseLine_rat (e : EnvironmentResponse) (type : RespType) (rest : List Nat) :
    EnvironmentResponse.parseLine type e (82 :: 65 :: 84 :: 58 :: rest) =
      some { e with service := e.service.parse (82 :: 65 :: 84 :: 58 :: rest) } := by
  have h1 : strncmpEq (82 :: 65 :: 84 :: 58 :: rest) (str "MCC:") 4 = false := rfl
  have h2 : strncmpEq (82 :: 65 :: 84 :: 58 :: rest) (str "RAT:") 4 = true := rfl
  rw [EnvironmentResponse.parseLine, if_neg (by simp), skipTag_of_head_ne _ _ _ _ (by decide)]
  simp only [EnvironmentResponse.routeLine, h1, h2, Bool.false_eq_true, if_false, if_true]

/-- An `MCC:` line is routed as it stands, whatever the fragment kind. -/
theorem parseLine_mcc (e : EnvironmentResponse) (type : RespType) (l : List Nat)
    (h : isMccLine l = true) : EnvironmentResponse.parseLine type e l = e.routeLine l := by
  obtain ⟨⟨rest, hrest⟩, -⟩ := mccLine_form l h
  subst hrest
  rw [EnvironmentResponse.parseLine, if_neg (by simp), skipTag_of_head_ne _ _ _ _ (by decide)]

/-- C12: a fragment that consists of one line beginning with `RAT:` (with or
without its line terminator, unlabeled or tagged) makes `parse` apply
`CellData.parse(line)` to the service record and change nothing else: the cursor
and the neighbor records stay as they are, wherever the cursor stands. -/
theorem rat_line_service_only (e : EnvironmentResponse) (line : List Nat)
    (hline : isRatLine line = true) :
    e.parse RespType.TYPE_UNKNOWN line =
      some ({ e with service := e.service.parse line }, WAIT) ∧
    e.parse RespType.TYPE_PLUS line =
      some ({ e with service := e.service.parse line }, WAIT) ∧
    e.parse RespType.TYPE_UNKNOWN (joinLines [line]) =
      some ({ e with service := e.service.parse line }, WAIT) ∧
    e.parse RespType.TYPE_PLUS (joinLines [line]) =
      some ({ e with service := e.service.parse line }, WAIT) := by
  obtain ⟨⟨rest, hrest⟩, hclean⟩ := ratLine_form line hline
  have hne : line ≠ [] := by rw [hrest]; simp
  have hcr : ∀ c ∈ line, c ≠ 10 ∧ c ≠ 13 := fun c hc => (hclean c hc).2
  have hnul : ∀ c ∈ line, c ≠ 0 := fun c hc => (hclean c hc).1
  have hcrlf : str "\r\n" = [13, 10] := rfl
  have hjoin : cstr (joinLines [line]) = joinLines [line] := by
    apply cstr_eq_self
    intro c hc
    simp only [joinLines, hcrlf, List.append_nil, List.mem_append, List.mem_cons,
      List.mem_singleton, List.not_mem_nil, or_false] at hc
    rcases hc with hc | hc | hc
    · exact hnul c hc
    · omega
    · omega
  have htok1 : strtokAll (cstr line) (str "\r\n") = [line] := by
    rw [cstr_eq_self line hnul, strtokAll_line line hne hcr]
  have htok2 : strtokAll (cstr (joinLines [line])) (str "\r\n") = [line] := by
    rw [hjoin]
    exact strtokAll_joinLines [line] (by simpa using ⟨hne, hcr⟩)
  have hstep : ∀ type, EnvironmentResponse.parseLine type e line =
      some { e with service := e.service.parse line } := by
    intro type
    rw [hrest]
    exact parseLine_rat e type rest
  refine ⟨?_, ?_, ?_, ?_⟩
  · rw [EnvironmentResponse.parse, if_pos (Or.inl rfl), htok1]
    simp only [List.foldlM, hstep]
    rfl
  · rw [EnvironmentResponse.parse, if_pos (Or.inr rfl), htok1]
    simp only [List.foldlM, hstep]
    rfl
  · rw [EnvironmentResponse.parse, if_pos (Or.inl rfl), htok2]
    simp only [List.foldlM, hstep]
    rfl
  · rw [EnvironmentResponse.parse, if_pos (Or.inr rfl), htok2]
    simp only [List.foldlM, hstep]
    rfl

/-- Instance of C12: the line `RAT:"UMTS"` met while the cursor stands at
neighbor slot 1. -/
theorem rat_line_service_only_witness :
    ({ EnvironmentResponse.createStatic (CellData.fresh 0 0 0 0 0 0 0)
          [CellData.fresh 0 0 0 0 0 0 0, CellData.fresh 0 0 0 0 0 0 0] with
        curDataIndex := 1 }).parse RespType.TYPE_PLUS (str "RAT:\"UMTS\"") =
      some ({ EnvironmentResponse.createStatic
          ({ CellData.fresh 0 0 0 0 0 0 0 with isUMTS := true })
          [CellData.fresh 0 0 0 0 0 0 0, CellData.fresh 0 0 0 0 0 0 0] with
        curDataIndex := 1 }, WAIT) :=
  (rat_line_service_only _ (str "RAT:\"UMTS\"") (by decide)).2.1

/-- A fragment written by `joinLines` from lines without NUL has no NUL. -/
theorem cstr_joinLines (ls : List (List Nat)) (h : ∀ l ∈ ls, ∀ c ∈ l, c ≠ 0) :
    cstr (joinLines ls) = joinLines ls := by
  apply cstr_eq_self
  induction ls with
  | nil => intro c hc; simp [joinLines] at hc
  | cons l ls ih =>
    intro c hc
    have hcrlf : str "\r\n" = [13, 10] := rfl
    simp only [joinLines, hcrlf, List.mem_append, List.mem_cons, List.mem_singleton,
      List.not_mem_nil, or_false] at hc
    rcases hc with (hc | hc | hc) | hc
    · exact h l (List.mem_cons_self l ls) c hc
    · omega
    · omega
    · exact ih (fun l2 h2 => h l2 (List.mem_cons_of_mem l h2)) c hc

/-- On `MCC:` lines the line loop is the routing alone. -/
theorem foldlM_parseLine_mcc (type : RespType) (ls : List (List Nat))
    (h : ∀ l ∈ ls, isMccLine l = true) :
    ∀ e, ls.foldlM (EnvironmentResponse.parseLine type) e =
      ls.foldlM EnvironmentResponse.routeLine e := by
  induction ls with
  | nil => intro e; rfl
  | cons l ls ih =>
    intro e
    rw [List.foldlM_cons, List.foldlM_cons, parseLine_mcc e type l (h l (List.mem_cons_self l ls))]
    cases e.routeLine l with
    | none => rfl
    | some e1 => exact ih (fun l2 h2 => h l2 (List.mem_cons_of_mem l h2)) e1

/-- One fragment of `MCC:` lines: `parse` routes its lines in order. -/
theorem parse_mccLines (e : EnvironmentResponse) (type : RespType) (ls : List (List Nat))
    (hk : type = RespType.TYPE_UNKNOWN ∨ type = RespType.TYPE_PLUS)
    (h : ∀ l ∈ ls, isMccLine l = true) :
    e.parse type (joinLines ls) =
      (ls.foldlM EnvironmentResponse.routeLine e).map (fun e2 => (e2, WAIT)) := by
  have hnul : ∀ l ∈ ls, ∀ c ∈ l, c ≠ 0 := fun l hl c hc => ((mccLine_form l (h l hl)).2 c hc).1
  have hclean : ∀ l ∈ ls, l ≠ [] ∧ ∀ c ∈ l, c ≠ 10 ∧ c ≠ 13 := by
    intro l hl
    obtain ⟨⟨rest, hrest⟩, hc⟩ := mccLine_form l (h l hl)
    exact ⟨by rw [hrest]; simp, fun c hc2 => (hc c hc2).2⟩
  rw [EnvironmentResponse.parse, if_pos hk, cstr_joinLines ls hnul, strtokAll_joinLines ls hclean,
    foldlM_parseLine_mcc type ls h e]
  cases ls.foldlM EnvironmentResponse.routeLine e <;> rfl

/-- Fragments of `MCC:` lines: the transport's feeding is the routing of all
their lines in order. -/
theorem feed_mccLines (frags : List (RespType × List (List Nat)))
    (hk : ∀ f ∈ frags, f.1 = RespType.TYPE_UNKNOWN ∨ f.1 = RespType.TYPE_PLUS)
    (h : ∀ l ∈ (frags.map Prod.snd).flatten, isMccLine l = true) :
    ∀ e : EnvironmentResponse, e.feed (frags.map (fun f => (f.1, joinLines f.2))) =
      ((frags.map Prod.snd).flatten).foldlM EnvironmentResponse.routeLine e := by
  induction frags with
  | nil => intro e; rfl
  | cons f fs ih =>
    intro e
    have hf : ∀ l ∈ f.2, isMccLine l = true := by
      intro l hl
      apply h
      simp only [List.map_cons, List.flatten_cons, List.mem_append]
      exact Or.inl hl
    have hfs : ∀ l ∈ (fs.map Prod.snd).flatten, isMccLine l = true := by
      intro l hl
      apply h
      simp only [List.map_cons, List.flatten_cons, List.mem_append]
      exact Or.inr hl
    rw [List.map_cons, EnvironmentResponse.feed,
      parse_mccLines e f.1 f.2 (hk f (List.mem_cons_self f fs)) hf,
      List.map_cons, List.flatten_cons, List.foldlM_append]
    cases f.2.foldlM EnvironmentResponse.routeLine e with
    | none => rfl
    | some e1 => exact ih (fun g hg => hk g (List.mem_cons_of_mem f hg)) hfs e1

/-- An `MCC:` line met before the service record is filled goes to the service
record and moves the cursor on. -/
theorem routeLine_mcc_service (e : EnvironmentResponse) (l : List Nat)
    (h : isMccLine l = true) (hneg : e.curDataIndex < 0) :
    e.routeLine l =
      some { e with service := e.service.parse l, curDataIndex := e.curDataIndex + 1 } := by
  obtain ⟨⟨rest, hrest⟩, -⟩ := mccLine_form l h
  have h1 : strncmpEq l (str "MCC:") 4 = true := by rw [hrest]; rfl
  rw [EnvironmentResponse.routeLine, if_pos h1, if_pos hneg]

/-- An `MCC:` line met with the cursor on a free slot goes to that slot and
moves the cursor on. -/
theorem routeLine_mcc_slot (e : EnvironmentResponse) (l : List Nat) (arr : List CellData)
    (c : Nat) (h : isMccLine l = true) (hnb : e.neighbors = some arr)
    (hc : e.curDataIndex = c) (hlt : c < e.numNeighbors) (hlen : c < arr.length) :
    e.routeLine l =
      some { e with neighbors := some (arr.set c ((arr.get ⟨c, hlen⟩).parse l)),
                    curDataIndex := e.curDataIndex + 1 } := by
  obtain ⟨⟨rest, hrest⟩, -⟩ := mccLine_form l h
  have h1 : strncmpEq l (str "MCC:") 4 = true := by rw [hrest]; rfl
  have h2 : ¬ e.curDataIndex < 0 := by omega
  have h3 : e.curDataIndex.toNat = c := by omega
  rw [EnvironmentResponse.routeLine, if_pos h1, if_neg h2, hnb]
  simp only [h3, hlt, if_true, EnvironmentResponse.writeNeighbor, List.get?_eq_get hlen]

/-- An `MCC:` line met with the cursor at the capacity, or without an array,
changes nothing. -/
theorem routeLine_mcc_full (e : EnvironmentResponse) (l : List Nat) (c : Nat)
    (h : isMccLine l = true) (hc : e.curDataIndex = c)
    (hfull : e.neighbors = none ∨ e.numNeighbors ≤ c) : e.routeLine l = some e := by
  obtain ⟨⟨rest, hrest⟩, -⟩ := mccLine_form l h
  have h1 : strncmpEq l (str "MCC:") 4 = true := by rw [hrest]; rfl
  have h2 : ¬ e.curDataIndex < 0 := by omega
  have h3 : e.curDataIndex.toNat = c := by omega
  rw [EnvironmentResponse.routeLine, if_pos h1, if_neg h2]
  rcases hfull with hnone | hle
  · rw [hnone]
  · cases hnb : e.neighbors with
    | none => rfl
    | some arr =>
      simp only [h3]
      rw [if_neg (by omega)]

/-- Nothing is decoded into an array without slots. -/
theorem fillNeighbors_nil (ls : List (List Nat)) : fillNeighbors [] ls = [] := by
  cases ls <;> rfl

/-- Decoding lines into the slots keeps the number of slots. -/
theorem fillNeighbors_length (arr : List CellData) :
    ∀ ls : List (List Nat), (fillNeighbors arr ls).length = arr.length := by
  induction arr with
  | nil => intro ls; rw [fillNeighbors_nil]
  | cons c cs ih =>
    intro ls
    cases ls with
    | nil => rfl
    | cons l ls => simp [fillNeighbors, ih ls]

/-- Slot `i` after decoding: `CellData.parse` of line `i` when there is such a
line, the old slot otherwise. -/
theorem fillNeighbors_getElem? (arr : List CellData) :
    ∀ (ls : List (List Nat)) (i : Nat),
      (fillNeighbors arr ls)[i]? =
        if i < ls.length then (arr[i]?).map (fun c => c.parse (ls.getD i [])) else arr[i]? := by
  induction arr with
  | nil => intro ls i; rw [fillNeighbors_nil]; simp
  | cons c cs ih =>
    intro ls i
    cases ls with
    | nil => simp [fillNeighbors]
    | cons l ls =>
      cases i with
      | zero => simp [fillNeighbors]
      | succ i => simp [fillNeighbors, ih ls i]

/-- From a cursor on slot `c` on, `MCC:` lines fill the slots in order up to the
capacity; the lines beyond it change nothing. -/
theorem foldlM_routeLine_slots (ls : List (List Nat)) (h : ∀ l ∈ ls, isMccLine l = true) :
    ∀ (e : EnvironmentResponse) (arr : List CellData) (c : Nat),
      e.neighbors = some arr → e.curDataIndex = c → e.numNeighbors = arr.length →
      c ≤ arr.length →
      ls.foldlM EnvironmentResponse.routeLine e =
        some { e with neighbors := some (arr.take c ++ fillNeighbors (arr.drop c) ls),
                      curDataIndex := ((min (c + ls.length) arr.length : Nat) : Int) } := by
  induction ls with
  | nil =>
    intro e arr c hnb hc hnum hle
    rw [List.foldlM_nil]
    cases e
    simp only at hnb hc
    subst hnb
    subst hc
    simp [fillNeighbors, hle]
  | cons l ls ih =>
    intro e arr c hnb hc hnum hle
    have hl := h l (List.mem_cons_self l ls)
    have hls : ∀ l2 ∈ ls, isMccLine l2 = true := fun l2 h2 => h l2 (List.mem_cons_of_mem l h2)
    rw [List.foldlM_cons]
    by_cases hlt : c < arr.length
    · rw [routeLine_mcc_slot e l arr c hl hnb hc (by omega) hlt]
      have := ih hls
        { e with neighbors := some (arr.set c ((arr.get ⟨c, hlt⟩).parse l)),
                 curDataIndex := e.curDataIndex + 1 }
        (arr.set c ((arr.get ⟨c, hlt⟩).parse l)) (c + 1) rfl
        (by simp only; omega) (by simp only [List.length_set]; exact hnum)
        (by simp only [List.length_set]; omega)
      refine this.trans ?_
      have hdrop : arr.drop c = arr.get ⟨c, hlt⟩ :: arr.drop (c + 1) := by
        simp
      have htake : (arr.set c ((arr.get ⟨c, hlt⟩).parse l)).take (c + 1) =
          arr.take c ++ [(arr.get ⟨c, hlt⟩).parse l] := by
        rw [List.set_eq_take_append_cons_drop, if_pos hlt, List.take_append_eq_append_take]
        simp [List.length_take, Nat.min_eq_left (Nat.le_of_lt hlt)]
      have hdrop2 : (arr.set c ((arr.get ⟨c, hlt⟩).parse l)).drop (c + 1) = arr.drop (c + 1) :=
        List.drop_set_of_lt _ _ (by omega)
      rw [htake, hdrop2, hdrop]
      simp only [fillNeighbors, List.length_set, List.length_cons, List.append_assoc,
        List.singleton_append]
      have : c + 1 + ls.length = c + (ls.length + 1) := by omega
      rw [this]
    · have hceq : c = arr.length := by omega
      rw [routeLine_mcc_full e l c hl hc (Or.inr (by omega))]
      refine (ih hls e arr c hnb hc hnum hle).trans ?_
      have hd : arr.drop c = [] := by rw [hceq]; simp
      rw [hd, fillNeighbors_nil, fillNeighbors_nil]
      have h1 : min (c + ls.length) arr.length = arr.length := by omega
      have h2 : min (c + (l :: ls).length) arr.length = arr.length := by
        simp only [List.length_cons]; omega
      rw [h1, h2]

/-- Without an array every `MCC:` line after the first is dropped. -/
theorem foldlM_routeLine_noArray (ls : List (List Nat)) (h : ∀ l ∈ ls, isMccLine l = true)
    (e : EnvironmentResponse) (c : Nat) (hnb : e.neighbors = none) (hc : e.curDataIndex = c) :
    ls.foldlM EnvironmentResponse.routeLine e = some e := by
  induction ls with
  | nil => rfl
  | cons l ls ih =>
    rw [List.foldlM_cons, routeLine_mcc_full e l c (h l (List.mem_cons_self l ls)) hc (Or.inl hnb)]
    exact ih (fun l2 h2 => h l2 (List.mem_cons_of_mem l h2))

/-- C11: a newly constructed decoder of neighbor capacity `n` (cursor -1; an
array of `n` slots, or no array and `n = 0`) is fed fragments, unlabeled or
tagged, whose lines all begin with `MCC:`; `first` is line 1 and `more` the
lines after it.  No fault occurs, the service record is `CellData.parse` of
line 1, slot `i` is `CellData.parse` of line `i + 2` for every
`i < min(m - 1, n)`, the other slots are untouched, and the cursor ends at
`min(m - 1, n)`; the lines beyond the capacity appear in none of the results. -/
theorem environment_fills_in_order (n : Nat) (e : EnvironmentResponse)
    (frags : List (RespType × List (List Nat))) (first : List Nat) (more : List (List Nat))
    (hcur : e.curDataIndex = -1) (hnum : e.numNeighbors = n)
    (hshape : ∀ arr, e.neighbors = some arr → arr.length = n)
    (hnone : e.neighbors = none → n = 0)
    (hkind : ∀ f ∈ frags, f.1 = RespType.TYPE_UNKNOWN ∨ f.1 = RespType.TYPE_PLUS)
    (hlines : (frags.map Prod.snd).flatten = first :: more)
    (hmcc : ∀ l ∈ first :: more, isMccLine l = true) :
    ∃ e2, e.feed (frags.map (fun f => (f.1, joinLines f.2))) = some e2 ∧
      e2.service = e.service.parse first ∧
      e2.curDataIndex = ((min more.length n : Nat) : Int) ∧
      e2.command = e.command ∧ e2.numNeighbors = n ∧
      (e.neighbors = none → e2.neighbors = none) ∧
      (∀ arr, e.neighbors = some arr →
        ∃ arr2, e2.neighbors = some arr2 ∧ arr2.length = n ∧
          (∀ i, i < min more.length n →
            arr2[i]? = (arr[i]?).map (fun c => c.parse (more.getD i []))) ∧
          (∀ i, min more.length n ≤ i → arr2[i]? = arr[i]?)) := by
  have hfirst : isMccLine first = true := hmcc first (List.mem_cons_self first more)
  have hmore : ∀ l ∈ more, isMccLine l = true :=
    fun l hl => hmcc l (List.mem_cons_of_mem first hl)
  rw [feed_mccLines frags hkind (by rw [hlines]; exact hmcc) e, hlines, List.foldlM_cons,
    routeLine_mcc_service e first hfirst (by omega)]
  cases hnb : e.neighbors with
  | none =>
    have hn0 := hnone hnb
    refine ⟨_, foldlM_routeLine_noArray more hmore _ 0 rfl (by simp only; omega), rfl, ?_, rfl,
      hnum, fun _ => rfl, ?_⟩
    · simp only [hn0]
      omega
    · intro arr harr
      exact absurd harr (by simp)
  | some arr =>
    have hlen := hshape arr hnb
    refine ⟨_, foldlM_routeLine_slots more hmore _ arr 0 rfl (by simp only; omega)
      (by simp only; omega) (Nat.zero_le _), rfl, ?_, rfl, hnum, ?_, ?_⟩
    · simp only [Nat.zero_add, hlen]
    · intro h
      exact absurd h (by simp)
    · intro arr0 harr0
      simp only [Option.some.injEq] at harr0
      subst harr0
      refine ⟨_, rfl, ?_, ?_, ?_⟩
      · simp [fillNeighbors_length, hlen]
      · intro i hi
        simp only [List.take_zero, List.nil_append, List.drop_zero, fillNeighbors_getElem?]
        rw [if_pos (by omega)]
      · intro i hi
        simp only [List.take_zero, List.nil_append, List.drop_zero, fillNeighbors_getElem?]
        by_cases hlt : i < more.length
        · rw [if_pos hlt]
          have : arr[i]? = none := by
            rw [List.getElem?_eq_none_iff]
            omega
          rw [this]
          rfl
        · rw [if_neg hlt]

/-- Instance of C11: one neighbor slot and three `MCC:` lines in two fragments;
the third line is beyond the capacity. -/
theorem environment_fills_in_order_witness :
    ∃ e2, (EnvironmentResponse.createStatic (CellData.fresh 0 0 0 0 0 0 0)
        [CellData.fresh 0 0 0 0 0 0 0]).feed
        [(RespType.TYPE_UNKNOWN, str "MCC:310,CI:1\r\nMCC:310,CI:2\r\n"),
         (RespType.TYPE_PLUS, str "MCC:310,CI:3\r\n")] = some e2 ∧
      e2.service = (CellData.fresh 0 0 0 0 0 0 0).parse (str "MCC:310,CI:1") ∧
      e2.curDataIndex = 1 ∧
      e2.neighbors = some [(CellData.fresh 0 0 0 0 0 0 0).parse (str "MCC:310,CI:2")] := by
  obtain ⟨e2, hfeed, hsvc, hcursor, -, -, -, hslots⟩ := environment_fills_in_order 1
    (EnvironmentResponse.createStatic (CellData.fresh 0 0 0 0 0 0 0)
      [CellData.fresh 0 0 0 0 0 0 0])
    [(RespType.TYPE_UNKNOWN, [str "MCC:310,CI:1", str "MCC:310,CI:2"]),
     (RespType.TYPE_PLUS, [str "MCC:310,CI:3"])]
    (str "MCC:310,CI:1") [str "MCC:310,CI:2", str "MCC:310,CI:3"]
    rfl rfl (fun arr h => by cases h; rfl) (fun h => by cases h)
    (by decide) rfl (by decide)
  refine ⟨e2, hfeed, hsvc, hcursor, ?_⟩
  obtain ⟨arr2, harr2, hlen, hfill, -⟩ := hslots _ rfl
  have h0 := hfill 0 (by decide)
  rw [harr2]
  match arr2, hlen, h0 with
  | [c], _, h0 =>
    simp only [List.getElem?_cons_zero, Option.map_some', Option.some.injEq] at h0
    rw [h0]
    rfl

/-- Routing a line never faults on a well-formed decoder. -/
theorem routeLine_wellFormed (e : EnvironmentResponse) (line : List Nat) (hw : WellFormed e) :
    ∃ e2, e.routeLine line = some e2 ∧ WellFormed e2 := by
  obtain ⟨hc, hs⟩ := hw
  unfold EnvironmentResponse.routeLine
  by_cases hm : strncmpEq line (str "MCC:") 4 = true
  · rw [if_pos hm]
    by_cases hneg : e.curDataIndex < 0
    · rw [if_pos hneg]
      exact ⟨_, rfl, ⟨hc, hs⟩⟩
    · rw [if_neg hneg]
      cases hnb : e.neighbors with
      | none => exact ⟨_, rfl, ⟨hc, hs⟩⟩
      | some arr =>
        simp only
        by_cases hlt : e.curDataIndex.toNat < e.numNeighbors
        · rw [if_pos hlt]
          have hlen := hs arr hnb
          obtain ⟨arr2, hwr⟩ := writeNeighbor_isSome arr e.curDataIndex.toNat line (by omega)
          rw [hwr]
          refine ⟨_, rfl, ⟨hc, ?_⟩⟩
          intro arr3 h3
          simp only [Option.some.injEq] at h3
          subst h3
          unfold EnvironmentResponse.writeNeighbor at hwr
          rw [List.get?_eq_get (by omega)] at hwr
          simp only [Option.some.injEq] at hwr
          subst hwr
          simp only [List.length_set]
          exact hlen
        · rw [if_neg hlt]
          exact ⟨_, rfl, ⟨hc, hs⟩⟩
  · rw [if_neg hm]
    split_ifs
    · exact ⟨_, rfl, ⟨hc, hs⟩⟩
    · exact ⟨_, rfl, ⟨hc, hs⟩⟩

/-- The line loop never faults on a well-formed decoder. -/
theorem foldlM_parseLine_wellFormed (type : RespType) (lines : List (List Nat)) :
    ∀ e, WellFormed e →
      ∃ e2, lines.foldlM (EnvironmentResponse.parseLine type) e = some e2 ∧ WellFormed e2 := by
  induction lines with
  | nil => intro e hw; exact ⟨e, rfl, hw⟩
  | cons line rest ih =>
    intro e hw
    have h1 : ∃ e1, EnvironmentResponse.parseLine type e line = some e1 ∧ WellFormed e1 := by
      unfold EnvironmentResponse.parseLine
      split_ifs
      · exact ⟨e, rfl, hw⟩
      · obtain ⟨rest2, hrest⟩ := skipTag_isSome e type line hw.command_fits
        rw [hrest]
        exact routeLine_wellFormed e rest2 hw
    obtain ⟨e1, he1, hw1⟩ := h1
    obtain ⟨e2, he2, hw2⟩ := ih e1 hw1
    refine ⟨e2, ?_, hw2⟩
    rw [List.foldlM_cons, he1]
    exact he2

/-- The split at a byte fails exactly when the byte does not occur. -/
theorem splitAtByte_eq_none_iff (c : Nat) (l : List Nat) : splitAtByte c l = none ↔ c ∉ l := by
  induction l with
  | nil => simp [splitAtByte]
  | cons x xs ih =>
    unfold splitAtByte
    by_cases hx : x = c
    · simp [hx]
    · rw [if_neg hx]
      simp only [Option.map_eq_none', ih, List.mem_cons, not_or]
      constructor
      · intro h
        exact ⟨fun h2 => hx h2.symm, h⟩
      · intro h
        exact h.2

/-- C13 (the code at the failing input): the Tagged decoder for the command
`CSQ` is given the TYPE_PLUS fragment `\r\n+CSQ: 15,99`, in which no carriage
return follows the marker: `strchr` returns NULL, `end - start` is passed on as
a length, and the call is a fault instead of returning `WAIT`; with the carriage
return the same call returns `WAIT`, and the operator-list decoder, which tests
`if (end)`, returns `WAIT` on the like fragment.  The Tagged decoder faults on
exactly the TYPE_PLUS fragments whose marker has no carriage return after it
and returns `WAIT` on every other input; the Plain and the operator-list decoder
return `WAIT` on every input, the Environment decoder on every input when it is
well formed; `responseCallback` returns what the `parse` of the object behind
`param` returns. -/
theorem tagged_parse_faults_without_CR :
    ({ resp := RESP_ERROR, command := str "CSQ", string := [] } : PlusStringResponse).parse
        RespType.TYPE_PLUS (str "\r\n+CSQ: 15,99") = none ∧
    ({ resp := RESP_ERROR, command := str "CSQ", string := [] } : PlusStringResponse).parse
        RespType.TYPE_PLUS (str "\r\n+CSQ: 15,99\r\n") =
      some ({ resp := RESP_ERROR, command := str "CSQ", string := str "15,99" }, WAIT) ∧
    (COPNResponse.create.parse RespType.TYPE_PLUS (str "\r\n+COPN: \"901012\",\"Seanet\"")).2 =
      WAIT ∧
    (∀ (r : StringResponse) (type : RespType) (buf : List Nat), (r.parse type buf).2 = WAIT) ∧
    (∀ (c : COPNResponse) (type : RespType) (buf : List Nat), (c.parse type buf).2 = WAIT) ∧
    (∀ (r : PlusStringResponse) (type : RespType) (buf : List Nat),
      (∀ p, r.parse type buf = some p → p.2 = WAIT) ∧
      (r.parse type buf = none ↔
        (type = RespType.TYPE_PLUS ∧ ∃ found, strstr (cstr buf) r.searchFor = some found ∧
          13 ∉ found.drop r.searchFor.length))) ∧
    (∀ (e : EnvironmentResponse) (type : RespType) (buf : List Nat),
      (∀ p, e.parse type buf = some p → p.2 = WAIT) ∧
      (WellFormed e → ∃ e2, e.parse type buf = some (e2, WAIT))) ∧
    (∀ (type : RespType) (buf : List Nat),
      (∀ r, responseCallback type buf (Decoder.plain r) =
        some (Decoder.plain (r.parse type buf).1, (r.parse type buf).2)) ∧
      (∀ c, responseCallback type buf (Decoder.operatorList c) =
        some (Decoder.operatorList (c.parse type buf).1, (c.parse type buf).2)) ∧
      (∀ r, responseCallback type buf (Decoder.tagged r) =
        (r.parse type buf).map (fun p => (Decoder.tagged p.1, p.2))) ∧
      (∀ e, responseCallback type buf (Decoder.environment e) =
        (e.parse type buf).map (fun p => (Decoder.environment p.1, p.2)))) := by
  refine ⟨by decide, by decide, by decide, ?_, ?_, ?_, ?_, ?_⟩
  · intro r type buf
    unfold StringResponse.parse
    split_ifs <;> rfl
  · intro c type buf
    unfold COPNResponse.parse
    split_ifs
    · cases strstr (cstr buf) (str "\n+COPN: ") with
      | none => rfl
      | some found =>
        simp only
        cases splitAtByte 13 (found.drop 8) <;> rfl
    · rfl
  · intro r type buf
    unfold PlusStringResponse.parse
    by_cases ht : type = RespType.TYPE_PLUS
    · rw [if_pos ht]
      cases hs : strstr (cstr buf) r.searchFor with
      | none => simp
      | some found =>
        simp only
        cases hsp : splitAtByte 13 (found.drop r.searchFor.length) with
        | none =>
          have := (splitAtByte_eq_none_iff 13 _).1 hsp
          simp [ht, this]
        | some pr =>
          have hmem : ¬ (13 ∉ found.drop r.searchFor.length) := by
            intro hn
            rw [(splitAtByte_eq_none_iff 13 _).2 hn] at hsp
            exact absurd hsp (by simp)
          constructor
          · intro p hp
            simp only [Option.some.injEq] at hp
            rw [← hp]
          · constructor
            · intro h
              exact absurd h (by simp)
            · rintro ⟨-, found2, hf2, hn⟩
              simp only [Option.some.injEq] at hf2
              subst hf2
              exact absurd hn hmem
    · rw [if_neg ht]
      simp [ht]
  · intro e type buf
    constructor
    · intro p hp
      unfold EnvironmentResponse.parse at hp
      split_ifs at hp
      · cases hf : (strtokAll (cstr buf) (str "\r\n")).foldlM
            (EnvironmentResponse.parseLine type) e with
        | none => rw [hf] at hp; exact absurd hp (by simp)
        | some e2 =>
          rw [hf] at hp
          simp only [Option.some.injEq] at hp
          rw [← hp]
      · simp only [Option.some.injEq] at hp
        rw [← hp]
    · intro hw
      unfold EnvironmentResponse.parse
      split_ifs
      · obtain ⟨e2, h2, -⟩ := foldlM_parseLine_wellFormed type _ e hw
        rw [h2]
        exact ⟨e2, rfl⟩
      · exact ⟨e, rfl⟩
  · intro type buf
    exact ⟨fun _ => rfl, fun _ => rfl, fun _ => rfl, fun _ => rfl⟩

/-- The loop of `appendBufferToString` with `noEOL` set adds the bytes that are
neither carriage return nor line feed, in order. -/
theorem appendBufferToString_noEOL (buf : List Nat) :
    ∀ s : List Nat, appendBufferToString s buf true =
      s ++ buf.filter (fun c => c != 13 && c != 10) := by
  unfold appendBufferToString
  induction buf with
  | nil => intro s; simp
  | cons c cs ih =>
    intro s
    rw [List.foldl_cons, ih]
    by_cases hc : (c != 13 && c != 10) = true
    · simp [hc]
    · simp [hc]

/-- C14: on an unlabeled fragment the Plain decoder leaves `string` equal to the
old string followed by the bytes of `buf[0..len)` other than carriage return and
line feed, in order, and returns `WAIT`; hence feeding `a` and then `b` gives the
same decoder as feeding `a ++ b`. -/
theorem plain_parse_appends (r : StringResponse) (buf a b : List Nat) :
    r.parse RespType.TYPE_UNKNOWN buf =
      ({ r with string := r.string ++ buf.filter (fun c => c != 13 && c != 10) }, WAIT) ∧
    ((r.parse RespType.TYPE_UNKNOWN a).1.parse RespType.TYPE_UNKNOWN b).1 =
      (r.parse RespType.TYPE_UNKNOWN (a ++ b)).1 := by
  have h : ∀ (r : StringResponse) (buf : List Nat), r.parse RespType.TYPE_UNKNOWN buf =
      ({ r with string := r.string ++ buf.filter (fun c => c != 13 && c != 10) }, WAIT) := by
    intro r buf
    rw [StringResponse.parse, if_pos rfl, appendBufferToString_noEOL]
  refine ⟨h r buf, ?_⟩
  rw [h r a, h _ b, h r (a ++ b)]
  simp

/-- `strstr` finds nothing in a text that does not contain the needle. -/
theorem strstr_eq_none (needle : List Nat) :
    ∀ hay : List Nat, ¬ needle <:+: hay → strstr hay needle = none := by
  intro hay
  induction hay with
  | nil =>
    intro h
    rw [strstr, if_neg]
    intro he
    apply h
    rw [List.isEmpty_iff] at he
    subst he
    exact List.infix_refl []
  | cons c cs ih =>
    intro h
    rw [strstr, if_neg, ih]
    · intro hin
      exact h (hin.trans (List.suffix_cons c cs).isInfix)
    · intro hp
      rw [List.isPrefixOf_iff_prefix] at hp
      exact h hp.isInfix

/-- `strstr` returns the text from the first occurrence of the needle on. -/
theorem strstr_first (needle rest : List Nat) (hp : needle <+: rest) :
    ∀ pre : List Nat, (∀ k, k < pre.length → ¬ needle <+: (pre ++ rest).drop k) →
      strstr (pre ++ rest) needle = some rest := by
  intro pre
  induction pre with
  | nil =>
    intro _
    rw [List.nil_append]
    cases rest with
    | nil =>
      have : needle = [] := List.prefix_nil.1 hp
      rw [this]
      rfl
    | cons c cs =>
      rw [strstr, if_pos]
      rw [List.isPrefixOf_iff_prefix]
      exact hp
  | cons p ps ih =>
    intro hfirst
    rw [List.cons_append, strstr, if_neg, ih]
    · intro k hk
      have := hfirst (k + 1) (by simp only [List.length_cons]; omega)
      simpa using this
    · intro hpre
      rw [List.isPrefixOf_iff_prefix] at hpre
      exact hfirst 0 (by simp) (by simpa using hpre)

/-- The split at a byte cuts at its first occurrence. -/
theorem splitAtByte_append (c : Nat) (a b : List Nat) (h : c ∉ a) :
    splitAtByte c (a ++ c :: b) = some (a, b) := by
  induction a with
  | nil => simp [splitAtByte]
  | cons x xs ih =>
    have hx : x ≠ c := fun he => h (by rw [he]; exact List.mem_cons_self c xs)
    have hxs : c ∉ xs := fun hm => h (List.mem_cons_of_mem x hm)
    rw [List.cons_append, splitAtByte, if_neg hx, ih hxs]
    rfl

/-- A command of at most 27 bytes leaves the marker whole in `searchFor`. -/
theorem searchFor_eq_marker (r : PlusStringResponse) (hT : (cstr r.command).length ≤ 27) :
    r.searchFor = r.marker := by
  unfold PlusStringResponse.searchFor PlusStringResponse.marker
  apply List.take_of_length_le
  have h1 : (str "\n+").length = 2 := rfl
  have h2 : (str ": ").length = 2 := rfl
  simp only [List.length_append, h1, h2]
  omega

/-- C15: the Tagged decoder with a command tag of at most 27 bytes (the claim's
26 included) is given a TYPE_PLUS fragment without NUL in which the marker
`"\n+T: "` occurs first after `pre`, followed by `payload`, a carriage return and
`post`, the payload holding neither carriage return nor line feed; `parse`
appends exactly `payload` to `string`, changes nothing else and returns `WAIT`. -/
theorem tagged_parse_payload (r : PlusStringResponse) (pre payload post : List Nat)
    (hT : (cstr r.command).length ≤ 27)
    (hnul : ∀ c ∈ pre ++ (r.marker ++ (payload ++ 13 :: post)), c ≠ 0)
    (hfirst : ∀ k, k < pre.length →
      ¬ r.marker <+: (pre ++ (r.marker ++ (payload ++ 13 :: post))).drop k)
    (hpay : ∀ c ∈ payload, c ≠ 13 ∧ c ≠ 10) :
    r.parse RespType.TYPE_PLUS (pre ++ (r.marker ++ (payload ++ 13 :: post))) =
      some ({ r with string := r.string ++ payload }, WAIT) := by
  have h13 : 13 ∉ payload := fun hm => (hpay 13 hm).1 rfl
  have hfilter : payload.filter (fun c => c != 13 && c != 10) = payload := by
    rw [List.filter_eq_self]
    intro c hc
    have := hpay c hc
    simp [this.1, this.2]
  rw [PlusStringResponse.parse, if_pos rfl, cstr_eq_self _ hnul, searchFor_eq_marker r hT,
    strstr_first r.marker _ (List.prefix_append _ _) pre hfirst]
  simp only [List.drop_left, splitAtByte_append 13 payload post h13,
    appendBufferToString_noEOL, hfilter]

/-- Instance of C15: the reply to AT+CSQ. -/
theorem tagged_parse_payload_witness :
    ({ resp := RESP_ERROR, command := str "CSQ", string := [] } : PlusStringResponse).parse
        RespType.TYPE_PLUS (str "\r\n+CSQ: 15,99\r\n") =
      some ({ resp := RESP_ERROR, command := str "CSQ", string := str "15,99" }, WAIT) :=
  tagged_parse_payload { resp := RESP_ERROR, command := str "CSQ", string := [] }
    (str "\r") (str "15,99") (str "\n") (by decide) (by decide) (by decide) (by decide)

/-- C16 (as stated, refuted): with a command tag of 28 bytes the marker does not
fit `searchFor`, which loses its final space; a fragment that carries the tag
followed by `:X` does not contain the marker, and `X` is appended all the same. -/
theorem tagged_parse_truncated_marker :
    ¬ (({ resp := RESP_ERROR, command := str "AAAAAAAAAAAAAAAAAAAAAAAAAAAA",
          string := [] } : PlusStringResponse).marker <:+:
        str "\n+AAAAAAAAAAAAAAAAAAAAAAAAAAAA:X\r") ∧
    ({ resp := RESP_ERROR, command := str "AAAAAAAAAAAAAAAAAAAAAAAAAAAA",
       string := [] } : PlusStringResponse).parse RespType.TYPE_PLUS
        (str "\n+AAAAAAAAAAAAAAAAAAAAAAAAAAAA:X\r") =
      some ({ resp := RESP_ERROR, command := str "AAAAAAAAAAAAAAAAAAAAAAAAAAAA",
              string := str "X" }, WAIT) := by
  decide

/-- C16 (amended): for the Tagged decoder with a command tag of at most 27 bytes,
a TYPE_PLUS fragment that does not contain the exact marker `"\n+T: "` leaves
`string`, and the whole decoder, unchanged; `parse` returns `WAIT`. -/
theorem tagged_parse_no_marker (r : PlusStringResponse) (buf : List Nat)
    (hT : (cstr r.command).length ≤ 27) (hno : ¬ r.marker <:+: buf) :
    r.parse RespType.TYPE_PLUS buf = some (r, WAIT) := by
  have hno2 : ¬ r.marker <:+: cstr buf := by
    intro h
    exact hno (h.trans (List.takeWhile_prefix _).isInfix)
  rw [PlusStringResponse.parse, if_pos rfl, searchFor_eq_marker r hT,
    strstr_eq_none r.marker (cstr buf) hno2]

/-- Instance of the amended C16: a reply carrying another tag. -/
theorem tagged_parse_no_marker_witness :
    ({ resp := RESP_ERROR, command := str "CSQ", string := str "15,99" } :
        PlusStringResponse).parse RespType.TYPE_PLUS (str "\r\n+CREG: 1\r\n") =
      some ({ resp := RESP_ERROR, command := str "CSQ", string := str "15,99" }, WAIT) :=
  tagged_parse_no_marker { resp := RESP_ERROR, command := str "CSQ", string := str "15,99" }
    (str "\r\n+CREG: 1\r\n") (by decide) (by decide)

/-- Outside quotes the loop passes over bytes other than the double quote. -/
theorem quotedLoop_outside (onlyFirst : Bool) (p : List Nat) (hp : 34 ∉ p) :
    ∀ rest result : List Nat,
      PlusStringResponse.quotedLoop onlyFirst (p ++ rest) false result =
        PlusStringResponse.quotedLoop onlyFirst rest false result := by
  induction p with
  | nil => intro rest result; rfl
  | cons c cs ih =>
    intro rest result
    have hc : c ≠ 34 := fun he => hp (by rw [he]; exact List.mem_cons_self 34 cs)
    have hcs : 34 ∉ cs := fun hm => hp (List.mem_cons_of_mem c hm)
    rw [List.cons_append, PlusStringResponse.quotedLoop, if_neg hc, if_neg (by simp), ih hcs]

/-- Inside quotes the loop collects bytes other than the double quote. -/
theorem quotedLoop_inside (onlyFirst : Bool) (q : List Nat) (hq : 34 ∉ q) :
    ∀ rest result : List Nat,
      PlusStringResponse.quotedLoop onlyFirst (q ++ rest) true result =
        PlusStringResponse.quotedLoop onlyFirst rest true (result ++ q) := by
  induction q with
  | nil => intro rest result; simp
  | cons c cs ih =>
    intro rest result
    have hc : c ≠ 34 := fun he => hq (by rw [he]; exact List.mem_cons_self 34 cs)
    have hcs : 34 ∉ cs := fun hm => hq (List.mem_cons_of_mem c hm)
    rw [List.cons_append, PlusStringResponse.quotedLoop, if_neg hc, if_pos rfl, ih hcs]
    simp

/-- With `onlyFirst` off the loop collects every quoted part of the text. -/
theorem quotedLoop_all (pairs : List (List Nat × List Nat))
    (h : ∀ pr ∈ pairs, 34 ∉ pr.1 ∧ 34 ∉ pr.2) :
    ∀ result : List Nat,
      PlusStringResponse.quotedLoop false (quotedText pairs) false result =
        result ++ quotedParts pairs := by
  induction pairs with
  | nil => intro result; simp [quotedText, quotedParts, PlusStringResponse.quotedLoop]
  | cons pr more ih =>
    intro result
    obtain ⟨q, p⟩ := pr
    obtain ⟨hq, hp⟩ := h (q, p) (List.mem_cons_self _ more)
    have hmore : ∀ pr ∈ more, 34 ∉ pr.1 ∧ 34 ∉ pr.2 :=
      fun pr hm => h pr (List.mem_cons_of_mem _ hm)
    simp only [quotedText, quotedParts, List.cons_append, List.append_assoc]
    rw [PlusStringResponse.quotedLoop, if_pos rfl]
    simp only [Bool.not_false, Bool.not_true, Bool.false_and, Bool.false_eq_true, if_false]
    rw [quotedLoop_inside false q hq, PlusStringResponse.quotedLoop, if_pos rfl]
    simp only [Bool.not_true, Bool.not_false, Bool.and_false, Bool.false_eq_true, if_false]
    rw [quotedLoop_outside false p hp, ih hmore, List.append_assoc]

/-- With `onlyFirst` on the loop stops at the quote that closes the first part. -/
theorem quotedLoop_first (q rest : List Nat) (hq : 34 ∉ q) (result : List Nat) :
    PlusStringResponse.quotedLoop true (34 :: (q ++ 34 :: rest)) false result = result ++ q := by
  rw [PlusStringResponse.quotedLoop, if_pos rfl]
  simp only [Bool.not_false, Bool.not_true, Bool.false_and, Bool.false_eq_true, if_false]
  rw [quotedLoop_inside true q hq, PlusStringResponse.quotedLoop, if_pos rfl]
  simp

/-- The loop never puts a double quote into the result. -/
theorem quotedLoop_no_quote (onlyFirst : Bool) (s : List Nat) :
    ∀ (inQuoted : Bool) (result : List Nat), 34 ∉ result →
      34 ∉ PlusStringResponse.quotedLoop onlyFirst s inQuoted result := by
  induction s with
  | nil => intro inQuoted result h; exact h
  | cons c cs ih =>
    intro inQuoted result h
    rw [PlusStringResponse.quotedLoop]
    by_cases hc : c = 34
    · rw [if_pos hc]
      simp only
      split_ifs
      · exact h
      · exact ih _ _ h
    · rw [if_neg hc]
      split_ifs
      · apply ih
        simp only [List.mem_append, List.mem_singleton, not_or]
        exact ⟨h, fun he => hc he.symm⟩
      · exact ih _ _ h

/-- C17: when the accumulated string is `p0 "q1" p1 "q2" ... "qk" pk` with
`k ≥ 1` and no double quote inside the parts, `getDoubleQuotedPart(true)` is
`q1` and `getDoubleQuotedPart(false)` is `q1 q2 ... qk`; on a string without
double quote both are empty; and no result ever holds a double quote. -/
theorem getDoubleQuotedPart_spec (r : PlusStringResponse) :
    (∀ (p0 q1 p1 : List Nat) (more : List (List Nat × List Nat)),
      34 ∉ p0 → 34 ∉ q1 → 34 ∉ p1 → (∀ pr ∈ more, 34 ∉ pr.1 ∧ 34 ∉ pr.2) →
      r.string = p0 ++ quotedText ((q1, p1) :: more) →
      r.getDoubleQuotedPart true = q1 ∧
      r.getDoubleQuotedPart false = quotedParts ((q1, p1) :: more)) ∧
    (34 ∉ r.string → r.getDoubleQuotedPart true = [] ∧ r.getDoubleQuotedPart false = []) ∧
    (∀ onlyFirst, 34 ∉ r.getDoubleQuotedPart onlyFirst) := by
  refine ⟨?_, ?_, ?_⟩
  · intro p0 q1 p1 more hp0 hq1 hp1 hmore hs
    unfold PlusStringResponse.getDoubleQuotedPart
    rw [hs]
    constructor
    · rw [quotedLoop_outside true p0 hp0]
      simp only [quotedText, List.cons_append, List.append_assoc]
      rw [quotedLoop_first q1 _ hq1]
      rfl
    · rw [quotedLoop_outside false p0 hp0, quotedLoop_all]
      · rfl
      · intro pr hpr
        rcases List.mem_cons.1 hpr with h | h
        · rw [h]; exact ⟨hq1, hp1⟩
        · exact hmore pr h
  · intro h
    unfold PlusStringResponse.getDoubleQuotedPart
    have := fun b => quotedLoop_outside b r.string h [] []
    simp only [List.append_nil] at this
    rw [this true, this false]
    exact ⟨rfl, rfl⟩
  · intro onlyFirst
    exact quotedLoop_no_quote onlyFirst r.string false [] (by simp)

/-- Instance of C17: the reply of AT+COPN holds two quoted parts. -/
theorem getDoubleQuotedPart_witness :
    ({ resp := RESP_OK, command := str "COPN", string := str "\"901012\",\"MCP Maritime Com\"" } :
        PlusStringResponse).getDoubleQuotedPart true = str "901012" ∧
    ({ resp := RESP_OK, command := str "COPN", string := str "\"901012\",\"MCP Maritime Com\"" } :
        PlusStringResponse).getDoubleQuotedPart false = str "901012MCP Maritime Com" :=
  (getDoubleQuotedPart_spec
      { resp := RESP_OK, command := str "COPN", string := str "\"901012\",\"MCP Maritime Com\"" }).1
    [] (str "901012") (str ",") [(str "MCP Maritime Com", [])]
    (by decide) (by decide) (by decide) (by decide) (by decide)

/-- A decimal digit byte adds its value to the number read so far. -/
theorem accDigits_digit (d : Nat) (cs : List Nat) (acc : Nat) (hd : 48 ≤ d ∧ d ≤ 57) :
    accDigits 10 (d :: cs) acc = accDigits 10 cs (acc * 10 + (d - 48)) := by
  have hv : digitVal d = some (d - 48) := by
    unfold digitVal
    rw [if_pos hd]
  rw [accDigits, hv]
  simp only
  rw [if_pos (by omega)]

/-- The bytes written for a number are decimal digits. -/
theorem decimalRev_digits (fuel : Nat) :
    ∀ n d, d ∈ decimalRev fuel n → 48 ≤ d ∧ d ≤ 57 := by
  induction fuel with
  | zero => intro n d hd; simp [decimalRev] at hd
  | succ fuel ih =>
    intro n d hd
    rw [decimalRev, List.mem_cons] at hd
    rcases hd with hd | hd
    · omega
    · split_ifs at hd
      · simp at hd
      · exact ih _ d hd

/-- Reading back the digits written for `n` gives `n`. -/
theorem accDigits_decimalRev (fuel : Nat) :
    ∀ (n : Nat), n < fuel → ∀ (acc : Nat) (rest : List Nat),
      accDigits 10 ((decimalRev fuel n).reverse ++ rest) acc =
        accDigits 10 rest (acc * 10 ^ (decimalRev fuel n).length + n) := by
  induction fuel with
  | zero => intro n hn; omega
  | succ fuel ih =>
    intro n hn acc rest
    rw [decimalRev]
    by_cases h10 : n < 10
    · rw [if_pos h10]
      simp only [List.reverse_cons, List.reverse_nil, List.nil_append, List.singleton_append,
        List.length_singleton, pow_one]
      rw [accDigits_digit _ _ _ (by omega)]
      congr 1
      omega
    · rw [if_neg h10]
      simp only [List.reverse_cons, List.append_assoc, List.singleton_append, List.length_cons]
      rw [ih (n / 10) (by omega) acc _, accDigits_digit _ _ _ (by omega)]
      congr 1
      have hdm := Nat.div_add_mod n 10
      have h48 : 48 + n % 10 - 48 = n % 10 := by omega
      rw [h48, pow_succ]
      nlinarith [hdm]

/-- The text of a natural number is not empty and made of digits. -/
theorem formatNat_form (n : Nat) :
    ∃ d ds, formatNat n = d :: ds ∧ ∀ c ∈ d :: ds, 48 ≤ c ∧ c ≤ 57 := by
  have hall : ∀ c ∈ formatNat n, 48 ≤ c ∧ c ≤ 57 := by
    intro c hc
    unfold formatNat at hc
    rw [List.mem_reverse] at hc
    exact decimalRev_digits _ _ c hc
  cases hf : formatNat n with
  | nil =>
    unfold formatNat at hf
    rw [decimalRev] at hf
    simp at hf
  | cons d ds =>
    rw [hf] at hall
    exact ⟨d, ds, rfl, hall⟩

/-- The text of a natural number reads back as that number. -/
theorem accDigits_formatNat (n : Nat) : accDigits 10 (formatNat n) 0 = n := by
  have := accDigits_decimalRev (n + 1) n (by omega) 0 []
  rw [List.append_nil] at this
  unfold formatNat
  rw [this]
  simp [accDigits]

/-- The conversion `%d` reads back an integer of the `int` range written in
decimal, and leaves what follows when that does not start with a digit. -/
theorem scanInt_formatInt (z : Int) (hlo : LONG_MIN ≤ z) (hhi : z ≤ LONG_MAX)
    (rest : List Nat) (hrest : rest.takeWhile isDigit = []) :
    scanInt (formatInt z ++ rest) = some (z, rest) := by
  have hdrop : rest.dropWhile isDigit = rest := by
    have := List.takeWhile_append_dropWhile isDigit rest
    rw [hrest, List.nil_append] at this
    exact this
  have hkey : ∀ n : Nat, ∀ d ds, formatNat n = d :: ds → (∀ c ∈ d :: ds, 48 ≤ c ∧ c ≤ 57) →
      (formatNat n ++ rest).takeWhile isDigit = formatNat n ∧
      (formatNat n ++ rest).dropWhile isDigit = rest := by
    intro n d ds hf hall
    have hp : ∀ c ∈ formatNat n, isDigit c = true := by
      intro c hc
      rw [hf] at hc
      have := hall c hc
      simp [isDigit, this.1, this.2]
    rw [List.takeWhile_append_of_pos hp, List.dropWhile_append_of_pos hp, hrest, hdrop,
      List.append_nil]
    exact ⟨rfl, rfl⟩
  unfold LONG_MIN at hlo
  unfold LONG_MAX at hhi
  unfold scanInt formatInt
  by_cases hneg : z < 0
  · rw [if_pos hneg]
    obtain ⟨d, ds, hf, hall⟩ := formatNat_form z.natAbs
    obtain ⟨htake, hdrop2⟩ := hkey z.natAbs d ds hf hall
    have hsp : (45 :: formatNat z.natAbs ++ rest).dropWhile isspace =
        45 :: (formatNat z.natAbs ++ rest) := by
      rw [List.cons_append, List.dropWhile_cons]
      rfl
    rw [hsp]
    simp only [takeSign, htake, hdrop2, accDigits_formatNat]
    rw [if_neg (by rw [hf]; simp)]
    simp only [if_true, LONG_MIN]
    rw [if_neg (by omega)]
    congr 2
    omega
  · rw [if_neg hneg]
    obtain ⟨d, ds, hf, hall⟩ := formatNat_form z.toNat
    obtain ⟨htake, hdrop2⟩ := hkey z.toNat d ds hf hall
    have hd := hall d (List.mem_cons_self d ds)
    have hsp : (formatNat z.toNat ++ rest).dropWhile isspace = formatNat z.toNat ++ rest := by
      rw [hf, List.cons_append, List.dropWhile_cons]
      have : isspace d = false := by
        unfold isspace
        simp only [Bool.or_eq_false_iff, beq_eq_false_iff_ne, ne_eq, Bool.and_eq_false_imp,
          decide_eq_true_eq, decide_eq_false_iff_not, not_le]
        omega
      rw [this]
      rfl
    have hsign : takeSign (formatNat z.toNat ++ rest) = (false, formatNat z.toNat ++ rest) := by
      rw [hf, List.cons_append]
      unfold takeSign
      split
      · rename_i heq
        simp only [List.cons.injEq] at heq
        omega
      · rename_i heq
        simp only [List.cons.injEq] at heq
        omega
      · rfl
    rw [hsp, hsign]
    simp only [htake, hdrop2, accDigits_formatNat]
    rw [if_neg (by rw [hf]; simp)]
    simp only [Bool.false_eq_true, if_false, LONG_MAX]
    rw [if_neg (by omega)]
    congr 2
    omega

/-- The text of an integer holds no NUL and no comma, and starts with a digit or
a minus sign. -/
theorem formatInt_bytes (z : Int) : ∀ c ∈ formatInt z, c = 45 ∨ (48 ≤ c ∧ c ≤ 57) := by
  intro c hc
  unfold formatInt at hc
  split_ifs at hc
  · rw [List.mem_cons] at hc
    rcases hc with hc | hc
    · exact Or.inl hc
    · obtain ⟨d, ds, hf, hall⟩ := formatNat_form z.natAbs
      rw [hf] at hc
      exact Or.inr (hall c hc)
  · obtain ⟨d, ds, hf, hall⟩ := formatNat_form z.toNat
    rw [hf] at hc
    exact Or.inr (hall c hc)

/-- Comma-separated decimal fields hold no NUL. -/
theorem cstr_joinFields (fs : List Int) : cstr (joinFields fs) = joinFields fs := by
  apply cstr_eq_self
  induction fs with
  | nil => intro c hc; simp [joinFields] at hc
  | cons a rest ih =>
    intro c hc
    cases rest with
    | nil =>
      rw [joinFields] at hc
      rcases formatInt_bytes a c hc with h | h <;> omega
    | cons b rest =>
      rw [joinFields, List.mem_append, List.mem_cons] at hc
      rcases hc with hc | hc | hc
      · rcases formatInt_bytes a c hc with h | h <;> omega
      · omega
      · exact ih c hc

/-- The conversions `%d` separated by commas read the leading fields back, at
most as many as the format has. -/
theorem sscanfInts_joinFields (k : Nat) :
    ∀ fs : List Int, (∀ z ∈ fs, LONG_MIN ≤ z ∧ z ≤ LONG_MAX) →
      sscanfInts k (joinFields fs) = fs.take k := by
  induction k with
  | zero => intro fs _; simp [sscanfInts]
  | succ k ih =>
    intro fs h
    cases fs with
    | nil => rfl
    | cons a rest =>
      obtain ⟨ha1, ha2⟩ := h a (List.mem_cons_self a rest)
      cases rest with
      | nil =>
        have := scanInt_formatInt a ha1 ha2 [] rfl
        rw [List.append_nil] at this
        rw [joinFields, sscanfInts, this]
        simp only [List.take_succ_cons, List.take_nil, List.cons.injEq, true_and]
        split_ifs <;> rfl
      | cons b rest =>
        have := scanInt_formatInt a ha1 ha2 (44 :: joinFields (b :: rest)) rfl
        rw [joinFields, sscanfInts, this]
        simp only [List.take_succ_cons, List.cons.injEq, true_and]
        split_ifs with hk
        · rw [hk]; rfl
        · exact ih (b :: rest) (fun z hz => h z (List.mem_cons_of_mem a hz))

/-- C19 (the code at the failing input): when the accumulated line is `99,q`,
`postProcess` does not keep the sentinel: it sets `rssi = 0` (and `qual = q`,
`resp = RESP_OK`), so `toString` gives `rssi=0 qual=q`, not `rssi=99`. -/
theorem rssiQual_unknown_becomes_zero (r : RSSIQualResponse) (q : Int)
    (hq : LONG_MIN ≤ q ∧ q ≤ LONG_MAX) (hs : r.string = str "99," ++ formatInt q) :
    r.postProcess = { r with rssi := 0, qual := q, resp := RESP_OK } ∧
    r.postProcess.rssi ≠ 99 ∧
    r.postProcess.toString = str "rssi=0 qual=" ++ formatInt q := by
  have hj : r.string = joinFields [99, q] := by rw [hs]; rfl
  have hrange : ∀ z ∈ [99, q], LONG_MIN ≤ z ∧ z ≤ LONG_MAX := by
    intro z hz
    simp only [List.mem_cons, List.mem_singleton, List.not_mem_nil, or_false] at hz
    rcases hz with hz | hz
    · rw [hz]; decide
    · rw [hz]; exact hq
  have hpost : r.postProcess = { r with rssi := 0, qual := q, resp := RESP_OK } := by
    rw [RSSIQualResponse.postProcess, hj, cstr_joinFields, sscanfInts_joinFields 2 _ hrange]
    rfl
  refine ⟨hpost, ?_, ?_⟩
  · rw [hpost]
    show (0 : Int) ≠ 99
    decide
  · rw [hpost]
    rfl

/-- Instance of C19: the line `99,99`. -/
theorem rssiQual_unknown_becomes_zero_witness :
    ({ RSSIQualResponse.create with string := str "99,99" }).postProcess.rssi = 0 ∧
    ({ RSSIQualResponse.create with string := str "99,99" }).postProcess.toString =
      str "rssi=0 qual=99" := by
  have h := rssiQual_unknown_becomes_zero
    { RSSIQualResponse.create with string := str "99,99" } 99 (by decide) (by decide)
  exact ⟨by rw [h.1], h.2.2⟩

/-- C20 (as stated, refuted): three fields for the SignalQuality decoder and
seven for the ExtendedSignalQuality decoder differ from the expected counts, and
`postProcess` sets `RESP_OK`, not `RESP_ERROR`. -/
theorem signalQuality_extra_fields_accepted :
    ({ RSSIQualResponse.create with string := str "1,2,3" }).postProcess.resp = RESP_OK ∧
    ({ ExtendedQualResponse.create with string := str "1,2,3,4,5,6,7" }).postProcess.resp =
      RESP_OK ∧
    RESP_OK ≠ RESP_ERROR := by
  decide

/-- C20 (amended): when the accumulated line is made of comma-separated decimal
integer fields of the `int` range, `postProcess` sets `resp = RESP_ERROR` when
there are fewer fields than expected (2 for SignalQuality, 6 for
ExtendedSignalQuality) and `RESP_OK` when there are as many or more: fields
beyond the expected count are not looked at. -/
theorem signalQuality_field_count (fs : List Int) (r : RSSIQualResponse)
    (x : ExtendedQualResponse) (h : ∀ z ∈ fs, LONG_MIN ≤ z ∧ z ≤ LONG_MAX)
    (hr : r.string = joinFields fs) (hx : x.string = joinFields fs) :
    r.postProcess.resp = (if 2 ≤ fs.length then RESP_OK else RESP_ERROR) ∧
    x.postProcess.resp = (if 6 ≤ fs.length then RESP_OK else RESP_ERROR) := by
  constructor
  · rw [RSSIQualResponse.postProcess, hr, cstr_joinFields, sscanfInts_joinFields 2 fs h]
    rcases fs with _ | ⟨a, _ | ⟨b, rest⟩⟩ <;> simp
  · rw [ExtendedQualResponse.postProcess, hx, cstr_joinFields, sscanfInts_joinFields 6 fs h]
    rcases fs with _ | ⟨a, _ | ⟨b, _ | ⟨c, _ | ⟨d, _ | ⟨e, _ | ⟨f, rest⟩⟩⟩⟩⟩⟩ <;> simp

/-- Instance of the amended C20: one field too few for either decoder. -/
theorem signalQuality_field_count_witness :
    ({ RSSIQualResponse.create with string := str "7" }).postProcess.resp = RESP_ERROR ∧
    ({ ExtendedQualResponse.create with string := str "7" }).postProcess.resp = RESP_ERROR :=
  signalQuality_field_count [7] { RSSIQualResponse.create with string := str "7" }
    { ExtendedQualResponse.create with string := str "7" } (by decide) (by decide) (by decide)

/-- `checkOperator` only writes names: the keys of the table stay as they are. -/
theorem checkOperator_keys (c : COPNResponse) (buf : List Nat) :
    ∃ f : OperatorName → OperatorName, (∀ o, (f o).mcc = o.mcc ∧ (f o).mnc = o.mnc) ∧
      (c.checkOperator buf).operators = c.operators.map f := by
  have hid : ∃ f : OperatorName → OperatorName, (∀ o, (f o).mcc = o.mcc ∧ (f o).mnc = o.mnc) ∧
      c.operators = c.operators.map f := ⟨id, fun _ => ⟨rfl, rfl⟩, by simp⟩
  unfold COPNResponse.checkOperator
  split
  · split
    · split_ifs
      · split
        · split
          · refine ⟨_, ?_, rfl⟩
            intro o
            split_ifs <;> exact ⟨rfl, rfl⟩
          · exact hid
        · exact hid
      · exact hid
    · exact hid
  · exact hid

/-- `parse` only writes names: the keys of the table stay as they are. -/
theorem copn_parse_keys (c : COPNResponse) (type : RespType) (buf : List Nat) :
    ∃ f : OperatorName → OperatorName, (∀ o, (f o).mcc = o.mcc ∧ (f o).mnc = o.mnc) ∧
      (c.parse type buf).1.operators = c.operators.map f := by
  have hid : ∃ f : OperatorName → OperatorName, (∀ o, (f o).mcc = o.mcc ∧ (f o).mnc = o.mnc) ∧
      c.operators = c.operators.map f := ⟨id, fun _ => ⟨rfl, rfl⟩, by simp⟩
  unfold COPNResponse.parse
  split_ifs
  · split
    · split
      · exact checkOperator_keys c _
      · exact hid
    · exact hid
  · exact hid

/-- Rewriting names does not change how many entries a pair has. -/
theorem entryCount_map (c d : COPNResponse) (f : OperatorName → OperatorName)
    (hf : ∀ o, (f o).mcc = o.mcc ∧ (f o).mnc = o.mnc) (hd : d.operators = c.operators.map f)
    (mcc mnc : Int) : entryCount d mcc mnc = entryCount c mcc mnc := by
  unfold entryCount
  rw [hd, List.filter_map, List.length_map]
  congr 1
  apply List.filter_congr
  intro o _
  simp [(hf o).1, (hf o).2]

/-- A fragment does not change how many entries a pair has. -/
theorem entryCount_parse (c : COPNResponse) (type : RespType) (buf : List Nat)
    (mcc mnc : Int) : entryCount (c.parse type buf).1 mcc mnc = entryCount c mcc mnc := by
  obtain ⟨f, hf, hd⟩ := copn_parse_keys c type buf
  exact entryCount_map c _ f hf hd mcc mnc

/-- A request is seen by `any` exactly when the pair has an entry. -/
theorem any_iff_entryCount (c : COPNResponse) (mcc mnc : Int) :
    c.operators.any (fun o => o.mcc == mcc && o.mnc == mnc) = true ↔ 0 < entryCount c mcc mnc := by
  unfold entryCount
  rw [List.any_eq_true, List.length_pos, ne_eq, List.filter_eq_nil_iff]
  push_neg
  rfl

/-- How a request changes the number of entries of any pair. -/
theorem entryCount_requestOperator (c : COPNResponse) (mcc mnc a b : Int) :
    entryCount (c.requestOperator mcc mnc) a b =
      if entryCount c mcc mnc = 0 ∧ c.operators.length < COPNResponse.MAX_OPERATORS ∧ a = mcc ∧ b = mnc
      then entryCount c a b + 1 else entryCount c a b := by
  unfold COPNResponse.requestOperator
  by_cases hany : c.operators.any (fun o => o.mcc == mcc && o.mnc == mnc) = true
  · rw [if_pos hany, if_neg]
    have := (any_iff_entryCount c mcc mnc).1 hany
    omega
  · rw [if_neg hany]
    have h0 : entryCount c mcc mnc = 0 := by
      have := (any_iff_entryCount c mcc mnc).not.1 hany
      omega
    by_cases hroom : c.operators.length < COPNResponse.MAX_OPERATORS
    · rw [if_pos hroom]
      unfold entryCount at h0 ⊢
      simp only [List.filter_append, List.length_append]
      by_cases hab : a = mcc ∧ b = mnc
      · rw [if_pos ⟨h0, hroom, hab⟩]
        simp [List.filter, hab.1, hab.2]
      · rw [if_neg (fun h => hab h.2.2)]
        have : (mcc == a && mnc == b) = false := by
          rw [Bool.and_eq_false_iff]
          by_cases h1 : a = mcc
          · right
            simp only [beq_eq_false_iff_ne, ne_eq]
            exact fun h2 => hab ⟨h1, h2.symm⟩
          · left
            simp only [beq_eq_false_iff_ne, ne_eq]
            exact fun h2 => h1 h2.symm
        simp [List.filter, this]
    · rw [if_neg hroom, if_neg (fun h => hroom h.2.1)]

/-- Every cache reached from a newly constructed one has at most one entry per
pair and at most `COPNResponse.MAX_OPERATORS` entries. -/
theorem run_invariant (calls : List CacheCall) :
    ∀ c : COPNResponse, ((∀ a b, entryCount c a b ≤ 1) ∧ c.operators.length ≤ COPNResponse.MAX_OPERATORS) →
      ((∀ a b, entryCount (c.run calls) a b ≤ 1) ∧ (c.run calls).operators.length ≤ COPNResponse.MAX_OPERATORS) := by
  induction calls with
  | nil => intro c h; exact h
  | cons call rest ih =>
    intro c h
    unfold COPNResponse.run
    rw [List.foldl_cons]
    apply ih
    cases call with
    | request mcc mnc =>
      constructor
      · intro a b
        simp only
        rw [entryCount_requestOperator]
        split_ifs with hc
        · obtain ⟨h0, -, ha, hb⟩ := hc
          rw [ha, hb, h0]
        · exact h.1 a b
      · simp only
        unfold COPNResponse.requestOperator
        split_ifs with h1 h2
        · exact h.2
        · simp only [List.length_append, List.length_singleton]
          omega
        · exact h.2
    | fragment type buf =>
      constructor
      · intro a b
        simp only
        rw [entryCount_parse]
        exact h.1 a b
      · simp only
        obtain ⟨f, -, hd⟩ := copn_parse_keys c type buf
        rw [hd, List.length_map]
        exact h.2

/-- C24: `requestOperator(mcc, mnc)` is idempotent on every cache: a second call
changes nothing.  On every cache reached from a newly constructed one by
requests and fragments, the table holds at most one entry for the pair after
the call, and exactly one when the pair had an entry or there was room. -/
theorem requestOperator_idempotent (c : COPNResponse) (calls : List CacheCall) (mcc mnc : Int) :
    (c.requestOperator mcc mnc).requestOperator mcc mnc = c.requestOperator mcc mnc ∧
    entryCount ((COPNResponse.create.run calls).requestOperator mcc mnc) mcc mnc ≤ 1 ∧
    ((0 < entryCount (COPNResponse.create.run calls) mcc mnc ∨
        (COPNResponse.create.run calls).operators.length < COPNResponse.MAX_OPERATORS) →
      entryCount ((COPNResponse.create.run calls).requestOperator mcc mnc) mcc mnc = 1) := by
  have hinv := run_invariant calls COPNResponse.create
    ⟨fun a b => by simp [entryCount, COPNResponse.create], by simp [COPNResponse.create]⟩
  refine ⟨?_, ?_, ?_⟩
  · have h := entryCount_requestOperator c mcc mnc mcc mnc
    by_cases hany : 0 < entryCount (c.requestOperator mcc mnc) mcc mnc
    · rw [COPNResponse.requestOperator, if_pos ((any_iff_entryCount _ mcc mnc).2 hany)]
    · have h0 : entryCount c mcc mnc = 0 := by
        split_ifs at h <;> omega
      have hfull : ¬ c.operators.length < COPNResponse.MAX_OPERATORS := by
        intro hroom
        rw [if_pos ⟨h0, hroom, rfl, rfl⟩] at h
        omega
      have hsame : c.requestOperator mcc mnc = c := by
        unfold COPNResponse.requestOperator
        have hnot : ¬ c.operators.any (fun o => o.mcc == mcc && o.mnc == mnc) = true := by
          rw [any_iff_entryCount]
          omega
        rw [if_neg hnot, if_neg hfull]
      rw [hsame, hsame]
  · rw [entryCount_requestOperator]
    have := hinv.1 mcc mnc
    split_ifs with hc
    · omega
    · exact this
  · intro hor
    rw [entryCount_requestOperator]
    have := hinv.1 mcc mnc
    split_ifs with hc
    · omega
    · have : ¬ (entryCount (COPNResponse.create.run calls) mcc mnc = 0 ∧
          (COPNResponse.create.run calls).operators.length < COPNResponse.MAX_OPERATORS) :=
        fun h => hc ⟨h.1, h.2, rfl, rfl⟩
      rcases hor with h1 | h2
      · omega
      · have : entryCount (COPNResponse.create.run calls) mcc mnc ≠ 0 := fun h0 => this ⟨h0, h2⟩
        omega

/-- In a table of pending entries a request is seen exactly when its pair is
among the keys. -/
theorem any_pending (K : List (Int × Int)) (p : Int × Int) :
    (K.map (fun q => ({ mcc := q.1, mnc := q.2, name := [] } : OperatorName))).any
      (fun o => o.mcc == p.1 && o.mnc == p.2) = K.contains p := by
  induction K with
  | nil => rfl
  | cons q qs ih =>
    rw [List.map_cons, List.any_cons, ih, List.contains_cons]
    congr 1
    obtain ⟨q1, q2⟩ := q
    obtain ⟨p1, p2⟩ := p
    rw [Bool.eq_iff_iff]
    simp only [Bool.and_eq_true, beq_iff_eq, Prod.mk.injEq]
    constructor <;> rintro ⟨h1, h2⟩ <;> exact ⟨h1.symm, h2.symm⟩

/-- Requests made on a table of pending entries with keys `K`: the keys become
`K` followed by the new pairs in the order of their first request, cut at
`MAX_OPERATORS`. -/
theorem requestAll_keys (pairs : List (Int × Int)) :
    ∀ (c : COPNResponse) (K : List (Int × Int)),
      c.operators = K.map (fun q => ({ mcc := q.1, mnc := q.2, name := [] } : OperatorName)) →
      K.length ≤ COPNResponse.MAX_OPERATORS →
      (c.requestAll pairs).operators =
        ((K ++ (firstDistinct pairs).filter (fun q => !K.contains q)).take
          COPNResponse.MAX_OPERATORS).map
          (fun q => ({ mcc := q.1, mnc := q.2, name := [] } : OperatorName)) := by
  induction pairs with
  | nil =>
    intro c K hc hK
    simp only [COPNResponse.requestAll, List.foldl_nil, firstDistinct, List.filter_nil,
      List.append_nil]
    rw [List.take_of_length_le hK, hc]
  | cons p ps ih =>
    intro c K hc hK
    have hstep : c.requestAll (p :: ps) = (c.requestOperator p.1 p.2).requestAll ps := rfl
    rw [hstep]
    unfold COPNResponse.requestOperator
    rw [hc, any_pending K p]
    by_cases hmem : K.contains p = true
    · rw [if_pos hmem, ih c K hc hK]
      congr 3
      simp only [firstDistinct, List.filter_cons, hmem, Bool.not_true, Bool.false_eq_true,
        if_false, List.filter_filter]
      apply List.filter_congr
      intro q _
      have hpK : p ∈ K := by simpa using hmem
      by_cases hq : q ∈ K
      · simp [hq]
      · have : q ≠ p := fun h => hq (h ▸ hpK)
        simp [hq, this]
    · rw [if_neg hmem, List.length_map]
      have hmemf : K.contains p = false := by simpa using hmem
      by_cases hroom : K.length < COPNResponse.MAX_OPERATORS
      · rw [if_pos hroom]
        rw [ih _ (K ++ [p]) (by simp)
          (by simp only [List.length_append, List.length_singleton]; omega)]
        congr 2
        simp only [firstDistinct, List.filter_cons, hmemf, Bool.not_false, if_true,
          List.filter_filter, List.append_assoc, List.singleton_append]
        congr 2
        apply List.filter_congr
        intro q _
        by_cases hq : q = p
        · simp [hq]
        · by_cases hqK : q ∈ K
          · simp [hq, hqK]
          · simp [hq, hqK]
      · rw [if_neg hroom, ih c K hc hK]
        have hlen : COPNResponse.MAX_OPERATORS ≤ K.length := by omega
        rw [List.take_append_of_le_length hlen, List.take_append_of_le_length hlen]

/-- C25: from a newly constructed cache, any sequence of requests leaves as
entries the first `MAX_OPERATORS = 16` distinct pairs in request order, all
pending; with more than 16 distinct pairs there are exactly 16 entries; and on a
full table a request for a pair without entry changes nothing. -/
theorem requestAll_capacity (pairs : List (Int × Int)) :
    (COPNResponse.create.requestAll pairs).operators =
      ((firstDistinct pairs).take 16).map
        (fun q => ({ mcc := q.1, mnc := q.2, name := [] } : OperatorName)) ∧
    (16 < (firstDistinct pairs).length →
      (COPNResponse.create.requestAll pairs).operators.length = 16) ∧
    (∀ (c : COPNResponse) (mcc mnc : Int), 16 ≤ c.operators.length →
      entryCount c mcc mnc = 0 → c.requestOperator mcc mnc = c) := by
  have hkeys := requestAll_keys pairs COPNResponse.create [] rfl (Nat.zero_le _)
  have hmax : COPNResponse.MAX_OPERATORS = 16 := rfl
  simp only [List.nil_append, List.contains_nil, Bool.not_false, List.filter_true, hmax]
    at hkeys
  refine ⟨hkeys, ?_, ?_⟩
  · intro h
    rw [hkeys, List.length_map, List.length_take]
    omega
  · intro c mcc mnc hfull h0
    unfold COPNResponse.requestOperator
    have hnot : ¬ c.operators.any (fun o => o.mcc == mcc && o.mnc == mnc) = true := by
      rw [any_iff_entryCount]
      omega
    rw [if_neg hnot, if_neg (by rw [hmax]; omega)]

/-- A pair without entry is not found. -/
theorem getOperatorName_absent (c : COPNResponse) (mcc mnc : Int)
    (h : entryCount c mcc mnc = 0) : c.getOperatorName mcc mnc = str "unknown" := by
  unfold COPNResponse.getOperatorName
  have hnone : c.operators.find? (fun o => o.mcc == mcc && o.mnc == mnc) = none := by
    rw [List.find?_eq_none]
    unfold entryCount at h
    rw [List.length_eq_zero, List.filter_eq_nil_iff] at h
    exact h
  rw [hnone]

/-- Fragments do not change how many entries a pair has. -/
theorem entryCount_feed (frags : List (RespType × List Nat)) (mcc mnc : Int) :
    ∀ c : COPNResponse, entryCount (c.feed frags) mcc mnc = entryCount c mcc mnc := by
  induction frags with
  | nil => intro c; rfl
  | cons f fs ih =>
    intro c
    have hstep : c.feed (f :: fs) = ((c.parse f.1 f.2).1).feed fs := rfl
    rw [hstep, ih, entryCount_parse]

/-- C27: for a pair that has no entry in the table, `getOperatorName` returns
`"unknown"` whatever fragments are ingested afterwards, and the pair still has
no entry; this holds too after a request for it that a full table dropped.  The
lookup is a function of the cache that yields only the name. -/
theorem getOperatorName_unknown (c : COPNResponse) (mcc mnc : Int)
    (frags : List (RespType × List Nat)) (habsent : entryCount c mcc mnc = 0) :
    (c.feed frags).getOperatorName mcc mnc = str "unknown" ∧
    entryCount (c.feed frags) mcc mnc = 0 ∧
    (16 ≤ c.operators.length →
      ((c.requestOperator mcc mnc).feed frags).getOperatorName mcc mnc = str "unknown") := by
  have h1 : entryCount (c.feed frags) mcc mnc = 0 := by rw [entryCount_feed, habsent]
  refine ⟨getOperatorName_absent _ mcc mnc h1, h1, ?_⟩
  intro hfull
  apply getOperatorName_absent
  rw [entryCount_feed, entryCount_requestOperator, if_neg, habsent]
  intro h
  have hmax : COPNResponse.MAX_OPERATORS = 16 := rfl
  omega

/-- Instance of C27: the pair (999, 999) was never requested. -/
theorem getOperatorName_unknown_witness :
    (((COPNResponse.create.requestOperator 901 12).feed
        [(RespType.TYPE_PLUS, str "\r\n+COPN: \"901012\",\"MCP Maritime Com\"\r\n")]).getOperatorName
      999 999) = str "unknown" :=
  (getOperatorName_unknown (COPNResponse.create.requestOperator 901 12) 999 999
    [(RespType.TYPE_PLUS, str "\r\n+COPN: \"901012\",\"MCP Maritime Com\"\r\n")] (by decide)).1

/-- Instance of C25: seventeen distinct pairs are requested; the table keeps the
first sixteen. -/
theorem requestAll_capacity_witness :
    (COPNResponse.create.requestAll
      [(1, 0), (2, 0), (3, 0), (4, 0), (5, 0), (6, 0), (7, 0), (8, 0), (9, 0), (10, 0), (11, 0),
       (12, 0), (13, 0), (14, 0), (15, 0), (16, 0), (17, 0)]).operators.length = 16 :=
  (requestAll_capacity
    [(1, 0), (2, 0), (3, 0), (4, 0), (5, 0), (6, 0), (7, 0), (8, 0), (9, 0), (10, 0), (11, 0),
     (12, 0), (13, 0), (14, 0), (15, 0), (16, 0), (17, 0)]).2.1 (by decide)

/-- Three decimal digits read back as the number they write. -/
theorem atoi_digits3 (n : Nat) (h : n < 1000) : atoi (digits3 n) = n := by
  have hsp : (digits3 n).dropWhile isspace = digits3 n := by
    unfold digits3
    rw [List.dropWhile_cons]
    have : isspace (48 + n / 100 % 10) = false := by
      unfold isspace
      simp only [Bool.or_eq_false_iff, beq_eq_false_iff_ne, ne_eq, Bool.and_eq_false_imp,
        decide_eq_true_eq, decide_eq_false_iff_not, not_le]
      omega
    rw [this]
    rfl
  have hsign : takeSign (digits3 n) = (false, digits3 n) := by
    unfold digits3 takeSign
    split
    · rename_i heq
      simp only [List.cons.injEq] at heq
      omega
    · rename_i heq
      simp only [List.cons.injEq] at heq
      omega
    · rfl
  have hmark : skipHexMark 10 (digits3 n) = digits3 n := by
    unfold digits3 skipHexMark
    split
    · rename_i heq
      rw [if_neg (by omega)]
      exact heq.symm
    · rfl
  have hacc : accDigits 10 (digits3 n) 0 = n := by
    unfold digits3
    rw [accDigits_digit _ _ _ (by omega), accDigits_digit _ _ _ (by omega),
      accDigits_digit _ _ _ (by omega), accDigits]
    omega
  unfold atoi strtol
  simp only [hsp, hsign, hmark, hacc, Bool.false_eq_true, if_false, LONG_MAX]
  rw [if_neg (by omega)]

/-- The lookup after the names of a pair's entries have been written. -/
theorem find?_named (ops : List OperatorName) (mcc mnc : Int) (name : List Nat)
    (h : ∃ o ∈ ops, o.mcc = mcc ∧ o.mnc = mnc) :
    ∃ o, (ops.map (fun o => if o.mcc = (mcc : Int) ∧ o.mnc = (mnc : Int) then { o with name := name } else o)).find?
        (fun o => o.mcc == mcc && o.mnc == mnc) = some o ∧ o.name = name := by
  induction ops with
  | nil => obtain ⟨o, ho, -⟩ := h; simp at ho
  | cons x xs ih =>
    by_cases hx : x.mcc = mcc ∧ x.mnc = mnc
    · refine ⟨{ x with name := name }, ?_, rfl⟩
      rw [List.map_cons, if_pos hx, List.find?_cons]
      simp [hx.1, hx.2]
    · have hxs : ∃ o ∈ xs, o.mcc = mcc ∧ o.mnc = mnc := by
        obtain ⟨o, ho, hk⟩ := h
        rcases List.mem_cons.1 ho with h1 | h1
        · rw [h1] at hk; exact absurd hk hx
        · exact ⟨o, h1, hk⟩
      obtain ⟨o, ho, hn⟩ := ih hxs
      refine ⟨o, ?_, hn⟩
      rw [List.map_cons, if_neg hx, List.find?_cons]
      have : (x.mcc == mcc && x.mnc == mnc) = false := by
        rw [Bool.and_eq_false_iff]
        by_cases h1 : x.mcc = mcc
        · right
          simp only [beq_eq_false_iff_ne, ne_eq]
          exact fun h2 => hx ⟨h1, h2⟩
        · left
          simp only [beq_eq_false_iff_ne, ne_eq]
          exact h1
      rw [this]
      exact ho

/-- What `checkOperator` does with a line `"cccnnn","name"`: the entries of the
pair get the name, the others stay. -/
theorem checkOperator_operatorLine (c : COPNResponse) (mcc mnc : Nat) (name : List Nat)
    (hmcc : mcc < 1000) (hmnc : mnc < 1000) (hname : 34 ∉ name) :
    c.checkOperator (operatorLine mcc mnc name) =
      { c with operators := c.operators.map (fun o =>
          if o.mcc = (mcc : Int) ∧ o.mnc = (mnc : Int) then { o with name := name } else o) } := by
  have hd : ∀ n : Nat, 34 ∉ digits3 n := by
    intro n hm
    unfold digits3 at hm
    simp only [List.mem_cons, List.mem_singleton, List.not_mem_nil, or_false] at hm
    omega
  have h6 : 34 ∉ digits3 mcc ++ digits3 mnc := by
    rw [List.mem_append]
    exact fun h => h.elim (hd mcc) (hd mnc)
  have hsplit1 := splitAtByte_append 34 (digits3 mcc ++ digits3 mnc)
    (44 :: 34 :: (name ++ [34])) h6
  have hsplit2 : splitAtByte 34 (44 :: 34 :: (name ++ [34])) = some ([44], name ++ [34]) :=
    splitAtByte_append 34 [44] (name ++ [34]) (by simp)
  have hsplit3 : splitAtByte 34 (name ++ [34]) = some (name, []) :=
    splitAtByte_append 34 name [] hname
  have htake : (digits3 mcc ++ digits3 mnc).take 3 = digits3 mcc := by simp [digits3]
  have hdrop : ((digits3 mcc ++ digits3 mnc).drop 3).take 3 = digits3 mnc := by simp [digits3]
  have hlen : (digits3 mcc ++ digits3 mnc).length = 6 := by simp [digits3]
  unfold COPNResponse.checkOperator operatorLine
  simp only [hsplit1, hsplit2, hsplit3, hlen, if_true, htake, hdrop, atoi_digits3 mcc hmcc,
    atoi_digits3 mnc hmnc]

/-- C26: on a cache in which the pair `(mcc, mnc)` has an entry, `mcc` and `mnc`
below 1000 and written with three digits each, ingesting the line
`"cccnnn","name"` (the name free of double quote, NUL and carriage return),
through `checkOperator` or as the fragment `\r\n+COPN: <line>\r\n` given to
`parse`, makes `getOperatorName(mcc, mnc)` return `name`; the entries of other
pairs are unchanged. -/
theorem operator_line_resolves (c : COPNResponse) (mcc mnc : Nat) (name : List Nat)
    (hmcc : mcc < 1000) (hmnc : mnc < 1000) (hreq : 0 < entryCount c mcc mnc)
    (hname : ∀ b ∈ name, b ≠ 34 ∧ b ≠ 0 ∧ b ≠ 13) :
    (c.checkOperator (operatorLine mcc mnc name)).getOperatorName mcc mnc = name ∧
    (c.parse RespType.TYPE_PLUS
        (str "\r\n+COPN: " ++ operatorLine mcc mnc name ++ str "\r\n")).1 =
      c.checkOperator (operatorLine mcc mnc name) ∧
    (c.checkOperator (operatorLine mcc mnc name)).operators =
      c.operators.map (fun o =>
        if o.mcc = (mcc : Int) ∧ o.mnc = (mnc : Int) then { o with name := name } else o) := by
  have h34 : 34 ∉ name := fun h => (hname 34 h).1 rfl
  have hcheck := checkOperator_operatorLine c mcc mnc name hmcc hmnc h34
  refine ⟨?_, ?_, by rw [hcheck]⟩
  · have hex : ∃ o ∈ c.operators, o.mcc = (mcc : Int) ∧ o.mnc = (mnc : Int) := by
      have := (any_iff_entryCount c mcc mnc).2 hreq
      rw [List.any_eq_true] at this
      obtain ⟨o, ho, hk⟩ := this
      simp only [Bool.and_eq_true, beq_iff_eq] at hk
      exact ⟨o, ho, hk⟩
    obtain ⟨o, ho, hn⟩ := find?_named c.operators mcc mnc name hex
    rw [hcheck, COPNResponse.getOperatorName]
    simp only [ho, hn]
    exact cstr_eq_self name (fun b hb => (hname b hb).2.1)
  · have hline : ∀ b ∈ operatorLine mcc mnc name, b ≠ 0 ∧ b ≠ 13 := by
      intro b hb
      unfold operatorLine digits3 at hb
      simp only [List.mem_cons, List.mem_append, List.mem_singleton, List.not_mem_nil,
        or_false] at hb
      rcases hb with hb | (hb | hb | hb) | (hb | hb | hb) | hb | hb | hb | hb | hb
      all_goals first | omega | exact ⟨(hname b hb).2.1, (hname b hb).2.2⟩
    have hpre : str "\r\n+COPN: " = 13 :: str "\n+COPN: " := rfl
    have hcrlf : str "\r\n" = [13, 10] := rfl
    have hbuf : str "\r\n+COPN: " ++ operatorLine mcc mnc name ++ str "\r\n" =
        [13] ++ (str "\n+COPN: " ++ (operatorLine mcc mnc name ++ 13 :: [10])) := by
      rw [hpre, hcrlf]
      simp
    have hnul : ∀ b ∈ [13] ++ (str "\n+COPN: " ++ (operatorLine mcc mnc name ++ 13 :: [10])),
        b ≠ 0 := by
      intro b hb
      rw [List.mem_append, List.mem_append, List.mem_append] at hb
      rcases hb with hb | hb | hb | hb
      · simp only [List.mem_singleton] at hb; omega
      · have : ∀ x ∈ str "\n+COPN: ", x ≠ 0 := by decide
        exact this b hb
      · exact (hline b hb).1
      · simp only [List.mem_cons, List.mem_singleton, List.not_mem_nil, or_false] at hb; omega
    have hfirst : ∀ k, k < [13].length →
        ¬ str "\n+COPN: " <+: ([13] ++ (str "\n+COPN: " ++
          (operatorLine mcc mnc name ++ 13 :: [10]))).drop k := by
      intro k hk
      have hk0 : k = 0 := by simpa using hk
      rw [hk0]
      intro hp
      have hneedle : str "\n+COPN: " = 10 :: str "+COPN: " := rfl
      rw [hneedle] at hp
      obtain ⟨t, ht⟩ := hp
      simp at ht
    have h13 : 13 ∉ operatorLine mcc mnc name := fun h => (hline 13 h).2 rfl
    rw [hbuf, COPNResponse.parse, if_pos rfl, cstr_eq_self _ hnul,
      strstr_first (str "\n+COPN: ") _ (List.prefix_append _ _) [13] hfirst]
    have h8 : (str "\n+COPN: ").length = 8 := rfl
    simp only [← h8, List.drop_left, splitAtByte_append 13 _ [10] h13]

/-- Instance of C26: (901, 12) is pending when `"901012","MCP Maritime Com"`
arrives. -/
theorem operator_line_resolves_witness :
    ((COPNResponse.create.requestOperator 901 12).checkOperator
        (str "\"901012\",\"MCP Maritime Com\"")).getOperatorName 901 12 =
      str "MCP Maritime Com" :=
  (operator_line_resolves (COPNResponse.create.requestOperator 901 12) 901 12
    (str "MCP Maritime Com") (by decide) (by decide) (by decide) (by decide)).1

/-- Pieces written by `joinComma` are found again by the scan for commas. -/
theorem strtokAll_joinComma (ps : List (List Nat))
    (h : ∀ p ∈ ps, p ≠ [] ∧ ∀ c ∈ p, c ≠ 44) :
    strtokAll (joinComma ps) (str ",") = ps := by
  have hclean : ∀ p : List Nat, (∀ c ∈ p, c ≠ 44) → ∀ c ∈ p, (str ",").contains c = false := by
    intro p hp c hc
    have hcomma : str "," = [44] := rfl
    rw [hcomma]
    simp [hp c hc]
  have h44 : (str ",").contains 44 = true := by decide
  unfold strtokAll
  induction ps with
  | nil => rfl
  | cons a rest ih =>
    obtain ⟨hne, ha⟩ := h a (List.mem_cons_self a rest)
    cases rest with
    | nil =>
      have := strtokAux_append (str ",") a (hclean a ha) [] []
      rw [List.append_nil] at this
      rw [joinComma, this, List.append_nil, strtokAux, if_neg (by simpa using hne),
        List.reverse_reverse]
    | cons b rest =>
      rw [joinComma, strtokAux_append (str ",") a (hclean a ha), List.append_nil,
        strtokAux_cons_delim _ 44 _ _ h44 (by simpa using hne), List.reverse_reverse,
        ih (fun p hp => h p (List.mem_cons_of_mem a hp))]

/-- Comma-separated pieces without NUL hold no NUL. -/
theorem cstr_joinComma (ps : List (List Nat)) (h : ∀ p ∈ ps, ∀ c ∈ p, c ≠ 0) :
    cstr (joinComma ps) = joinComma ps := by
  apply cstr_eq_self
  induction ps with
  | nil => intro c hc; simp [joinComma] at hc
  | cons a rest ih =>
    intro c hc
    cases rest with
    | nil =>
      rw [joinComma] at hc
      exact h a (List.mem_cons_self a []) c hc
    | cons b rest =>
      rw [joinComma, List.mem_append, List.mem_cons] at hc
      rcases hc with hc | hc | hc
      · exact h a (List.mem_cons_self a _) c hc
      · omega
      · exact ih (fun p hp => h p (List.mem_cons_of_mem a hp)) c hc

/-- In base 10 `strtol` skips no `0x`. -/
theorem skipHexMark_ten (s : List Nat) : skipHexMark 10 s = s := by
  unfold skipHexMark
  split
  · rw [if_neg (by omega)]
  · rfl

/-- `atoi` reads back an integer of the `int` range written in decimal. -/
theorem atoi_formatInt (z : Int) (hlo : LONG_MIN ≤ z) (hhi : z ≤ LONG_MAX) :
    atoi (formatInt z) = z := by
  unfold LONG_MIN at hlo
  unfold LONG_MAX at hhi
  unfold atoi strtol formatInt
  by_cases hneg : z < 0
  · rw [if_pos hneg]
    have hsp : (45 :: formatNat z.natAbs).dropWhile isspace = 45 :: formatNat z.natAbs := by
      rw [List.dropWhile_cons]
      rfl
    rw [hsp]
    simp only [takeSign, skipHexMark_ten, accDigits_formatNat, if_true, LONG_MIN]
    rw [if_neg (by omega)]
    omega
  · rw [if_neg hneg]
    obtain ⟨d, ds, hf, hall⟩ := formatNat_form z.toNat
    have hd := hall d (List.mem_cons_self d ds)
    have hsp : (formatNat z.toNat).dropWhile isspace = formatNat z.toNat := by
      rw [hf, List.dropWhile_cons]
      have : isspace d = false := by
        unfold isspace
        simp only [Bool.or_eq_false_iff, beq_eq_false_iff_ne, ne_eq, Bool.and_eq_false_imp,
          decide_eq_true_eq, decide_eq_false_iff_not, not_le]
        omega
      rw [this]
      rfl
    have hsign : takeSign (formatNat z.toNat) = (false, formatNat z.toNat) := by
      rw [hf]
      unfold takeSign
      split
      · rename_i heq
        simp only [List.cons.injEq] at heq
        omega
      · rename_i heq
        simp only [List.cons.injEq] at heq
        omega
      · rfl
    rw [hsp, hsign]
    simp only [skipHexMark_ten, accDigits_formatNat, Bool.false_eq_true, if_false, LONG_MAX]
    rw [if_neg (by omega)]
    omega

/-- C21 (as stated, refuted): on the line `d,t,1,2` (four fields) `postProcess`
leaves `valid = false` but stores latitude and longitude; on `d,t,1,2,3` (five
fields) it also stores the altitude. -/
theorem location_partial_line_stores_fields :
    (({ LocationResponse.create (0 : Int) with string := str "d,t,1,2" }).postProcess
        atofWhole).valid = false ∧
    (({ LocationResponse.create (0 : Int) with string := str "d,t,1,2" }).postProcess
        atofWhole).lat = 1 ∧
    (({ LocationResponse.create (0 : Int) with string := str "d,t,1,2" }).postProcess
        atofWhole).lon = 2 ∧
    (({ LocationResponse.create (0 : Int) with string := str "d,t,1,2,3" }).postProcess
        atofWhole).valid = false ∧
    (({ LocationResponse.create (0 : Int) with string := str "d,t,1,2,3" }).postProcess
        atofWhole).alt = 3 ∧
    (LocationResponse.create (0 : Int)).lat = 0 ∧ (LocationResponse.create (0 : Int)).lon = 0 ∧
    (LocationResponse.create (0 : Int)).alt = 0 := by
  decide

/-- C21 (amended): when the accumulated line has fewer than six comma-separated
non-empty fields, `postProcess` leaves `valid`, `resp` and `uncertainty` as they
were (so `valid` stays false on a new decoder); the fields that are present are
stored as they are read: `lat` from a third field, `lon` from a fourth, `alt`
from a fifth, each of them unchanged when its field is missing. -/
theorem location_fewer_fields {F : Type} (atof : List Nat → F) (r : LocationResponse F)
    (fs : List (List Nat)) (hf : ∀ f ∈ fs, f ≠ [] ∧ ∀ b ∈ f, b ≠ 44 ∧ b ≠ 0)
    (hlen : fs.length < 6) (hs : r.string = joinComma fs) :
    (r.postProcess atof).valid = r.valid ∧
    (r.postProcess atof).resp = r.resp ∧
    (r.postProcess atof).uncertainty = r.uncertainty ∧
    (r.postProcess atof).lat = (if 3 ≤ fs.length then atof (fs.getD 2 []) else r.lat) ∧
    (r.postProcess atof).lon = (if 4 ≤ fs.length then atof (fs.getD 3 []) else r.lon) ∧
    (r.postProcess atof).alt = (if 5 ≤ fs.length then atoi (fs.getD 4 []) else r.alt) := by
  have htok : strtokAll (cstr r.string) (str ",") = fs := by
    rw [hs, cstr_joinComma fs (fun f hfm b hb => ((hf f hfm).2 b hb).2),
      strtokAll_joinComma fs (fun f hfm => ⟨(hf f hfm).1, fun b hb => ((hf f hfm).2 b hb).1⟩)]
  unfold LocationResponse.postProcess
  rw [htok]
  rcases fs with _ | ⟨a, _ | ⟨b, _ | ⟨c, _ | ⟨d, _ | ⟨e, _ | ⟨f, rest⟩⟩⟩⟩⟩⟩
  · simp
  · simp
  · simp
  · simp
  · simp
  · simp
  · simp only [List.length_cons] at hlen
    omega

/-- Instance of the amended C21: the line `date,time` alone. -/
theorem location_fewer_fields_witness :
    (({ LocationResponse.create (0 : Int) with string := str "d,t" }).postProcess
        atofWhole).valid = false ∧
    (({ LocationResponse.create (0 : Int) with string := str "d,t" }).postProcess
        atofWhole).lat = 0 := by
  have h := location_fewer_fields atofWhole
    { LocationResponse.create (0 : Int) with string := str "d,t" } [str "d", str "t"]
    (by decide) (by decide) rfl
  exact ⟨h.1, h.2.2.2.1⟩

/-- C22: when the accumulated line is six non-empty comma-separated fields
`date,time,lat,lon,alt,uncertainty`, `postProcess` sets `valid = true` and
`resp = RESP_OK`, takes `lat` and `lon` from the third and fourth field by
`atof`, and `alt` and `uncertainty` from the fifth and sixth by `atoi`, which
is their decimal value when they are integers of the `int` range. -/
theorem location_six_fields {F : Type} (atof : List Nat → F) (r : LocationResponse F)
    (date time latPart lonPart altPart uncPart : List Nat)
    (hf : ∀ f ∈ [date, time, latPart, lonPart, altPart, uncPart],
      f ≠ [] ∧ ∀ b ∈ f, b ≠ 44 ∧ b ≠ 0)
    (hs : r.string = joinComma [date, time, latPart, lonPart, altPart, uncPart]) :
    r.postProcess atof =
      { r with lat := atof latPart, lon := atof lonPart, alt := atoi altPart,
               uncertainty := atoi uncPart, valid := true, resp := RESP_OK } ∧
    (∀ a u : Int, LONG_MIN ≤ a → a ≤ LONG_MAX → LONG_MIN ≤ u → u ≤ LONG_MAX →
      altPart = formatInt a → uncPart = formatInt u →
      (r.postProcess atof).alt = a ∧ (r.postProcess atof).uncertainty = u) := by
  have htok : strtokAll (cstr r.string) (str ",") =
      [date, time, latPart, lonPart, altPart, uncPart] := by
    rw [hs, cstr_joinComma _ (fun f hfm b hb => ((hf f hfm).2 b hb).2),
      strtokAll_joinComma _ (fun f hfm => ⟨(hf f hfm).1, fun b hb => ((hf f hfm).2 b hb).1⟩)]
  have hpost : r.postProcess atof =
      { r with lat := atof latPart, lon := atof lonPart, alt := atoi altPart,
               uncertainty := atoi uncPart, valid := true, resp := RESP_OK } := by
    unfold LocationResponse.postProcess
    rw [htok]
  refine ⟨hpost, ?_⟩
  intro a u ha1 ha2 hu1 hu2 hal hun
  rw [hpost]
  simp only [hal, hun, atoi_formatInt a ha1 ha2, atoi_formatInt u hu1 hu2, and_self]

/-- Instance of C22: a reply of AT+ULOC. -/
theorem location_six_fields_witness :
    (({ LocationResponse.create (0 : Int) with
          string := str "13/04/2011,09:54:51.000,45,13,49,1" }).postProcess atofWhole).valid = true ∧
    (({ LocationResponse.create (0 : Int) with
          string := str "13/04/2011,09:54:51.000,45,13,49,1" }).postProcess atofWhole).alt = 49 ∧
    (({ LocationResponse.create (0 : Int) with
          string := str "13/04/2011,09:54:51.000,45,13,49,1" }).postProcess
        atofWhole).uncertainty = 1 := by
  have h := location_six_fields atofWhole
    { LocationResponse.create (0 : Int) with string := str "13/04/2011,09:54:51.000,45,13,49,1" }
    (str "13/04/2011") (str "09:54:51.000") (str "45") (str "13") (str "49") (str "1")
    (by decide) rfl
  have h2 := h.2 49 1 (by decide) (by decide) (by decide) (by decide) (by decide) (by decide)
  exact ⟨by rw [h.1], h2.1, h2.2⟩

/-- One hexadecimal digit read by `accDigits`. -/
theorem accDigits_hexDigit (upper : Bool) (m : Nat) (hm : m < 16) (cs : List Nat) (acc : Nat) :
    accDigits 16 ((if m < 10 then 48 + m else (if upper then 55 else 87) + m) :: cs) acc =
      accDigits 16 cs (acc * 16 + m) := by
  by_cases h10 : m < 10
  · rw [if_pos h10]
    have hv : digitVal (48 + m) = some m := by
      unfold digitVal
      rw [if_pos (by omega)]
      congr 1
      omega
    rw [accDigits, hv]
    simp only
    rw [if_pos hm]
  · rw [if_neg h10]
    cases upper with
    | true =>
      have hv : digitVal (55 + m) = some m := by
        unfold digitVal
        rw [if_neg (by omega), if_pos (by omega)]
        congr 1
        omega
      simp only [if_true]
      rw [accDigits, hv]
      simp only
      rw [if_pos hm]
    | false =>
      have hv : digitVal (87 + m) = some m := by
        unfold digitVal
        rw [if_neg (by omega), if_neg (by omega), if_pos (by omega)]
        congr 1
        omega
      simp only [Bool.false_eq_true, if_false]
      rw [accDigits, hv]
      simp only
      rw [if_pos hm]

/-- The digit `hexRev` writes is a hexadecimal digit. -/
theorem isHexDigit_hexChar (upper : Bool) (m : Nat) (hm : m < 16) :
    isHexDigit (if m < 10 then 48 + m else (if upper then 55 else 87) + m) = true := by
  interval_cases m <;> cases upper <;> decide

/-- `hexRev` yields hexadecimal digits only. -/
theorem hexRev_digits (upper : Bool) (fuel : Nat) :
    ∀ n d, d ∈ hexRev upper fuel n → isHexDigit d = true := by
  induction fuel with
  | zero => intro n d hd; simp [hexRev] at hd
  | succ fuel ih =>
    intro n d hd
    rw [hexRev, List.mem_cons] at hd
    rcases hd with hd | hd
    · rw [hd]
      exact isHexDigit_hexChar upper (n % 16) (Nat.mod_lt _ (by omega))
    · split_ifs at hd
      · simp at hd
      · exact ih _ d hd

/-- Reading back the digits `hexRev` wrote. -/
theorem accDigits_hexRev (upper : Bool) (fuel : Nat) :
    ∀ (n : Nat), n < fuel → ∀ (acc : Nat) (rest : List Nat),
      accDigits 16 ((hexRev upper fuel n).reverse ++ rest) acc =
        accDigits 16 rest (acc * 16 ^ (hexRev upper fuel n).length + n) := by
  induction fuel with
  | zero => intro n hn; omega
  | succ fuel ih =>
    intro n hn acc rest
    rw [hexRev]
    by_cases h16 : n < 16
    · rw [if_pos h16]
      simp only [List.reverse_cons, List.reverse_nil, List.nil_append, List.singleton_append,
        List.length_singleton, pow_one]
      rw [accDigits_hexDigit upper (n % 16) (Nat.mod_lt _ (by omega))]
      congr 1
      omega
    · rw [if_neg h16]
      simp only [List.reverse_cons, List.append_assoc, List.singleton_append, List.length_cons]
      rw [ih (n / 16) (by omega) acc _,
        accDigits_hexDigit upper (n % 16) (Nat.mod_lt _ (by omega))]
      congr 1
      have hdm := Nat.div_add_mod n 16
      rw [pow_succ]
      nlinarith [hdm]

/-- The hexadecimal text of a number is not empty and made of hexadecimal digits. -/
theorem formatHex_form (upper : Bool) (n : Nat) :
    ∃ d ds, formatHex upper n = d :: ds ∧ ∀ c ∈ d :: ds, isHexDigit c = true := by
  have hall : ∀ c ∈ formatHex upper n, isHexDigit c = true := by
    intro c hc
    unfold formatHex at hc
    rw [List.mem_reverse] at hc
    exact hexRev_digits upper _ _ c hc
  cases hf : formatHex upper n with
  | nil =>
    unfold formatHex at hf
    rw [hexRev] at hf
    simp at hf
  | cons d ds =>
    rw [hf] at hall
    exact ⟨d, ds, rfl, hall⟩

/-- `accDigits` in base 16 reads back the hexadecimal text of a number. -/
theorem accDigits_formatHex (upper : Bool) (n : Nat) :
    accDigits 16 (formatHex upper n) 0 = n := by
  have := accDigits_hexRev upper (n + 1) n (by omega) 0 []
  rw [List.append_nil] at this
  unfold formatHex
  rw [this]
  simp [accDigits]

/-- A hexadecimal digit is no NUL, space, sign, quote, comma or `x`. -/
theorem isHexDigit_bounds (c : Nat) (h : isHexDigit c = true) :
    (48 ≤ c ∧ c ≤ 57) ∨ (65 ≤ c ∧ c ≤ 70) ∨ (97 ≤ c ∧ c ≤ 102) := by
  unfold isHexDigit at h
  simp only [Bool.or_eq_true, Bool.and_eq_true, decide_eq_true_eq] at h
  omega

/-- The conversion `%x` reads back a 32-bit number written in hexadecimal and
followed by a double quote. -/
theorem scanHex_formatHex (upper : Bool) (n : Nat) (hn : n ≤ ULONG_MAX) (rest : List Nat) :
    scanHex (formatHex upper n ++ 34 :: rest) = some (toInt32 n, 34 :: rest) := by
  obtain ⟨d, ds, hf, hall⟩ := formatHex_form upper n
  have hd := isHexDigit_bounds d (hall d (List.mem_cons_self d ds))
  have hp : ∀ c ∈ formatHex upper n, isHexDigit c = true := by
    rw [hf]
    exact hall
  have h34 : isHexDigit 34 = false := by decide
  have htake : (formatHex upper n ++ 34 :: rest).takeWhile isHexDigit = formatHex upper n := by
    rw [List.takeWhile_append_of_pos hp, List.takeWhile_cons, h34]
    simp
  have hdrop : (formatHex upper n ++ 34 :: rest).dropWhile isHexDigit = 34 :: rest := by
    rw [List.dropWhile_append_of_pos hp, List.dropWhile_cons, h34]
    simp
  have hsp : (formatHex upper n ++ 34 :: rest).dropWhile isspace =
      formatHex upper n ++ 34 :: rest := by
    rw [hf, List.cons_append, List.dropWhile_cons]
    have : isspace d = false := by
      unfold isspace
      simp only [Bool.or_eq_false_iff, beq_eq_false_iff_ne, ne_eq, Bool.and_eq_false_imp,
        decide_eq_true_eq, decide_eq_false_iff_not, not_le]
      omega
    rw [this]
    rfl
  have hsign : takeSign (formatHex upper n ++ 34 :: rest) =
      (false, formatHex upper n ++ 34 :: rest) := by
    rw [hf, List.cons_append]
    unfold takeSign
    split
    · rename_i heq
      simp only [List.cons.injEq] at heq
      omega
    · rename_i heq
      simp only [List.cons.injEq] at heq
      omega
    · rfl
  have hmark : skipScanHexMark (formatHex upper n ++ 34 :: rest) =
      formatHex upper n ++ 34 :: rest := by
    rw [hf, List.cons_append]
    unfold skipScanHexMark
    split
    · rename_i x d2 r heq
      have hx : x ≠ 120 ∧ x ≠ 88 := by
        cases ds with
        | nil =>
          simp only [List.nil_append, List.cons.injEq] at heq
          omega
        | cons e es =>
          have he := isHexDigit_bounds e (hall e (by simp))
          simp only [List.cons_append, List.cons.injEq] at heq
          omega
      rw [if_neg (by omega)]
      exact heq.symm
    · rfl
  unfold scanHex
  simp only [hsp, hsign, hmark, htake, hdrop, accDigits_formatHex]
  rw [if_neg (by rw [hf]; simp)]
  unfold ULONG_MAX at hn
  simp only [ULONG_MAX, Bool.false_eq_true, if_false]
  rw [if_neg (by omega)]

/-- The hexadecimal text of a number holds no NUL. -/
theorem formatHex_bytes (upper : Bool) (n : Nat) : ∀ c ∈ formatHex upper n, c ≠ 0 := by
  intro c hc
  obtain ⟨d, ds, hf, hall⟩ := formatHex_form upper n
  rw [hf] at hc
  have := isHexDigit_bounds c (hall c hc)
  omega

/-- The five-field registration line holds no NUL. -/
theorem cstr_cregLine5 (n stat : Int) (u1 : Bool) (lac : Nat) (u2 : Bool) (ci : Nat) (rat : Int) :
    cstr (cregLine5 n stat u1 lac u2 ci rat) = cregLine5 n stat u1 lac u2 ci rat := by
  apply cstr_eq_self
  intro c hc
  unfold cregLine5 at hc
  simp only [List.mem_append, List.mem_cons] at hc
  have hi := fun z => formatInt_bytes z c
  have hh := fun u m => formatHex_bytes u m c
  rcases hc with hc | hc | hc | hc | hc | hc | hc | hc | hc | hc | hc | hc | hc
  all_goals first
    | omega
    | (have hb := hi _ hc; omega)
    | exact hh _ _ hc

/-- The four-field registration line holds no NUL. -/
theorem cstr_cregLine4 (stat : Int) (u1 : Bool) (lac : Nat) (u2 : Bool) (ci : Nat) (rat : Int) :
    cstr (cregLine4 stat u1 lac u2 ci rat) = cregLine4 stat u1 lac u2 ci rat := by
  apply cstr_eq_self
  intro c hc
  unfold cregLine4 at hc
  simp only [List.mem_append, List.mem_cons] at hc
  have hi := fun z => formatInt_bytes z c
  have hh := fun u m => formatHex_bytes u m c
  rcases hc with hc | hc | hc | hc | hc | hc | hc | hc | hc | hc | hc
  all_goals first
    | omega
    | (have hb := hi _ hc; omega)
    | exact hh _ _ hc

/-- The conversion `%d` fails on a double quote. -/
theorem scanInt_quote (rest : List Nat) : scanInt (34 :: rest) = none := by
  unfold scanInt
  have hsp : (34 :: rest).dropWhile isspace = 34 :: rest := by
    rw [List.dropWhile_cons]
    rfl
  have htk : (34 :: rest).takeWhile isDigit = [] := by
    rw [List.takeWhile_cons]
    rfl
  simp only [hsp, takeSign, htk, List.isEmpty_nil, if_true]

/-- The values `sscanf` converts on the quoted hexadecimal fields and the last
decimal field of a registration line. -/
theorem scanItems_cregTail (u1 : Bool) (lac : Nat) (u2 : Bool) (ci : Nat) (rat : Int)
    (hlac : lac ≤ ULONG_MAX) (hci : ci ≤ ULONG_MAX) (hrat : LONG_MIN ≤ rat ∧ rat ≤ LONG_MAX) :
    scanItems [ScanItem.lit 34, ScanItem.hex, ScanItem.lit 34, ScanItem.lit 44, ScanItem.lit 34,
        ScanItem.hex, ScanItem.lit 34, ScanItem.lit 44, ScanItem.dec]
      (34 :: (formatHex u1 lac ++ 34 :: 44 :: 34 :: (formatHex u2 ci ++ 34 :: 44 :: formatInt rat)))
      = [toInt32 lac, toInt32 ci, rat] := by
  have hr := scanInt_formatInt rat hrat.1 hrat.2 [] rfl
  rw [List.append_nil] at hr
  simp only [scanItems, if_true, scanHex_formatHex u1 lac hlac, scanHex_formatHex u2 ci hci, hr]

/-- C23: for decimal `n`, `stat`, `rat` of the `int` range and hexadecimal `lac`,
`ci` of 32 bits, `postProcess` of the Registration decoder on the five-field line
`n,stat,"lac","ci",rat` and on the four-field line `stat,"lac","ci",rat` sets
`valid = true` with the same `stat`, `lac`, `ci` and `rat`, the hexadecimal
fields holding the value of their digits (as the `int` of those 32 bits, which
is the value itself below 2^31); on a line on which neither `sscanf` converts
all its items `valid` is left as it was, so false on a new decoder. -/
theorem creg_both_grammars (r : CREGResponse) (n stat rat : Int) (lac ci : Nat)
    (upLac upCi : Bool)
    (hn : LONG_MIN ≤ n ∧ n ≤ LONG_MAX) (hstat : LONG_MIN ≤ stat ∧ stat ≤ LONG_MAX)
    (hrat : LONG_MIN ≤ rat ∧ rat ≤ LONG_MAX) (hlac : lac ≤ ULONG_MAX) (hci : ci ≤ ULONG_MAX) :
    ({ r with string := cregLine5 n stat upLac lac upCi ci rat }).postProcess =
      { r with string := cregLine5 n stat upLac lac upCi ci rat, valid := true, stat := stat,
               lac := toInt32 lac, ci := toInt32 ci, rat := rat } ∧
    ({ r with string := cregLine4 stat upLac lac upCi ci rat }).postProcess =
      { r with string := cregLine4 stat upLac lac upCi ci rat, valid := true, stat := stat,
               lac := toInt32 lac, ci := toInt32 ci, rat := rat } ∧
    (lac < 2147483648 → toInt32 lac = lac) ∧ (ci < 2147483648 → toInt32 ci = ci) ∧
    (∀ q : CREGResponse, (scanItems cregFormat5 (cstr q.string)).length ≠ 5 →
      (scanItems cregFormat4 (cstr q.string)).length ≠ 4 → q.postProcess.valid = q.valid) := by
  have htail := scanItems_cregTail upLac lac upCi ci rat hlac hci hrat
  have h5 : scanItems cregFormat5 (cregLine5 n stat upLac lac upCi ci rat) =
      [n, stat, toInt32 lac, toInt32 ci, rat] := by
    unfold cregFormat5 cregLine5
    rw [scanItems, scanInt_formatInt n hn.1 hn.2 _ (by rw [List.takeWhile_cons]; rfl)]
    simp only
    rw [scanItems, if_pos rfl, scanItems,
      scanInt_formatInt stat hstat.1 hstat.2 _ (by rw [List.takeWhile_cons]; rfl)]
    simp only
    rw [scanItems, if_pos rfl, htail]
  have h45 : scanItems cregFormat5 (cregLine4 stat upLac lac upCi ci rat) = [stat] := by
    unfold cregFormat5 cregLine4
    rw [scanItems, scanInt_formatInt stat hstat.1 hstat.2 _ (by rw [List.takeWhile_cons]; rfl)]
    simp only
    rw [scanItems, if_pos rfl, scanItems, scanInt_quote]
  have h4 : scanItems cregFormat4 (cregLine4 stat upLac lac upCi ci rat) =
      [stat, toInt32 lac, toInt32 ci, rat] := by
    unfold cregFormat4 cregLine4
    rw [scanItems, scanInt_formatInt stat hstat.1 hstat.2 _ (by rw [List.takeWhile_cons]; rfl)]
    simp only
    rw [scanItems, if_pos rfl, htail]
  refine ⟨?_, ?_, ?_, ?_, ?_⟩
  · unfold CREGResponse.postProcess
    simp only [cstr_cregLine5, h5, List.length_cons, List.length_nil, if_true, List.drop_succ_cons,
      List.drop_zero, CREGResponse.store]
  · unfold CREGResponse.postProcess
    simp only [cstr_cregLine4, h45, h4, List.length_cons, List.length_nil, List.drop_succ_cons,
      List.drop_zero, CREGResponse.store]
    rfl
  · intro h
    unfold toInt32
    rw [if_pos h]
  · intro h
    unfold toInt32
    rw [if_pos h]
  · intro q hq5 hq4
    unfold CREGResponse.postProcess
    rw [if_neg hq5, if_neg hq4]
    generalize (scanItems cregFormat5 (cstr q.string)).drop 1 = l1
    generalize scanItems cregFormat4 (cstr q.string) = l2
    have hstore : ∀ (p : CREGResponse) (l : List Int), (p.store l).valid = p.valid := by
      intro p l
      rcases l with _ | ⟨a, _ | ⟨b, _ | ⟨c, _ | ⟨d, l⟩⟩⟩⟩ <;> rfl
    rw [hstore, hstore]

/-- Instance of C23: the reply `2,1,"FFFE","C45C010",8` and its four-field form
give stat 1, lac 0xFFFE, ci 0xC45C010 and rat 8; the line `1,"FFFE"` matches
neither grammar. -/
theorem creg_both_grammars_witness :
    (({ CREGResponse.create with string := str "2,1,\"FFFE\",\"C45C010\",8" }).postProcess =
      { CREGResponse.create with
        string := str "2,1,\"FFFE\",\"C45C010\",8", valid := true, stat := 1, lac := 0xFFFE,
        ci := 0xC45C010, rat := 8 }) ∧
    (({ CREGResponse.create with string := str "1,\"FFFE\",\"C45C010\",8" }).postProcess =
      { CREGResponse.create with
        string := str "1,\"FFFE\",\"C45C010\",8", valid := true, stat := 1, lac := 0xFFFE,
        ci := 0xC45C010, rat := 8 }) ∧
    ({ CREGResponse.create with string := str "1,\"FFFE\"" }).postProcess.valid = false := by
  have h := creg_both_grammars CREGResponse.create 2 1 8 0xFFFE 0xC45C010 true true
    (by decide) (by decide) (by decide) (by decide) (by decide)
  refine ⟨?_, ?_, ?_⟩
  · have h1 := h.1
    have e : cregLine5 2 1 true 0xFFFE true 0xC45C010 8 = str "2,1,\"FFFE\",\"C45C010\",8" := by
      decide
    rw [e] at h1
    exact h1
  · have h2 := h.2.1
    have e : cregLine4 1 true 0xFFFE true 0xC45C010 8 = str "1,\"FFFE\",\"C45C010\",8" := by
      decide
    rw [e] at h2
    exact h2
  · exact h.2.2.2.2 { CREGResponse.create with string := str "1,\"FFFE\"" } (by decide) (by decide)

/-- `toupper` does not see the letter case. -/
theorem toupper_flipCase (c : Nat) : toupper (flipCase c) = toupper c := by
  unfold toupper flipCase
  split_ifs <;> omega

/-- Changing the letter case makes no NUL, line end, space, plus, comma or colon,
and removes none. -/
theorem flipCase_eq_iff (c x : Nat) (hx : x < 65) : flipCase c = x ↔ c = x := by
  unfold flipCase
  split_ifs <;> omega

/-- Bytes with the same `toupper` are both a space, a colon, or neither. -/
theorem toupper_eq_small (c d x : Nat) (h : toupper c = toupper d) (hx : x < 65) :
    c = x ↔ d = x := by
  unfold toupper at h
  split_ifs at h <;> omega

/-- The first step of `cstr`. -/
theorem cstr_cons (c : Nat) (cs : List Nat) :
    cstr (c :: cs) = if c = 0 then [] else c :: cstr cs := by
  unfold cstr
  rw [List.takeWhile_cons]
  by_cases h : c = 0
  · simp [h]
  · simp [h]

/-- Changing the case of the keys commutes with cutting at the first NUL. -/
theorem cstr_recaseKeys (s : List Nat) :
    ∀ (b : Bool) (mask : List Bool), cstr (recaseKeys b mask s) = recaseKeys b mask (cstr s) := by
  induction s with
  | nil => intro b mask; rfl
  | cons c cs ih =>
    intro b mask
    rw [recaseKeys, cstr_cons c cs]
    by_cases h0 : c = 0
    · subst h0
      have hcase : flipCase 0 = 0 := by decide
      rw [if_neg (by omega), if_neg (by omega), if_pos rfl]
      cases b <;> simp [cstr_cons, hcase, recaseKeys]
    · rw [if_neg h0, recaseKeys]
      have hcase : flipCase c ≠ 0 := fun h => h0 ((flipCase_eq_iff c 0 (by omega)).1 h)
      by_cases h44 : c = 44
      · rw [if_pos h44, if_pos h44, cstr_cons, if_neg (by omega), ih]
      · rw [if_neg h44, if_neg h44]
        by_cases h58 : c = 58
        · rw [if_pos h58, if_pos h58, cstr_cons, if_neg (by omega), ih]
        · rw [if_neg h58, if_neg h58]
          cases b with
          | true =>
            simp only [if_true]
            cases hm : mask.headD false with
            | true => simp only [if_true]; rw [cstr_cons, if_neg hcase, ih]
            | false => simp only [Bool.false_eq_true, if_false]; rw [cstr_cons, if_neg h0, ih]
          | false =>
            simp only [Bool.false_eq_true, if_false]
            rw [cstr_cons, if_neg h0, ih]

/-- Lists with the same `toupper` image hold a colon together. -/
theorem colon_not_mem_of_map (k j : List Nat) (h : k.map toupper = j.map toupper)
    (hk : 58 ∉ k) : 58 ∉ j := by
  induction k generalizing j with
  | nil =>
    cases j with
    | nil => exact hk
    | cons d ds => simp at h
  | cons c cs ih =>
    cases j with
    | nil => simp at h
    | cons d ds =>
      simp only [List.map_cons, List.cons.injEq] at h
      simp only [List.mem_cons, not_or] at hk ⊢
      refine ⟨?_, ih ds h.2 hk.2⟩
      intro hd
      exact hk.1 ((toupper_eq_small c d 58 h.1 (by omega)).2 hd.symm).symm

/-- Dropping the leading spaces keeps two pairs in step. -/
theorem dropWhile_space_sync (k : List Nat) :
    ∀ (j v : List Nat), k.map toupper = j.map toupper → 58 ∉ k →
      (v = [] ∨ ∃ w, v = 58 :: w) →
      ∃ k1 j1, (k ++ v).dropWhile (fun c => c == 32) = k1 ++ v ∧
        (j ++ v).dropWhile (fun c => c == 32) = j1 ++ v ∧
        k1.map toupper = j1.map toupper ∧ 58 ∉ k1 := by
  induction k with
  | nil =>
    intro j v h hk hv
    cases j with
    | cons d ds => simp at h
    | nil =>
      refine ⟨[], [], ?_, ?_, rfl, hk⟩
      · rcases hv with hv | ⟨w, hv⟩
        · rw [hv]; rfl
        · rw [hv]; rfl
      · rcases hv with hv | ⟨w, hv⟩
        · rw [hv]; rfl
        · rw [hv]; rfl
  | cons c cs ih =>
    intro j v h hk hv
    cases j with
    | nil => simp at h
    | cons d ds =>
      simp only [List.map_cons, List.cons.injEq] at h
      have hk2 : 58 ∉ cs := fun hm => hk (List.mem_cons_of_mem c hm)
      by_cases hc : c = 32
      · have hd : d = 32 := (toupper_eq_small c d 32 h.1 (by omega)).1 hc
        obtain ⟨k1, j1, e1, e2, e3, e4⟩ := ih ds v h.2 hk2 hv
        refine ⟨k1, j1, ?_, ?_, e3, e4⟩
        · rw [List.cons_append, List.dropWhile_cons, hc]
          simpa using e1
        · rw [List.cons_append, List.dropWhile_cons, hd]
          simpa using e2
      · have hd : d ≠ 32 := fun hd => hc ((toupper_eq_small c d 32 h.1 (by omega)).2 hd)
        refine ⟨c :: cs, d :: ds, ?_, ?_, ?_, hk⟩
        · rw [List.cons_append, List.dropWhile_cons]
          simp [hc]
        · rw [List.cons_append, List.dropWhile_cons]
          simp [hd]
        · simp only [List.map_cons, h.1, h.2]

/-- The record `addKeyValue` gives depends on the key through its upper-case
form only. -/
theorem addKeyValue_map (r : CellData) (k j v : List Nat) (h : k.map toupper = j.map toupper) :
    r.addKeyValue j v = r.addKeyValue k v := by
  have hlen : k.length = j.length := by
    have := congrArg List.length h
    simpa using this
  unfold CellData.addKeyValue
  rw [hlen]
  simp only [h]

/-- Pairs that differ by the case of the key are decoded alike. -/
theorem parsePair_keyRel (b : Bool) (p q : List Nat) (h : KeyRel b p q) (r : CellData) :
    r.parsePair q = r.parsePair p := by
  obtain ⟨k, j, v, hp, hq, hmap, hk, hv⟩ := h
  have hv2 : v = [] ∨ ∃ w, v = 58 :: w := by
    cases b with
    | true => exact Or.inl (by simpa using hv)
    | false => exact Or.inr (by simpa using hv)
  obtain ⟨k1, j1, e1, e2, e3, e4⟩ := dropWhile_space_sync k j v hmap hk hv2
  unfold CellData.parsePair
  rw [hp, hq, e1, e2]
  rcases hv2 with hv2 | ⟨w, hv2⟩
  · rw [hv2, List.append_nil, List.append_nil,
      (splitAtByte_eq_none_iff 58 k1).2 e4,
      (splitAtByte_eq_none_iff 58 j1).2 (colon_not_mem_of_map k1 j1 e3 e4)]
  · rw [hv2, splitAtByte_append 58 k1 w e4,
      splitAtByte_append 58 j1 w (colon_not_mem_of_map k1 j1 e3 e4)]
    exact addKeyValue_map r k1 j1 w e3

/-- Pairs that differ by the case of the key have the same length. -/
theorem keyRel_length (b : Bool) (p q : List Nat) (h : KeyRel b p q) : p.length = q.length := by
  obtain ⟨k, j, v, hp, hq, hmap, -, -⟩ := h
  have := congrArg List.length hmap
  simp only [List.length_map] at this
  rw [hp, hq, List.length_append, List.length_append, this]

/-- A colon ends the key. -/
theorem keyRel_colon (b : Bool) (p q : List Nat) (h : KeyRel b p q) :
    KeyRel false (p ++ [58]) (q ++ [58]) := by
  obtain ⟨k, j, v, hp, hq, hmap, hk, hv⟩ := h
  cases b with
  | true =>
    have hv2 : v = [] := by simpa using hv
    refine ⟨k, j, [58], ?_, ?_, hmap, hk, ?_⟩
    · rw [hp, hv2, List.append_nil]
    · rw [hq, hv2, List.append_nil]
    · simp
  | false =>
    obtain ⟨w, hw⟩ : ∃ w, v = 58 :: w := by simpa using hv
    refine ⟨k, j, v ++ [58], ?_, ?_, hmap, hk, ?_⟩
    · rw [hp, List.append_assoc]
    · rw [hq, List.append_assoc]
    · simp [hw]

/-- A key byte, in either case. -/
theorem keyRel_key (p q : List Nat) (c d : Nat) (h : KeyRel true p q)
    (hcd : toupper c = toupper d) (hc : c ≠ 58) : KeyRel true (p ++ [c]) (q ++ [d]) := by
  obtain ⟨k, j, v, hp, hq, hmap, hk, hv⟩ := h
  have hv2 : v = [] := by simpa using hv
  refine ⟨k ++ [c], j ++ [d], [], ?_, ?_, ?_, ?_, ?_⟩
  · rw [hp, hv2, List.append_nil, List.append_nil]
  · rw [hq, hv2, List.append_nil, List.append_nil]
  · simp only [List.map_append, List.map_cons, List.map_nil, hmap, hcd]
  · simp only [List.mem_append, List.mem_singleton, not_or]
    exact ⟨hk, fun h => hc h.symm⟩
  · simp

/-- A byte of the value. -/
theorem keyRel_value (p q : List Nat) (c : Nat) (h : KeyRel false p q) :
    KeyRel false (p ++ [c]) (q ++ [c]) := by
  obtain ⟨k, j, v, hp, hq, hmap, hk, hv⟩ := h
  obtain ⟨w, hw⟩ : ∃ w, v = 58 :: w := by simpa using hv
  refine ⟨k, j, v ++ [c], ?_, ?_, hmap, hk, ?_⟩
  · rw [hp, List.append_assoc]
  · rw [hq, List.append_assoc]
  · simp [hw]

/-- The empty beginning of a pair. -/
theorem keyRel_nil : KeyRel true [] [] := ⟨[], [], [], rfl, rfl, rfl, by simp, by simp⟩

/-- What the comma scan yields at a comma or at the end of the line. -/
theorem strtokAux_comma (cs cur : List Nat) :
    strtokAux (str ",") (44 :: cs) cur =
      (if cur.isEmpty then [] else [cur.reverse]) ++ strtokAux (str ",") cs [] := by
  have h44 : (str ",").contains 44 = true := by decide
  rw [strtokAux, if_pos (by simpa using h44)]
  by_cases h : cur.isEmpty
  · rw [if_pos h, if_pos h]; rfl
  · rw [if_neg h, if_neg h]; rfl

/-- A byte other than the comma joins the current pair. -/
theorem strtokAux_not_comma (c : Nat) (cs cur : List Nat) (h : c ≠ 44) :
    strtokAux (str ",") (c :: cs) cur = strtokAux (str ",") cs (c :: cur) := by
  apply strtokAux_cons_clean
  have hcomma : str "," = [44] := rfl
  rw [hcomma]
  simp [h]

/-- The pairs of a line with recased keys are decoded like those of the line. -/
theorem foldl_recaseKeys (s : List Nat) :
    ∀ (b : Bool) (mask : List Bool) (cur cur2 : List Nat) (r : CellData),
      KeyRel b cur.reverse cur2.reverse →
      (strtokAux (str ",") (recaseKeys b mask s) cur2).foldl CellData.parsePair r =
        (strtokAux (str ",") s cur).foldl CellData.parsePair r := by
  have hemit : ∀ (b : Bool) (cur cur2 : List Nat) (r : CellData),
      KeyRel b cur.reverse cur2.reverse →
      (if cur2.isEmpty then [] else [cur2.reverse]).foldl CellData.parsePair r =
        (if cur.isEmpty then [] else [cur.reverse]).foldl CellData.parsePair r := by
    intro b cur cur2 r h
    have hlen := keyRel_length b _ _ h
    simp only [List.length_reverse] at hlen
    cases cur with
    | nil =>
      cases cur2 with
      | nil => rfl
      | cons d ds => simp at hlen
    | cons c cs =>
      cases cur2 with
      | nil => simp at hlen
      | cons d ds =>
        simp only [List.isEmpty_cons, Bool.false_eq_true, if_false, List.foldl_cons,
          List.foldl_nil]
        exact parsePair_keyRel b _ _ h r
  induction s with
  | nil =>
    intro b mask cur cur2 r h
    rw [recaseKeys, strtokAux, strtokAux]
    exact hemit b cur cur2 r h
  | cons c cs ih =>
    intro b mask cur cur2 r h
    rw [recaseKeys]
    by_cases h44 : c = 44
    · rw [if_pos h44, h44, strtokAux_comma, strtokAux_comma, List.foldl_append,
        List.foldl_append, hemit b cur cur2 r h]
      exact ih true mask [] [] _ keyRel_nil
    · rw [if_neg h44, strtokAux_not_comma c cs cur h44]
      by_cases h58 : c = 58
      · rw [if_pos h58, strtokAux_not_comma 58 _ cur2 (by omega)]
        apply ih false mask
        rw [List.reverse_cons, List.reverse_cons, h58]
        exact keyRel_colon b _ _ h
      · rw [if_neg h58]
        cases b with
        | true =>
          simp only [if_true]
          cases hm : mask.headD false with
          | true =>
            simp only [if_true]
            rw [strtokAux_not_comma (flipCase c) _ cur2
              (fun hf => h44 ((flipCase_eq_iff c 44 (by omega)).1 hf))]
            apply ih true mask.tail
            rw [List.reverse_cons, List.reverse_cons]
            exact keyRel_key _ _ c (flipCase c) h (toupper_flipCase c).symm h58
          | false =>
            simp only [Bool.false_eq_true, if_false]
            rw [strtokAux_not_comma c _ cur2 h44]
            apply ih true mask.tail
            rw [List.reverse_cons, List.reverse_cons]
            exact keyRel_key _ _ c c h rfl h58
        | false =>
          simp only [Bool.false_eq_true, if_false]
          rw [strtokAux_not_comma c _ cur2 h44]
          apply ih false mask
          rw [List.reverse_cons, List.reverse_cons]
          exact keyRel_value _ _ c h

/-- `CellData.parse` does not see the letter case of the keys. -/
theorem parse_recaseKeys (r : CellData) (mask : List Bool) (line : List Nat) :
    r.parse (recaseKeys true mask line) = r.parse line := by
  unfold CellData.parse strtokAll
  rw [cstr_recaseKeys]
  exact foldl_recaseKeys (cstr line) true mask [] [] r keyRel_nil

/-- Spaces in front of a pair are dropped. -/
theorem parsePair_spaces (r : CellData) (n : Nat) (p : List Nat) :
    r.parsePair (List.replicate n 32 ++ p) = r.parsePair p := by
  unfold CellData.parsePair
  have : (List.replicate n 32 ++ p).dropWhile (fun c => c == 32) =
      p.dropWhile (fun c => c == 32) := by
    induction n with
    | zero => rfl
    | succ n ih =>
      rw [List.replicate_succ, List.cons_append, List.dropWhile_cons]
      simp only [beq_self_eq_true, if_true]
      exact ih
  rw [this]

/-- A pair made of spaces changes nothing. -/
theorem parsePair_only_spaces (r : CellData) (n : Nat) :
    r.parsePair (List.replicate n 32) = r := by
  have := parsePair_spaces r n []
  rw [List.append_nil] at this
  rw [this]
  rfl

/-- Inserting spaces after commas commutes with cutting at the first NUL. -/
theorem cstr_padCommas (s : List Nat) :
    ∀ counts : List Nat, cstr (padCommas counts s) = padCommas counts (cstr s) := by
  induction s with
  | nil => intro counts; rfl
  | cons c cs ih =>
    intro counts
    rw [padCommas, cstr_cons c cs]
    by_cases h0 : c = 0
    · rw [if_neg (by omega), if_pos h0, cstr_cons, if_pos h0]
      rfl
    · rw [if_neg h0, padCommas]
      by_cases h44 : c = 44
      · rw [if_pos h44, if_pos h44, cstr_cons, if_neg (by omega)]
        have hsp : ∀ n : Nat, ∀ t : List Nat,
            cstr (List.replicate n 32 ++ t) = List.replicate n 32 ++ cstr t := by
          intro n t
          induction n with
          | zero => rfl
          | succ n ihn =>
            rw [List.replicate_succ, List.cons_append, cstr_cons, if_neg (by omega), ihn]
            rfl
        rw [hsp, ih]
      · rw [if_neg h44, if_neg h44, cstr_cons, if_neg h0, ih]

/-- The pairs of a line with spaces after its commas are decoded like those of
the line. -/
theorem foldl_padCommas (s : List Nat) :
    ∀ (counts cur : List Nat) (n : Nat) (r : CellData),
      (strtokAux (str ",") (padCommas counts s) (cur ++ List.replicate n 32)).foldl
          CellData.parsePair r =
        (strtokAux (str ",") s cur).foldl CellData.parsePair r := by
  have hemit : ∀ (cur : List Nat) (n : Nat) (r : CellData),
      (if (cur ++ List.replicate n 32).isEmpty then []
        else [(cur ++ List.replicate n 32).reverse]).foldl CellData.parsePair r =
        (if cur.isEmpty then [] else [cur.reverse]).foldl CellData.parsePair r := by
    intro cur n r
    rw [List.reverse_append, List.reverse_replicate]
    cases cur with
    | nil =>
      cases n with
      | zero => rfl
      | succ n =>
        simp only [List.nil_append, List.reverse_nil, List.append_nil, List.isEmpty_nil, if_true,
          List.foldl_nil]
        rw [if_neg (by simp [List.replicate_succ])]
        simp only [List.foldl_cons, List.foldl_nil]
        exact parsePair_only_spaces r (n + 1)
    | cons c cs =>
      simp only [List.cons_append, List.isEmpty_cons, Bool.false_eq_true, if_false,
        List.foldl_cons, List.foldl_nil]
      exact parsePair_spaces r n _
  induction s with
  | nil =>
    intro counts cur n r
    rw [padCommas, strtokAux, strtokAux]
    exact hemit cur n r
  | cons c cs ih =>
    intro counts cur n r
    rw [padCommas]
    by_cases h44 : c = 44
    · rw [if_pos h44, h44, strtokAux_comma, strtokAux_comma, List.foldl_append,
        List.foldl_append, hemit cur n r]
      have hsp : ∀ c ∈ List.replicate (counts.headD 0) 32, (str ",").contains c = false := by
        intro x hx
        have hcomma : str "," = [44] := rfl
        rw [hcomma]
        rw [List.mem_replicate] at hx
        simp [hx.2]
      rw [strtokAux_append (str ",") _ hsp, List.reverse_replicate, List.append_nil]
      have := ih counts.tail [] (counts.headD 0)
      rw [List.nil_append] at this
      exact this _
    · rw [if_neg h44, strtokAux_not_comma c cs cur h44, strtokAux_not_comma c _ _ h44]
      exact ih counts (c :: cur) n r

/-- `CellData.parse` does not see spaces that follow a comma. -/
theorem parse_padCommas (r : CellData) (counts : List Nat) (line : List Nat) :
    r.parse (padCommas counts line) = r.parse line := by
  unfold CellData.parse strtokAll
  rw [cstr_padCommas]
  have := foldl_padCommas (cstr line) counts [] 0 r
  rw [List.replicate_zero, List.append_nil] at this
  exact this

/-- C28: for every cell record and every line, `CellData.parse` gives the same
record when the letter case of the keys of the line is changed in any way
(`Arfcn:596`, `ARFCN:596` and `arfcn:596` are decoded alike) and when spaces are
inserted after the commas that separate the pairs. -/
theorem parse_ignores_key_case_and_spaces (r : CellData) (line : List Nat)
    (mask : List Bool) (counts : List Nat) :
    r.parse (recaseKeys true mask line) = r.parse line ∧
    r.parse (padCommas counts line) = r.parse line ∧
    r.parse (str "Arfcn:596") = r.parse (str "ARFCN:596") ∧
    r.parse (str "arfcn:596") = r.parse (str "ARFCN:596") ∧
    r.parse (str "MCC:310,  MNC:260") = r.parse (str "MCC:310,MNC:260") := by
  refine ⟨parse_recaseKeys r mask line, parse_padCommas r counts line, ?_, ?_, ?_⟩
  · have e : recaseKeys true [false, true, true, true, true] (str "ARFCN:596") =
        str "Arfcn:596" := by decide
    rw [← e]
    exact parse_recaseKeys r _ _
  · have e : recaseKeys true [true, true, true, true, true] (str "ARFCN:596") =
        str "arfcn:596" := by decide
    rw [← e]
    exact parse_recaseKeys r _ _
  · have e : padCommas [2] (str "MCC:310,MNC:260") = str "MCC:310,  MNC:260" := by decide
    rw [← e]
    exact parse_padCommas r _ _

/-- The bytes of a line with recased keys are those of the line, some in the
other letter case. -/
theorem mem_recaseKeys (s : List Nat) :
    ∀ (b : Bool) (mask : List Bool) (x : Nat), x ∈ recaseKeys b mask s →
      ∃ c ∈ s, x = c ∨ x = flipCase c := by
  induction s with
  | nil => intro b mask x hx; simp [recaseKeys] at hx
  | cons c cs ih =>
    intro b mask x hx
    have hrec : ∀ b2 mask2, x ∈ recaseKeys b2 mask2 cs → ∃ d ∈ c :: cs, x = d ∨ x = flipCase d := by
      intro b2 mask2 hm
      obtain ⟨d, hd, hx2⟩ := ih b2 mask2 x hm
      exact ⟨d, List.mem_cons_of_mem c hd, hx2⟩
    rw [recaseKeys] at hx
    split_ifs at hx with h44 h58 hb hm
    · rw [List.mem_cons] at hx
      rcases hx with hx | hx
      · exact ⟨c, List.mem_cons_self c cs, Or.inl (by omega)⟩
      · exact hrec _ _ hx
    · rw [List.mem_cons] at hx
      rcases hx with hx | hx
      · exact ⟨c, List.mem_cons_self c cs, Or.inl (by omega)⟩
      · exact hrec _ _ hx
    · rw [List.mem_cons] at hx
      rcases hx with hx | hx
      · exact ⟨c, List.mem_cons_self c cs, Or.inr hx⟩
      · exact hrec _ _ hx
    · rw [List.mem_cons] at hx
      rcases hx with hx | hx
      · exact ⟨c, List.mem_cons_self c cs, Or.inl hx⟩
      · exact hrec _ _ hx
    · rw [List.mem_cons] at hx
      rcases hx with hx | hx
      · exact ⟨c, List.mem_cons_self c cs, Or.inl hx⟩
      · exact hrec _ _ hx

/-- Lines that start with the same four bytes and give the same record to every
cell are routed alike. -/
theorem routeLine_congr (e : EnvironmentResponse) (l l2 : List Nat)
    (h4 : l2.take 4 = l.take 4) (hp : ∀ r : CellData, r.parse l2 = r.parse l) :
    e.routeLine l2 = e.routeLine l := by
  unfold EnvironmentResponse.routeLine EnvironmentResponse.writeNeighbor strncmpEq
  rw [h4]
  simp only [hp]

/-- A fragment that is one line without NUL, line end or leading `+`: `parse`
routes that line. -/
theorem parse_one_line (e : EnvironmentResponse) (type : RespType) (l : List Nat)
    (hne : l ≠ []) (hclean : ∀ c ∈ l, c ≠ 0 ∧ c ≠ 10 ∧ c ≠ 13) (hplus : l.head? ≠ some 43) :
    e.parse type l =
      if type = RespType.TYPE_UNKNOWN ∨ type = RespType.TYPE_PLUS then
        match e.routeLine l with
        | some e2 => some (e2, WAIT)
        | none => none
      else some (e, WAIT) := by
  unfold EnvironmentResponse.parse
  rw [cstr_eq_self l (fun c hc => (hclean c hc).1),
    strtokAll_line l hne (fun c hc => (hclean c hc).2)]
  have hline : EnvironmentResponse.parseLine type e l = e.routeLine l := by
    cases l with
    | nil => exact absurd rfl hne
    | cons c rest =>
      rw [EnvironmentResponse.parseLine, if_neg (by simp),
        skipTag_of_head_ne _ _ _ _ (by simpa using hplus)]
  simp only [List.foldlM_cons, List.foldlM_nil, hline]
  cases e.routeLine l <;> rfl

/-- C29 (as stated, refuted): the key that starts a record line is matched with
its letter case.  A new decoder fed `mcc:310,mnc:260` or `Rat:UMTS` is left as it
was, whereas `MCC:310,MNC:260` fills the service record and moves the cursor and
`RAT:UMTS` sets `isUMTS`. -/
theorem env_first_key_case_sensitive :
    (EnvironmentResponse.create (CellData.fresh 0 0 0 0 0 0 0)).parse RespType.TYPE_UNKNOWN
        (str "mcc:310,mnc:260") =
      some (EnvironmentResponse.create (CellData.fresh 0 0 0 0 0 0 0), WAIT) ∧
    (EnvironmentResponse.create (CellData.fresh 0 0 0 0 0 0 0)).parse RespType.TYPE_UNKNOWN
        (str "MCC:310,MNC:260") =
      some ({ EnvironmentResponse.create
                { CellData.fresh 0 0 0 0 0 0 0 with mcc := 310, mnc := 260 } with
              curDataIndex := 0 }, WAIT) ∧
    (EnvironmentResponse.create (CellData.fresh 0 0 0 0 0 0 0)).parse RespType.TYPE_UNKNOWN
        (str "Rat:UMTS") =
      some (EnvironmentResponse.create (CellData.fresh 0 0 0 0 0 0 0), WAIT) ∧
    (EnvironmentResponse.create (CellData.fresh 0 0 0 0 0 0 0)).parse RespType.TYPE_UNKNOWN
        (str "RAT:UMTS") =
      some (EnvironmentResponse.create
              { CellData.fresh 0 0 0 0 0 0 0 with isUMTS := true }, WAIT) ∧
    recaseKeys true [true, true, true, true, true, true] (str "MCC:310,MNC:260") =
      str "mcc:310,mnc:260" ∧
    recaseKeys true [false, true, true] (str "RAT:UMTS") = str "Rat:UMTS" := by
  decide

/-- C29 (amended): the Environment decoder matches the keys of a record line
without regard to letter case, except for the four bytes that start the line:
when these are left as they are, feeding the line with its keys in another
letter case gives the same decoder state (service record, neighbor records and
cursor) as feeding the line itself.  A line that starts neither with `MCC:` nor
with `RAT:` in upper case is not decoded. -/
theorem env_keys_case_after_start (e : EnvironmentResponse) (type : RespType)
    (line : List Nat) (mask : List Bool)
    (h4 : (recaseKeys true mask line).take 4 = line.take 4) :
    e.routeLine (recaseKeys true mask line) = e.routeLine line ∧
    (line ≠ [] → (∀ c ∈ line, c ≠ 0 ∧ c ≠ 10 ∧ c ≠ 13) → line.head? ≠ some 43 →
      e.parse type (recaseKeys true mask line) = e.parse type line) ∧
    (∀ l : List Nat, strncmpEq l (str "MCC:") 4 = false →
      strncmpEq l (str "RAT:") 4 = false → e.routeLine l = some e) := by
  have hroute := routeLine_congr e line (recaseKeys true mask line) h4
    (fun r => parse_recaseKeys r mask line)
  refine ⟨hroute, ?_, ?_⟩
  · intro hne hclean hplus
    have hne2 : recaseKeys true mask line ≠ [] := by
      intro h
      rw [h] at h4
      cases line with
      | nil => exact hne rfl
      | cons c cs => simp at h4
    have hplus2 : (recaseKeys true mask line).head? ≠ some 43 := by
      cases line with
      | nil => exact absurd rfl hne
      | cons c cs =>
        cases hl : recaseKeys true mask (c :: cs) with
        | nil => exact absurd hl hne2
        | cons d ds =>
          rw [hl] at h4
          simp only [List.take_succ_cons, List.cons.injEq] at h4
          rw [h4.1]
          exact hplus
    have hclean2 : ∀ x ∈ recaseKeys true mask line, x ≠ 0 ∧ x ≠ 10 ∧ x ≠ 13 := by
      intro x hx
      obtain ⟨c, hc, hxc⟩ := mem_recaseKeys line true mask x hx
      have := hclean c hc
      rcases hxc with hxc | hxc
      · rw [hxc]; exact this
      · have h0 := flipCase_eq_iff c 0 (by omega)
        have h10 := flipCase_eq_iff c 10 (by omega)
        have h13 := flipCase_eq_iff c 13 (by omega)
        rw [hxc]
        exact ⟨fun h => this.1 (h0.1 h), fun h => this.2.1 (h10.1 h), fun h => this.2.2 (h13.1 h)⟩
    rw [parse_one_line e type _ hne2 hclean2 hplus2, parse_one_line e type _ hne hclean hplus,
      hroute]
  · intro l h1 h2
    rw [EnvironmentResponse.routeLine, if_neg (by simp [h1]), if_neg (by simp [h2])]

/-- Instance of the amended C29: `MCC:310,mnc:260` is decoded like
`MCC:310,MNC:260`. -/
theorem env_keys_case_after_start_witness :
    (EnvironmentResponse.create (CellData.fresh 0 0 0 0 0 0 0)).parse RespType.TYPE_UNKNOWN
        (str "MCC:310,mnc:260") =
      (EnvironmentResponse.create (CellData.fresh 0 0 0 0 0 0 0)).parse RespType.TYPE_UNKNOWN
        (str "MCC:310,MNC:260") := by
  have h := env_keys_case_after_start (EnvironmentResponse.create (CellData.fresh 0 0 0 0 0 0 0))
    RespType.TYPE_UNKNOWN (str "MCC:310,MNC:260") [false, false, false, true, true, true]
    (by decide)
  have e : recaseKeys true [false, false, false, true, true, true] (str "MCC:310,MNC:260") =
      str "MCC:310,mnc:260" := by decide
  rw [← e]
  exact h.2.1 (by decide) (by decide) (by decide)

/-- C30: after `clear()` the decoder reports no neighbor, but it is not as new:
`clear()` resets the cursor only.  A decoder that has met a 3G reply keeps
`isUMTS` and `ulf` in its service record, so a 2G reply fed after `clear()` gives
a service record with `isUMTS = true` and band 850, where a newly constructed
decoder gives `isUMTS = false` and band 1800. -/
theorem clear_resets_cursor_only :
    (∀ e : EnvironmentResponse, e.clear.getNumNeighbors = some 0) ∧
    (∀ e : EnvironmentResponse, e.clear.service = e.service ∧ e.clear.neighbors = e.neighbors) ∧
    Option.map (fun e => (e.service.isUMTS, e.service.getBand))
      (((EnvironmentResponse.create (CellData.fresh 0 0 0 0 0 0 0)).feed
          [(RespType.TYPE_UNKNOWN, str "MCC:310,MNC:410,LAC:1,CI:2,DLF:4385,ULF:4160\r\n")]).bind
        (fun e => e.clear.feed
          [(RespType.TYPE_UNKNOWN,
            str "MCC:310,MNC:260,LAC:1,CI:2,BSIC:3,ARFCN:596,RXLEV:20\r\n")])) =
      some (true, 850) ∧
    Option.map (fun e => (e.service.isUMTS, e.service.getBand))
      ((EnvironmentResponse.create (CellData.fresh 0 0 0 0 0 0 0)).feed
        [(RespType.TYPE_UNKNOWN,
          str "MCC:310,MNC:260,LAC:1,CI:2,BSIC:3,ARFCN:596,RXLEV:20\r\n")]) =
      some (false, 1800) := by
  refine ⟨?_, ?_, ?_, ?_⟩
  · intro e
    unfold EnvironmentResponse.clear EnvironmentResponse.getNumNeighbors
    rw [if_pos (show (-1 : Int) < 0 by decide)]
  · intro e
    exact ⟨rfl, rfl⟩
  · decide
  · decide

/-- C35: a fragment of a terminal or link-state kind changes no decoder state,
whatever bytes it carries: the Plain decoder is unchanged by every kind other
than TYPE_UNKNOWN, the Tagged decoder by every kind other than TYPE_PLUS, and the
Environment decoder (service record, neighbor records, cursor) by every kind
other than TYPE_UNKNOWN and TYPE_PLUS, such as TYPE_OK, TYPE_ERROR, TYPE_ABORTED
and TYPE_NOCARRIER; each call returns `WAIT` without fault. -/
theorem terminal_fragment_changes_nothing (type : RespType) (buf : List Nat) :
    (∀ r : StringResponse, type ≠ RespType.TYPE_UNKNOWN → r.parse type buf = (r, WAIT)) ∧
    (∀ r : PlusStringResponse, type ≠ RespType.TYPE_PLUS → r.parse type buf = some (r, WAIT)) ∧
    (∀ e : EnvironmentResponse, type ≠ RespType.TYPE_UNKNOWN → type ≠ RespType.TYPE_PLUS →
      e.parse type buf = some (e, WAIT)) ∧
    (∀ e : EnvironmentResponse,
      type ∈ [RespType.TYPE_OK, RespType.TYPE_ERROR, RespType.TYPE_ABORTED,
        RespType.TYPE_NOCARRIER] → e.parse type buf = some (e, WAIT)) := by
  have henv : ∀ e : EnvironmentResponse, type ≠ RespType.TYPE_UNKNOWN →
      type ≠ RespType.TYPE_PLUS → e.parse type buf = some (e, WAIT) := by
    intro e h1 h2
    rw [EnvironmentResponse.parse, if_neg (fun h => h.elim h1 h2)]
  refine ⟨?_, ?_, henv, ?_⟩
  · intro r h
    rw [StringResponse.parse, if_neg h]
  · intro r h
    rw [PlusStringResponse.parse, if_neg h]
  · intro e hmem
    simp only [List.mem_cons, List.mem_singleton, List.not_mem_nil, or_false] at hmem
    rcases hmem with h | h | h | h <;> subst h <;> exact henv e (by decide) (by decide)

/-- The scan of `getNumNeighbors` stops at the first slot that is not valid. -/
theorem scanNeighbors_first_invalid (m : Nat) :
    ∀ (arr : List CellData) (ii : Nat), m ≤ arr.length →
      ∃ n, EnvironmentResponse.scanNeighbors arr m ii = some (ii + n) ∧ n ≤ m ∧
        (∀ i, i < n → ∃ x, arr[i]? = some x ∧ x.isValid false = true) ∧
        (n < m → ∃ x, arr[n]? = some x ∧ x.isValid false = false) := by
  induction m with
  | zero =>
    intro arr ii _
    refine ⟨0, ?_, Nat.le_refl 0, fun i hi => absurd hi (Nat.not_lt_zero i),
      fun h => absurd h (Nat.lt_irrefl 0)⟩
    cases arr <;> rfl
  | succ m ih =>
    intro arr ii hlen
    cases arr with
    | nil => simp at hlen
    | cons c cs =>
      unfold EnvironmentResponse.scanNeighbors
      by_cases hv : c.isValid false = true
      · rw [if_pos hv]
        obtain ⟨n, hn, hle, hall, hstop⟩ := ih cs (ii + 1) (by simpa using hlen)
        refine ⟨n + 1, ?_, by omega, ?_, ?_⟩
        · rw [hn]
          congr 1
          omega
        · intro i hi
          cases i with
          | zero => exact ⟨c, by simp, hv⟩
          | succ i =>
            obtain ⟨x, hx, hxv⟩ := hall i (by omega)
            exact ⟨x, by simpa using hx, hxv⟩
        · intro hlt
          obtain ⟨x, hx, hxv⟩ := hstop (by omega)
          exact ⟨x, by simpa using hx, hxv⟩
      · rw [if_neg hv]
        refine ⟨0, rfl, by omega, fun i hi => absurd hi (Nat.not_lt_zero i), ?_⟩
        intro _
        exact ⟨c, by simp, by simpa using hv⟩

/-- C31: `getNumNeighbors` derives the count from the validity of the records.
It is 0 when the cursor is negative; with the cursor on `c` slots of the array it
is the smallest index below `c` whose record fails `isValid(false)`, or `c` when
there is none (and `c` without an array).  So after a service line and `k` lines
of neighbors, `k` within the capacity, it is `k` when every neighbor line gives a
record valid with `ignoreCI = false`, and less than `k` when some line gives a
record that is not, as a 2G line with `CI:ffff` does. -/
theorem getNumNeighbors_counts_valid (e : EnvironmentResponse) :
    (e.curDataIndex < 0 → e.getNumNeighbors = some 0) ∧
    (∀ (arr : List CellData) (c : Nat), e.neighbors = some arr → e.curDataIndex = c →
      c ≤ arr.length →
      ∃ n, e.getNumNeighbors = some n ∧ n ≤ c ∧
        (∀ i, i < n → ∃ x, arr[i]? = some x ∧ x.isValid false = true) ∧
        (n < c → ∃ x, arr[n]? = some x ∧ x.isValid false = false)) ∧
    (∀ c : Nat, e.neighbors = none → e.curDataIndex = c → e.getNumNeighbors = some c) ∧
    (∀ (type : RespType) (slots : List CellData) (first : List Nat) (more : List (List Nat)),
      e.curDataIndex = -1 → e.neighbors = some slots → e.numNeighbors = slots.length →
      (type = RespType.TYPE_UNKNOWN ∨ type = RespType.TYPE_PLUS) →
      (∀ l ∈ first :: more, isMccLine l = true) → more.length ≤ slots.length →
      ∃ e2, e.parse type (joinLines (first :: more)) = some (e2, WAIT) ∧
        e2.curDataIndex = more.length ∧
        e2.neighbors = some (fillNeighbors slots more) ∧
        ((∀ i, i < more.length → ∀ x, slots[i]? = some x →
            (x.parse (more.getD i [])).isValid false = true) →
          e2.getNumNeighbors = some more.length) ∧
        ((∃ i, i < more.length ∧ ∀ x, slots[i]? = some x →
            (x.parse (more.getD i [])).isValid false = false) →
          ∃ n, e2.getNumNeighbors = some n ∧ n < more.length)) := by
  have hscan : ∀ (d : EnvironmentResponse) (arr : List CellData) (c : Nat),
      d.neighbors = some arr → d.curDataIndex = c → c ≤ arr.length →
      ∃ n, d.getNumNeighbors = some n ∧ n ≤ c ∧
        (∀ i, i < n → ∃ x, arr[i]? = some x ∧ x.isValid false = true) ∧
        (n < c → ∃ x, arr[n]? = some x ∧ x.isValid false = false) := by
    intro d arr c hnb hc hle
    obtain ⟨n, hn, hnc, hall, hstop⟩ := scanNeighbors_first_invalid c arr 0 hle
    refine ⟨n, ?_, hnc, hall, hstop⟩
    have htn : d.curDataIndex.toNat = c := by omega
    rw [EnvironmentResponse.getNumNeighbors, if_neg (by omega), hnb]
    simp only [htn, hn, Nat.zero_add]
  refine ⟨?_, hscan e, ?_, ?_⟩
  · intro h
    rw [EnvironmentResponse.getNumNeighbors, if_pos h]
  · intro c hnb hc
    have htn : e.curDataIndex.toNat = c := by omega
    rw [EnvironmentResponse.getNumNeighbors, if_neg (by omega), hnb]
    simp only [htn]
  · intro type slots first more hcur hnb hnum hk hmcc hcap
    have hfirst := hmcc first (List.mem_cons_self first more)
    have hmore : ∀ l ∈ more, isMccLine l = true :=
      fun l hl => hmcc l (List.mem_cons_of_mem first hl)
    have hstep : e.routeLine first =
        some { e with service := e.service.parse first, curDataIndex := e.curDataIndex + 1 } :=
      routeLine_mcc_service e first hfirst (by omega)
    have hrest := foldlM_routeLine_slots more hmore
      { e with service := e.service.parse first, curDataIndex := e.curDataIndex + 1 } slots 0
      hnb (by simp only; omega) hnum (Nat.zero_le _)
    have hmin : min (0 + more.length) slots.length = more.length := by omega
    rw [hmin, List.take_zero, List.drop_zero, List.nil_append] at hrest
    have hrest2 : more.foldlM EnvironmentResponse.routeLine
        { e with service := e.service.parse first, curDataIndex := e.curDataIndex + 1 } =
        some { e with service := e.service.parse first, curDataIndex := (more.length : Int),
                      neighbors := some (fillNeighbors slots more) } := hrest
    refine ⟨{ e with service := e.service.parse first, curDataIndex := (more.length : Int),
                     neighbors := some (fillNeighbors slots more) }, ?_, ?_, ?_, ?_, ?_⟩
    · rw [parse_mccLines e type (first :: more) hk hmcc, List.foldlM_cons, hstep]
      simp only [Option.bind_eq_bind, Option.some_bind]
      rw [hrest2]
      rfl
    · rfl
    · rfl
    · intro hvalid
      obtain ⟨n, hn, hnc, hall, hstop⟩ := hscan
        { e with service := e.service.parse first, curDataIndex := (more.length : Int),
                 neighbors := some (fillNeighbors slots more) }
        (fillNeighbors slots more) more.length rfl rfl
        (by rw [fillNeighbors_length]; exact hcap)
      by_cases hlt : n < more.length
      · exfalso
        obtain ⟨x, hx, hxv⟩ := hstop hlt
        rw [fillNeighbors_getElem?, if_pos hlt] at hx
        cases hs : slots[n]? with
        | none => rw [hs] at hx; simp at hx
        | some y =>
          rw [hs] at hx
          simp only [Option.map_some', Option.some.injEq] at hx
          have := hvalid n hlt y hs
          rw [hx, hxv] at this
          exact absurd this (by decide)
      · have : n = more.length := by omega
        rw [← this]
        rw [← this] at hn
        exact hn
    · rintro ⟨i, hi, hinv⟩
      obtain ⟨n, hn, hnc, hall, hstop⟩ := hscan
        { e with service := e.service.parse first, curDataIndex := (more.length : Int),
                 neighbors := some (fillNeighbors slots more) }
        (fillNeighbors slots more) more.length rfl rfl
        (by rw [fillNeighbors_length]; exact hcap)
      refine ⟨n, hn, ?_⟩
      by_contra hge
      have hin : i < n := by omega
      obtain ⟨x, hx, hxv⟩ := hall i hin
      rw [fillNeighbors_getElem?, if_pos hi] at hx
      cases hs : slots[i]? with
      | none => rw [hs] at hx; simp at hx
      | some y =>
        rw [hs] at hx
        simp only [Option.map_some', Option.some.injEq] at hx
        have := hinv y hs
        rw [hx, hxv] at this
        exact absurd this (by decide)

/-- Instance of C31: a service line, then a neighbor line with `CI:ffff` and a
second neighbor line; the count is 0, below the two lines that were decoded. -/
theorem getNumNeighbors_counts_valid_witness :
    Option.bind
      ((EnvironmentResponse.createStatic (CellData.fresh 0 0 0 0 0 0 0)
          [CellData.fresh 0 0 0 0 0 0 0, CellData.fresh 0 0 0 0 0 0 0]).parse
        RespType.TYPE_UNKNOWN
        (joinLines [str "MCC:310,MNC:260,CI:1", str "MCC:310,MNC:260,CI:ffff",
          str "MCC:310,MNC:260,CI:2"]))
      (fun p => p.1.getNumNeighbors) = some 0 ∧
    Option.bind
      ((EnvironmentResponse.createStatic (CellData.fresh 0 0 0 0 0 0 0)
          [CellData.fresh 0 0 0 0 0 0 0, CellData.fresh 0 0 0 0 0 0 0]).parse
        RespType.TYPE_UNKNOWN
        (joinLines [str "MCC:310,MNC:260,CI:1", str "MCC:310,MNC:260,CI:3",
          str "MCC:310,MNC:260,CI:2"]))
      (fun p => p.1.getNumNeighbors) = some 2 := by
  have h := (getNumNeighbors_counts_valid
    (EnvironmentResponse.createStatic (CellData.fresh 0 0 0 0 0 0 0)
      [CellData.fresh 0 0 0 0 0 0 0, CellData.fresh 0 0 0 0 0 0 0])).2.2.2
    RespType.TYPE_UNKNOWN [CellData.fresh 0 0 0 0 0 0 0, CellData.fresh 0 0 0 0 0 0 0]
    (str "MCC:310,MNC:260,CI:1") [str "MCC:310,MNC:260,CI:3", str "MCC:310,MNC:260,CI:2"]
    rfl rfl rfl (Or.inl rfl) (by decide) (by decide)
  obtain ⟨e2, hparse, -, -, hall, -⟩ := h
  refine ⟨by decide, ?_⟩
  rw [hparse]
  exact hall (by decide)

/-- On a 3G record whose uplink channel is not listed one by one, `getBand` is
the chain of range tests of the `default` branch. -/
theorem getBand_3G_default (r : CellData) (h3G : r.isUMTS = true)
    (hnot : r.ulf ∉ listedChannels) :
    r.getBand =
      if r.ulf ≥ 0 ∧ r.ulf ≤ 124 then 900
      else if r.ulf ≥ 128 ∧ r.ulf ≤ 251 then 850
      else if r.ulf ≥ 512 ∧ r.ulf ≤ 885 then 1800
      else if r.ulf ≥ 975 ∧ r.ulf ≤ 1023 then 900
      else if r.ulf ≥ 1312 ∧ r.ulf ≤ 1513 then 1700
      else if r.ulf ≥ 2712 ∧ r.ulf ≤ 2863 then 900
      else if r.ulf ≥ 4132 ∧ r.ulf ≤ 4233 then 850
      else if (r.ulf ≥ 4162 ∧ r.ulf ≤ 4188) ∨ (r.ulf ≥ 20312 ∧ r.ulf ≤ 20363) then 800
      else if r.ulf ≥ 9262 ∧ r.ulf ≤ 9538 then 1900
      else if r.ulf ≥ 9612 ∧ r.ulf ≤ 9888 then 2100
      else 0 := by
  unfold listedChannels at hnot
  simp only [List.mem_append, not_or] at hnot
  obtain ⟨⟨⟨⟨⟨⟨⟨⟨⟨⟨h1, h2⟩, h3⟩, h4⟩, h5⟩, h6⟩, h7⟩, h8⟩, h9⟩, h10⟩, h11⟩ := hnot
  unfold CellData.getBand
  rw [if_pos h3G, if_neg h1, if_neg h2, if_neg h3, if_neg h4, if_neg h5, if_neg h6, if_neg h7,
    if_neg h8, if_neg h9, if_neg h10, if_neg h11]

/-- C32: on a 3G record whose uplink channel `ulf` is not one of the channels
listed one by one, `getBand` is 900 for 0..124, 850 for 128..251, 1800 for
512..885, 900 for 975..1023, 1700 for 1312..1513, 900 for 2712..2863, 850 for the
whole of 4132..4233 (4162..4188 included: the later test for 800 is not reached
there), 800 for 20312..20363, 1900 for 9262..9538, 2100 for 9612..9888, and 0 for
every other value, the negative ones included. -/
theorem getBand_3G_ranges (r : CellData) (h3G : r.isUMTS = true)
    (hnot : r.ulf ∉ listedChannels) :
    ((0 ≤ r.ulf ∧ r.ulf ≤ 124) → r.getBand = 900) ∧
    ((128 ≤ r.ulf ∧ r.ulf ≤ 251) → r.getBand = 850) ∧
    ((512 ≤ r.ulf ∧ r.ulf ≤ 885) → r.getBand = 1800) ∧
    ((975 ≤ r.ulf ∧ r.ulf ≤ 1023) → r.getBand = 900) ∧
    ((1312 ≤ r.ulf ∧ r.ulf ≤ 1513) → r.getBand = 1700) ∧
    ((2712 ≤ r.ulf ∧ r.ulf ≤ 2863) → r.getBand = 900) ∧
    ((4132 ≤ r.ulf ∧ r.ulf ≤ 4233) → r.getBand = 850) ∧
    ((20312 ≤ r.ulf ∧ r.ulf ≤ 20363) → r.getBand = 800) ∧
    ((9262 ≤ r.ulf ∧ r.ulf ≤ 9538) → r.getBand = 1900) ∧
    ((9612 ≤ r.ulf ∧ r.ulf ≤ 9888) → r.getBand = 2100) ∧
    (¬ ((0 ≤ r.ulf ∧ r.ulf ≤ 124) ∨ (128 ≤ r.ulf ∧ r.ulf ≤ 251) ∨ (512 ≤ r.ulf ∧ r.ulf ≤ 885) ∨
        (975 ≤ r.ulf ∧ r.ulf ≤ 1023) ∨ (1312 ≤ r.ulf ∧ r.ulf ≤ 1513) ∨
        (2712 ≤ r.ulf ∧ r.ulf ≤ 2863) ∨ (4132 ≤ r.ulf ∧ r.ulf ≤ 4233) ∨
        (20312 ≤ r.ulf ∧ r.ulf ≤ 20363) ∨ (9262 ≤ r.ulf ∧ r.ulf ≤ 9538) ∨
        (9612 ≤ r.ulf ∧ r.ulf ≤ 9888)) → r.getBand = 0) ∧
    (r.ulf < 0 → r.getBand = 0) := by
  rw [getBand_3G_default r h3G hnot]
  refine ⟨?_, ?_, ?_, ?_, ?_, ?_, ?_, ?_, ?_, ?_, ?_, ?_⟩ <;> intro h <;>
    repeat (first | rw [if_pos (by omega)] | rw [if_neg (by omega)])

/-- Instance of C32: channel 4175 lies in 4162..4188 and gets band 850; channel
-1 gets 0. -/
theorem getBand_3G_ranges_witness :
    ({ CellData.fresh 0 0 0 0 0 0 4175 with isUMTS := true }).getBand = 850 ∧
    ({ CellData.fresh 0 0 0 0 0 0 (-1) with isUMTS := true }).getBand = 0 :=
  ⟨(getBand_3G_ranges { CellData.fresh 0 0 0 0 0 0 4175 with isUMTS := true } rfl
      (by decide)).2.2.2.2.2.2.1 (by decide),
   (getBand_3G_ranges { CellData.fresh 0 0 0 0 0 0 (-1) with isUMTS := true } rfl
      (by decide)).2.2.2.2.2.2.2.2.2.2.2 (by decide)⟩

/-- `strstr` finds a needle that occurs in the text. -/
theorem strstr_isSome_of_infix (needle : List Nat) :
    ∀ hay : List Nat, needle <:+: hay → (strstr hay needle).isSome = true := by
  intro hay
  induction hay with
  | nil =>
    intro h
    have : needle = [] := List.infix_nil.1 h
    rw [this]
    rfl
  | cons c cs ih =>
    intro h
    rw [strstr]
    by_cases hp : needle.isPrefixOf (c :: cs) = true
    · rw [if_pos hp]
      rfl
    · rw [if_neg hp]
      rcases List.infix_cons_iff.1 h with h1 | h1
      · exact absurd (List.isPrefixOf_iff_prefix.2 h1) hp
      · exact ih h1

/-- `strstr` succeeds exactly on a text that contains the needle. -/
theorem strstr_isSome_iff (needle hay : List Nat) :
    (strstr hay needle).isSome = true ↔ needle <:+: hay := by
  constructor
  · intro h
    by_contra hn
    rw [strstr_eq_none needle hay hn] at h
    exact absurd h (by decide)
  · exact strstr_isSome_of_infix needle hay

/-- What `parsePair` does in terms of the key of the pair. -/
theorem parsePair_of_pairKey (r : CellData) (seg : List Nat) :
    (pairKey seg = none → r.parsePair seg = r) ∧
    (∀ key, pairKey seg = some key → ∃ value, r.parsePair seg = r.addKeyValue key value) := by
  unfold pairKey CellData.parsePair
  cases splitAtByte 58 (seg.dropWhile (fun c => c == 32)) with
  | none => exact ⟨fun _ => rfl, fun key h => by simp at h⟩
  | some p =>
    refine ⟨fun h => by simp at h, ?_⟩
    intro key h
    simp only [Option.map_some', Option.some.injEq] at h
    exact ⟨p.2, by rw [← h]⟩

/-- How `addKeyValue` changes the radio-generation flag. -/
theorem addKeyValue_isUMTS (r : CellData) (key value : List Nat) :
    (key.map toupper = str "RAT" →
      (r.addKeyValue key value).isUMTS = (strstr value (str "UMTS")).isSome) ∧
    (key.map toupper = str "ULF" →
      (r.addKeyValue key value).isUMTS = true ∧ (r.addKeyValue key value).ulf = atoi value) ∧
    (key.map toupper ≠ str "RAT" → key.map toupper ≠ str "ULF" →
      (r.addKeyValue key value).isUMTS = r.isUMTS) := by
  have hlen : ∀ k : List Nat, key.map toupper = k → k.length ≤ 15 → ¬ key.length > 15 := by
    intro k hk hl
    have := congrArg List.length hk
    simp only [List.length_map] at this
    omega
  refine ⟨?_, ?_, ?_⟩
  · intro h
    unfold CellData.addKeyValue
    rw [if_neg (hlen _ h (by decide))]
    simp only [h, if_true]
  · intro h
    unfold CellData.addKeyValue
    rw [if_neg (hlen _ h (by decide))]
    simp only [h]
    exact ⟨rfl, rfl⟩
  · intro h1 h2
    unfold CellData.addKeyValue
    by_cases hl : key.length > 15
    · rw [if_pos hl]
    · rw [if_neg hl]
      simp only [apply_ite CellData.isUMTS, h1, h2, if_false, ite_self]

/-- A pair whose key is not `RAT` keeps a record marked 3G. -/
theorem parsePair_keeps_3G (r : CellData) (seg : List Nat) (h3G : r.isUMTS = true)
    (hkey : (pairKey seg).map (List.map toupper) ≠ some (str "RAT")) :
    (r.parsePair seg).isUMTS = true := by
  cases hk : pairKey seg with
  | none => rw [(parsePair_of_pairKey r seg).1 hk]; exact h3G
  | some key =>
    obtain ⟨value, hv⟩ := (parsePair_of_pairKey r seg).2 key hk
    rw [hk] at hkey
    have hrat : key.map toupper ≠ str "RAT" := fun h => hkey (by rw [Option.map_some', h])
    rw [hv]
    by_cases hulf : key.map toupper = str "ULF"
    · exact ((addKeyValue_isUMTS r key value).2.1 hulf).1
    · rw [(addKeyValue_isUMTS r key value).2.2 hrat hulf]
      exact h3G

/-- C33: `addKeyValue` changes the radio-generation flag only so: the key `RAT`,
in any letter case, sets `isUMTS` to true if and only if the value contains
`UMTS`; the key `ULF` sets `isUMTS` to true and `ulf` to the decimal value; every
other key leaves `isUMTS` as it is.  Hence a line with a `ULF` pair and no `RAT`
pair after it leaves the record marked 3G. -/
theorem isUMTS_set_by_RAT_and_ULF (r : CellData) (key value : List Nat) :
    (key.map toupper = str "RAT" →
      ((r.addKeyValue key value).isUMTS = true ↔ str "UMTS" <:+: value)) ∧
    (key.map toupper = str "ULF" →
      (r.addKeyValue key value).isUMTS = true ∧ (r.addKeyValue key value).ulf = atoi value ∧
      (∀ z : Int, LONG_MIN ≤ z → z ≤ LONG_MAX → value = formatInt z →
        (r.addKeyValue key value).ulf = z)) ∧
    (key.map toupper ≠ str "RAT" → key.map toupper ≠ str "ULF" →
      (r.addKeyValue key value).isUMTS = r.isUMTS) ∧
    (∀ (line : List Nat) (before after : List (List Nat)) (pair : List Nat),
      strtokAll (cstr line) (str ",") = before ++ pair :: after →
      (pairKey pair).map (List.map toupper) = some (str "ULF") →
      (∀ t ∈ after, (pairKey t).map (List.map toupper) ≠ some (str "RAT")) →
      (r.parse line).isUMTS = true) := by
  obtain ⟨hrat, hulf, hother⟩ := addKeyValue_isUMTS r key value
  refine ⟨?_, ?_, hother, ?_⟩
  · intro h
    rw [hrat h]
    exact strstr_isSome_iff (str "UMTS") value
  · intro h
    refine ⟨(hulf h).1, (hulf h).2, ?_⟩
    intro z h1 h2 hz
    rw [(hulf h).2, hz, atoi_formatInt z h1 h2]
  · intro line before after pair htok hkey hafter
    unfold CellData.parse
    rw [htok, List.foldl_append, List.foldl_cons]
    have hpair : ((before.foldl CellData.parsePair r).parsePair pair).isUMTS = true := by
      cases hk : pairKey pair with
      | none => rw [hk] at hkey; simp at hkey
      | some k =>
        obtain ⟨v, hv⟩ := (parsePair_of_pairKey (before.foldl CellData.parsePair r) pair).2 k hk
        rw [hk, Option.map_some', Option.some.injEq] at hkey
        rw [hv]
        exact ((addKeyValue_isUMTS _ k v).2.1 hkey).1
    generalize (before.foldl CellData.parsePair r).parsePair pair = q at hpair
    clear htok
    induction after generalizing q with
    | nil => exact hpair
    | cons t ts ih =>
      rw [List.foldl_cons]
      exact ih (fun x hx => hafter x (List.mem_cons_of_mem t hx)) _
        (parsePair_keeps_3G q t hpair (hafter t (List.mem_cons_self t ts)))

/-- Instance of C33: `rat:"UMTS"` marks the record 3G, `RAT:GSM` unmarks it, and
the line of a 3G neighbor with a `ULF` pair leaves it marked. -/
theorem isUMTS_set_by_RAT_and_ULF_witness :
    ((CellData.fresh 0 0 0 0 0 0 0).addKeyValue (str "rat") (str "\"UMTS\"")).isUMTS = true ∧
    (({ CellData.fresh 0 0 0 0 0 0 0 with isUMTS := true }).addKeyValue (str "RAT")
      (str "GSM")).isUMTS = false ∧
    ((CellData.fresh 0 0 0 0 0 0 0).parse
      (str "MCC:310, MNC:410, LAC:1af7, CI:817b57f, DLF:4384, ULF:4159, SC:77")).isUMTS = true := by
  refine ⟨?_, ?_, ?_⟩
  · exact ((isUMTS_set_by_RAT_and_ULF (CellData.fresh 0 0 0 0 0 0 0) (str "rat")
      (str "\"UMTS\"")).1 (by decide)).2 (by decide)
  · have h := (isUMTS_set_by_RAT_and_ULF { CellData.fresh 0 0 0 0 0 0 0 with isUMTS := true }
      (str "RAT") (str "GSM")).1 (by decide)
    cases hb : (({ CellData.fresh 0 0 0 0 0 0 0 with isUMTS := true }).addKeyValue (str "RAT")
      (str "GSM")).isUMTS with
    | false => rfl
    | true => exact absurd (h.1 hb) (by decide)
  · exact (isUMTS_set_by_RAT_and_ULF (CellData.fresh 0 0 0 0 0 0 0) [] []).2.2.2
      (str "MCC:310, MNC:410, LAC:1af7, CI:817b57f, DLF:4384, ULF:4159, SC:77")
      [str "MCC:310", str " MNC:410", str " LAC:1af7", str " CI:817b57f", str " DLF:4384"]
      [str " SC:77"] (str " ULF:4159") (by decide) (by decide) (by decide)

/-- A pair that is inert leaves the record as it is. -/
theorem parsePair_inert (r : CellData) (seg : List Nat) (h : inertSegment seg = true) :
    r.parsePair seg = r := by
  unfold inertSegment at h
  cases hk : pairKey seg with
  | none => exact (parsePair_of_pairKey r seg).1 hk
  | some key =>
    obtain ⟨value, hv⟩ := (parsePair_of_pairKey r seg).2 key hk
    rw [hk] at h
    simp only [Bool.or_eq_true, decide_eq_true_eq] at h
    rw [hv]
    unfold CellData.addKeyValue
    rcases h with h | h
    · rw [if_pos h]
    · unfold effectiveKeys at h
      simp only [List.mem_cons, List.mem_singleton, List.not_mem_nil, or_false, not_or] at h
      obtain ⟨h1, h2, h3, h4, h5, h6, h7, h8, h9, h10, h11⟩ := h
      by_cases hl : key.length > 15
      · rw [if_pos hl]
      · rw [if_neg hl]
        simp only [h1, h2, h3, h4, h5, h6, h7, h8, h9, h10, h11, if_false, ite_self]

/-- C34: for every cell record, `CellData.parse` leaves the record as it is for
every comma-separated segment that has no colon, or whose key is longer than 15
bytes, or whose key in upper case is not one of the keys that store something
(the ignored ARFCN_DED, RXLEVSUB, T_ADV, RAC, SC, ECN0 LEV included); the other
segments of the line are applied as if the inert ones were not there, and the
result is always a record. -/
theorem parse_skips_inert_segments (r : CellData) (line : List Nat) :
    (∀ seg, pairKey seg = none → r.parsePair seg = r) ∧
    (∀ seg key, pairKey seg = some key → key.length > 15 → r.parsePair seg = r) ∧
    (∀ seg key, pairKey seg = some key → key.map toupper ∉ effectiveKeys →
      r.parsePair seg = r) ∧
    (∀ seg key, pairKey seg = some key → key.map toupper ∈ ignoredKeys → r.parsePair seg = r) ∧
    r.parse line =
      ((strtokAll (cstr line) (str ",")).filter (fun seg => !inertSegment seg)).foldl
        CellData.parsePair r := by
  have hinert : ∀ seg key, pairKey seg = some key →
      (key.length > 15 ∨ key.map toupper ∉ effectiveKeys) → r.parsePair seg = r := by
    intro seg key hk h
    apply parsePair_inert
    unfold inertSegment
    rw [hk]
    simp only [Bool.or_eq_true, decide_eq_true_eq]
    exact h
  refine ⟨?_, ?_, ?_, ?_, ?_⟩
  · intro seg h
    exact (parsePair_of_pairKey r seg).1 h
  · intro seg key hk hl
    exact hinert seg key hk (Or.inl hl)
  · intro seg key hk hn
    exact hinert seg key hk (Or.inr hn)
  · intro seg key hk hi
    apply hinert seg key hk
    right
    intro he
    unfold ignoredKeys at hi
    unfold effectiveKeys at he
    simp only [List.mem_cons, List.mem_singleton, List.not_mem_nil, or_false] at hi he
    rcases hi with hi | hi | hi | hi | hi | hi <;> rw [hi] at he <;> revert he <;> decide
  · unfold CellData.parse
    generalize strtokAll (cstr line) (str ",") = ts
    induction ts generalizing r with
    | nil => rfl
    | cons t ts ih =>
      rw [List.foldl_cons, List.filter_cons]
      by_cases hi : inertSegment t = true
      · rw [parsePair_inert r t hi]
        simp only [hi, Bool.not_true, Bool.false_eq_true, if_false]
        exact ih r (fun seg key hk h => by
          apply parsePair_inert
          unfold inertSegment
          rw [hk]
          simp only [Bool.or_eq_true, decide_eq_true_eq]
          exact h)
      · have hf : inertSegment t = false := by simpa using hi
        simp only [hf, Bool.not_false, if_true, List.foldl_cons]
        exact ih _ (fun seg key hk h => by
          apply parsePair_inert
          unfold inertSegment
          rw [hk]
          simp only [Bool.or_eq_true, decide_eq_true_eq]
          exact h)

/-- A fragment made of an empty line and one line ended by carriage return and
line feed gives that line. -/
theorem strtokAll_wrapped (l : List Nat) (hne : l ≠ []) (h : ∀ c ∈ l, c ≠ 10 ∧ c ≠ 13) :
    strtokAll (str "\r\n" ++ l ++ str "\r\n") (str "\r\n") = [l] := by
  have hjoin := strtokAll_joinLines [l] (by
    intro x hx
    rw [List.mem_singleton] at hx
    rw [hx]
    exact ⟨hne, h⟩)
  have hcrlf : str "\r\n" = [13, 10] := rfl
  have h13 : (str "\r\n").contains 13 = true := by decide
  have h10 : (str "\r\n").contains 10 = true := by decide
  unfold strtokAll at hjoin ⊢
  have hshape : str "\r\n" ++ l ++ str "\r\n" = 13 :: 10 :: joinLines [l] := by
    simp only [joinLines, hcrlf, List.append_nil, List.cons_append, List.nil_append,
      List.append_assoc]
  rw [hshape, strtokAux_cons_skip _ 13 _ h13, strtokAux_cons_skip _ 10 _ h10]
  exact hjoin

/-- With a command of at most 28 bytes the tag `+T: ` is skipped on a tagged
fragment and kept on an unlabeled one. -/
theorem skipTag_tagged (e : EnvironmentResponse) (rest : List Nat)
    (hcmd : (cstr e.command).length ≤ 28) :
    e.skipTag RespType.TYPE_PLUS (str "+" ++ cstr e.command ++ str ": " ++ rest) = some rest ∧
    e.skipTag RespType.TYPE_UNKNOWN (str "+" ++ cstr e.command ++ str ": " ++ rest) =
      some (str "+" ++ cstr e.command ++ str ": " ++ rest) := by
  have h1 : (str "+").length = 1 := rfl
  have h2 : (str ": ").length = 2 := rfl
  have hlen : (str "+" ++ cstr e.command ++ str ": ").length = (cstr e.command).length + 3 := by
    simp only [List.length_append, h1, h2]
    omega
  have hsf : e.searchFor = str "+" ++ cstr e.command ++ str ": " := by
    unfold EnvironmentResponse.searchFor
    apply List.take_of_length_le
    omega
  constructor
  · unfold EnvironmentResponse.skipTag
    have hcmp : strncmpEq (str "+" ++ cstr e.command ++ str ": " ++ rest) e.searchFor
        e.searchForLen = true := by
      unfold strncmpEq EnvironmentResponse.searchForLen
      rw [hsf, ← hlen, List.take_left, List.take_length]
      simp
    rw [if_pos ⟨rfl, hcmp⟩, if_pos]
    · unfold EnvironmentResponse.searchForLen
      rw [← hlen, List.drop_left]
    · unfold EnvironmentResponse.searchForLen
      rw [List.length_append, hlen]
      omega
  · unfold EnvironmentResponse.skipTag
    rw [if_neg]
    rintro ⟨h, -⟩
    exact absurd h (by decide)

/-- C36 (as stated, refuted): on an unlabeled fragment the tag is not removed.
A decoder for the command `CGED` fed `\r\n+CGED: MCC:310,MNC:260\r\n` as
TYPE_UNKNOWN is left as it was, whereas `\r\nMCC:310,MNC:260\r\n` fills its
service record and moves the cursor; as TYPE_PLUS the two give the same state. -/
theorem env_tag_kept_on_unlabeled :
    ({ EnvironmentResponse.create (CellData.fresh 0 0 0 0 0 0 0) with
        command := str "CGED" }).parse RespType.TYPE_UNKNOWN
        (str "\r\n+CGED: MCC:310,MNC:260\r\n") =
      some ({ EnvironmentResponse.create (CellData.fresh 0 0 0 0 0 0 0) with
                command := str "CGED" }, WAIT) ∧
    ({ EnvironmentResponse.create (CellData.fresh 0 0 0 0 0 0 0) with
        command := str "CGED" }).parse RespType.TYPE_UNKNOWN
        (str "\r\nMCC:310,MNC:260\r\n") =
      some ({ EnvironmentResponse.create
                { CellData.fresh 0 0 0 0 0 0 0 with mcc := 310, mnc := 260 } with
              command := str "CGED", curDataIndex := 0 }, WAIT) ∧
    ({ EnvironmentResponse.create (CellData.fresh 0 0 0 0 0 0 0) with
        command := str "CGED" }).parse RespType.TYPE_PLUS
        (str "\r\n+CGED: MCC:310,MNC:260\r\n") =
      some ({ EnvironmentResponse.create
                { CellData.fresh 0 0 0 0 0 0 0 with mcc := 310, mnc := 260 } with
              command := str "CGED", curDataIndex := 0 }, WAIT) := by
  decide

/-- C36 (amended): for the Environment decoder with a command tag `T` of at most
28 bytes, on a tagged (TYPE_PLUS) fragment a line that begins with `+T: ` is
decoded as the same line with the prefix removed; on an unlabeled (TYPE_UNKNOWN)
fragment the prefix is not removed and the line changes nothing. -/
theorem env_tag_removed_on_tagged (e : EnvironmentResponse) (rest : List Nat)
    (hcmd : (cstr e.command).length ≤ 28)
    (htag : ∀ c ∈ cstr e.command, c ≠ 10 ∧ c ≠ 13)
    (hne : rest ≠ []) (hclean : ∀ c ∈ rest, c ≠ 0 ∧ c ≠ 10 ∧ c ≠ 13)
    (hplus : rest.head? ≠ some 43) :
    e.parse RespType.TYPE_PLUS
        (str "\r\n" ++ (str "+" ++ cstr e.command ++ str ": " ++ rest) ++ str "\r\n") =
      e.parse RespType.TYPE_PLUS (str "\r\n" ++ rest ++ str "\r\n") ∧
    e.parse RespType.TYPE_UNKNOWN
        (str "\r\n" ++ (str "+" ++ cstr e.command ++ str ": " ++ rest) ++ str "\r\n") =
      some (e, WAIT) := by
  have hcrlf : str "\r\n" = [13, 10] := rfl
  have hp : str "+" = [43] := rfl
  have hcs : str ": " = [58, 32] := rfl
  have hcmd0 : ∀ c ∈ cstr e.command, c ≠ 0 := by
    intro c hc
    unfold cstr at hc
    have := List.mem_takeWhile_imp hc
    simpa using this
  have htl : ∀ c ∈ str "+" ++ cstr e.command ++ str ": " ++ rest, c ≠ 0 ∧ c ≠ 10 ∧ c ≠ 13 := by
    intro c hc
    simp only [hp, hcs, List.mem_append, List.mem_cons, List.mem_singleton, List.not_mem_nil,
      or_false] at hc
    rcases hc with ((hc | hc) | hc | hc) | hc
    · omega
    · exact ⟨hcmd0 c hc, htag c hc⟩
    · omega
    · omega
    · exact hclean c hc
  have hwrap : ∀ l : List Nat, (∀ c ∈ l, c ≠ 0 ∧ c ≠ 10 ∧ c ≠ 13) →
      cstr (str "\r\n" ++ l ++ str "\r\n") = str "\r\n" ++ l ++ str "\r\n" := by
    intro l hl
    apply cstr_eq_self
    intro c hc
    simp only [hcrlf, List.mem_append, List.mem_cons, List.mem_singleton, List.not_mem_nil,
      or_false] at hc
    rcases hc with ((hc | hc) | hc) | hc | hc
    · omega
    · omega
    · exact (hl c hc).1
    · omega
    · omega
  have htne : str "+" ++ cstr e.command ++ str ": " ++ rest ≠ [] := by
    rw [hp]
    simp
  have hrestLine : EnvironmentResponse.parseLine RespType.TYPE_PLUS e rest = e.routeLine rest := by
    cases rest with
    | nil => exact absurd rfl hne
    | cons c cs =>
      rw [EnvironmentResponse.parseLine, if_neg (by simp),
        skipTag_of_head_ne _ _ _ _ (by simpa using hplus)]
  have htagLine : EnvironmentResponse.parseLine RespType.TYPE_PLUS e
      (str "+" ++ cstr e.command ++ str ": " ++ rest) = e.routeLine rest := by
    rw [EnvironmentResponse.parseLine, if_neg (by simpa using htne),
      (skipTag_tagged e rest hcmd).1]
  have hunl : EnvironmentResponse.parseLine RespType.TYPE_UNKNOWN e
      (str "+" ++ cstr e.command ++ str ": " ++ rest) = some e := by
    rw [EnvironmentResponse.parseLine, if_neg (by simpa using htne),
      (skipTag_tagged e rest hcmd).2]
    simp only
    have h1 : strncmpEq (str "+" ++ cstr e.command ++ str ": " ++ rest) (str "MCC:") 4 = false := by
      rw [hp]
      rfl
    have h2 : strncmpEq (str "+" ++ cstr e.command ++ str ": " ++ rest) (str "RAT:") 4 = false := by
      rw [hp]
      rfl
    rw [EnvironmentResponse.routeLine, if_neg (by rw [h1]; decide), if_neg (by rw [h2]; decide)]
  constructor
  · unfold EnvironmentResponse.parse
    rw [if_pos (Or.inr rfl), if_pos (Or.inr rfl), hwrap _ htl, hwrap _ hclean,
      strtokAll_wrapped _ htne (fun c hc => (htl c hc).2),
      strtokAll_wrapped _ hne (fun c hc => (hclean c hc).2)]
    simp only [List.foldlM_cons, List.foldlM_nil, htagLine, hrestLine]
  · unfold EnvironmentResponse.parse
    rw [if_pos (Or.inl rfl), hwrap _ htl, strtokAll_wrapped _ htne (fun c hc => (htl c hc).2)]
    simp only [List.foldlM_cons, List.foldlM_nil, hunl]
    rfl

/-- Instance of the amended C36: the command `CGED` and the line
`MCC:310,MNC:260`. -/
theorem env_tag_removed_on_tagged_witness :
    ({ EnvironmentResponse.create (CellData.fresh 0 0 0 0 0 0 0) with
        command := str "CGED" }).parse RespType.TYPE_PLUS
        (str "\r\n+CGED: MCC:310,MNC:260\r\n") =
      ({ EnvironmentResponse.create (CellData.fresh 0 0 0 0 0 0 0) with
        command := str "CGED" }).parse RespType.TYPE_PLUS (str "\r\nMCC:310,MNC:260\r\n") :=
  (env_tag_removed_on_tagged
    { EnvironmentResponse.create (CellData.fresh 0 0 0 0 0 0 0) with command := str "CGED" }
    (str "MCC:310,MNC:260") (by decide) (by decide) (by decide) (by decide) (by decide)).1

/-- C37 (the code at the failing input): the Location decoder does not take its
fields by position.  `strtok_r` passes over an empty field, so on a line whose
altitude is empty, `date,time,lat,lon,,uncertainty`, the text of the uncertainty
is the fifth token: `postProcess` stores it in `alt` and leaves `uncertainty`,
`valid` and `resp` as they were. -/
theorem location_empty_altitude {F : Type} (atof : List Nat → F) (r : LocationResponse F)
    (date time latPart lonPart uncPart : List Nat)
    (hf : ∀ f ∈ [date, time, latPart, lonPart, uncPart], f ≠ [] ∧ ∀ b ∈ f, b ≠ 44 ∧ b ≠ 0)
    (hs : r.string =
      date ++ 44 :: (time ++ 44 :: (latPart ++ 44 :: (lonPart ++ 44 :: 44 :: uncPart)))) :
    r.postProcess atof =
      { r with lat := atof latPart, lon := atof lonPart, alt := atoi uncPart } := by
  have hcomma : str "," = [44] := rfl
  have h44 : (str ",").contains 44 = true := by decide
  have hfield : ∀ f ∈ [date, time, latPart, lonPart, uncPart],
      f ≠ [] ∧ (∀ c ∈ f, (str ",").contains c = false) ∧ ∀ c ∈ f, c ≠ 0 := by
    intro f hfm
    refine ⟨(hf f hfm).1, ?_, fun c hc => ((hf f hfm).2 c hc).2⟩
    intro c hc
    rw [hcomma]
    simp [((hf f hfm).2 c hc).1]
  obtain ⟨hd1, hd2, hd3⟩ := hfield date (by simp)
  obtain ⟨ht1, ht2, ht3⟩ := hfield time (by simp)
  obtain ⟨ha1, ha2, ha3⟩ := hfield latPart (by simp)
  obtain ⟨ho1, ho2, ho3⟩ := hfield lonPart (by simp)
  obtain ⟨hu1, hu2, hu3⟩ := hfield uncPart (by simp)
  have hnul : cstr r.string = r.string := by
    apply cstr_eq_self
    intro c hc
    rw [hs] at hc
    simp only [List.mem_append, List.mem_cons] at hc
    rcases hc with hc | hc | hc | hc | hc | hc | hc | hc | hc | hc
    · exact hd3 c hc
    · omega
    · exact ht3 c hc
    · omega
    · exact ha3 c hc
    · omega
    · exact ho3 c hc
    · omega
    · omega
    · exact hu3 c hc
  have hlast : strtokAux (str ",") uncPart [] = [uncPart] := by
    have := strtokAux_append (str ",") uncPart hu2 [] []
    rw [List.append_nil] at this
    rw [this, List.append_nil, strtokAux, if_neg (by simpa using hu1), List.reverse_reverse]
  have htok : strtokAll (cstr r.string) (str ",") =
      [date, time, latPart, lonPart, uncPart] := by
    rw [hnul, hs]
    unfold strtokAll
    rw [strtokAux_append _ date hd2, List.append_nil,
      strtokAux_cons_delim _ 44 _ _ h44 (by simpa using hd1), List.reverse_reverse,
      strtokAux_append _ time ht2, List.append_nil,
      strtokAux_cons_delim _ 44 _ _ h44 (by simpa using ht1), List.reverse_reverse,
      strtokAux_append _ latPart ha2, List.append_nil,
      strtokAux_cons_delim _ 44 _ _ h44 (by simpa using ha1), List.reverse_reverse,
      strtokAux_append _ lonPart ho2, List.append_nil,
      strtokAux_cons_delim _ 44 _ _ h44 (by simpa using ho1), List.reverse_reverse,
      strtokAux_cons_skip _ 44 _ h44, hlast]
  unfold LocationResponse.postProcess
  rw [htok]

/-- Instance of C37: on `d,t,1,2,,7` the 7 goes to `alt`; `uncertainty` stays 0
and `valid` stays false. -/
theorem location_empty_altitude_witness :
    (({ LocationResponse.create (0 : Int) with string := str "d,t,1,2,,7" }).postProcess
        atofWhole).alt = 7 ∧
    (({ LocationResponse.create (0 : Int) with string := str "d,t,1,2,,7" }).postProcess
        atofWhole).uncertainty = 0 ∧
    (({ LocationResponse.create (0 : Int) with string := str "d,t,1,2,,7" }).postProcess
        atofWhole).valid = false := by
  have h := location_empty_altitude atofWhole
    { LocationResponse.create (0 : Int) with string := str "d,t,1,2,,7" }
    (str "d") (str "t") (str "1") (str "2") (str "7") (by decide) rfl
  rw [h]
  decide

/-- `accDigits` in base 16 computes the base-16 value of hexadecimal digits. -/
theorem accDigits_hexValue (h : List Nat) (hhex : ∀ c ∈ h, isHexDigit c = true) :
    ∀ acc : Nat, accDigits 16 h acc = h.foldl (fun a c => a * 16 + hexDigitValue c) acc := by
  induction h with
  | nil => intro acc; rfl
  | cons c cs ih =>
    intro acc
    have hc := isHexDigit_bounds c (hhex c (List.mem_cons_self c cs))
    have hv : digitVal c = some (hexDigitValue c) ∧ hexDigitValue c < 16 := by
      unfold digitVal hexDigitValue
      rcases hc with hc | hc | hc
      · rw [if_pos (by omega), if_pos (by omega)]
        exact ⟨rfl, by omega⟩
      · rw [if_neg (by omega), if_pos (by omega), if_neg (by omega), if_pos (by omega)]
        exact ⟨rfl, by omega⟩
      · rw [if_neg (by omega), if_neg (by omega), if_pos (by omega), if_neg (by omega),
          if_neg (by omega)]
        exact ⟨rfl, by omega⟩
    rw [accDigits, hv.1]
    simp only
    rw [if_pos hv.2, ih (fun x hx => hhex x (List.mem_cons_of_mem c hx)), List.foldl_cons]

/-- `strtol` in base 16 gives the base-16 value of a string of hexadecimal digits
that fits a `long`. -/
theorem strtol_hexValue (h : List Nat) (hhex : ∀ c ∈ h, isHexDigit c = true)
    (hmax : (hexValue h : Int) ≤ LONG_MAX) : strtol h 16 = hexValue h := by
  have hsp : h.dropWhile isspace = h := by
    cases h with
    | nil => rfl
    | cons c cs =>
      have hc := isHexDigit_bounds c (hhex c (List.mem_cons_self c cs))
      rw [List.dropWhile_cons]
      have : isspace c = false := by
        unfold isspace
        simp only [Bool.or_eq_false_iff, beq_eq_false_iff_ne, ne_eq, Bool.and_eq_false_imp,
          decide_eq_true_eq, decide_eq_false_iff_not, not_le]
        omega
      rw [this]
      rfl
  have hsign : takeSign h = (false, h) := by
    unfold takeSign
    split
    · rename_i r
      have hc := isHexDigit_bounds 45 (hhex 45 (List.mem_cons_self 45 r))
      omega
    · rename_i r
      have hc := isHexDigit_bounds 43 (hhex 43 (List.mem_cons_self 43 r))
      omega
    · rfl
  have hmark : skipHexMark 16 h = h := by
    unfold skipHexMark
    split
    · rename_i x r
      have hx := isHexDigit_bounds x (hhex x (by simp))
      rw [if_neg (by omega)]
    · rfl
  unfold strtol
  simp only [hsp, hsign, hmark, accDigits_hexValue h hhex 0, Bool.false_eq_true, if_false]
  rw [if_neg (by unfold hexValue at hmax; omega)]
  rfl

/-- A line that is one pair `key:value`, the key without space, comma, colon or
NUL and the value without comma or NUL: `parse` hands the pair to `addKeyValue`. -/
theorem parse_single_pair (r : CellData) (key value : List Nat) (hne : key ≠ [])
    (hkey : ∀ c ∈ key, c ≠ 32 ∧ c ≠ 44 ∧ c ≠ 58 ∧ c ≠ 0)
    (hval : ∀ c ∈ value, c ≠ 44 ∧ c ≠ 0) :
    r.parse (key ++ 58 :: value) = r.addKeyValue key value := by
  have hall : ∀ c ∈ key ++ 58 :: value, c ≠ 44 ∧ c ≠ 0 := by
    intro c hc
    rw [List.mem_append, List.mem_cons] at hc
    rcases hc with hc | hc | hc
    · exact ⟨(hkey c hc).2.1, (hkey c hc).2.2.2⟩
    · omega
    · exact hval c hc
  have htok : strtokAll (cstr (key ++ 58 :: value)) (str ",") = [key ++ 58 :: value] := by
    rw [cstr_eq_self _ (fun c hc => (hall c hc).2)]
    have := strtokAll_joinComma [key ++ 58 :: value] (by
      intro p hp
      rw [List.mem_singleton] at hp
      rw [hp]
      exact ⟨by simp, fun c hc => (hall c hc).1⟩)
    exact this
  have hdrop : (key ++ 58 :: value).dropWhile (fun c => c == 32) = key ++ 58 :: value := by
    cases key with
    | nil => exact absurd rfl hne
    | cons c cs =>
      have := (hkey c (List.mem_cons_self c cs)).1
      rw [List.cons_append, List.dropWhile_cons]
      simp [this]
  have h58 : 58 ∉ key := fun h => (hkey 58 h).2.2.1 rfl
  unfold CellData.parse
  rw [htok, List.foldl_cons, List.foldl_nil, CellData.parsePair, hdrop, splitAtByte_append 58 _ _ h58]

/-- The text of an integer holds no comma and no NUL. -/
theorem formatInt_value (z : Int) : ∀ c ∈ formatInt z, c ≠ 44 ∧ c ≠ 0 := by
  intro c hc
  have := formatInt_bytes z c hc
  omega

/-- C38: the key `RXLEV` is read in base 16 while `ARFCN`, `MCC` and `MNC` are
read in base 10: for every string `h` of hexadecimal digits whose value fits the
`int`, the segment `RxLev:h` sets `rxlev` to the base-16 value of `h`, so
`RxLev:24` gives `rxlev = 36` and, on a 2G record, an RSSI of -85; `Arfcn:z`,
`MCC:z` and `MNC:z` store the decimal `z`. -/
theorem rxlev_read_in_base_16 (r : CellData) (h : List Nat)
    (hhex : ∀ c ∈ h, isHexDigit c = true) (hmax : (hexValue h : Int) ≤ LONG_MAX) :
    r.parse (str "RxLev:" ++ h) = { r with rxlev := hexValue h } ∧
    (∀ z : Int, LONG_MIN ≤ z → z ≤ LONG_MAX →
      r.parse (str "Arfcn:" ++ formatInt z) = { r with arfcn := z } ∧
      r.parse (str "MCC:" ++ formatInt z) = { r with mcc := z } ∧
      r.parse (str "MNC:" ++ formatInt z) = { r with mnc := z }) ∧
    (r.parse (str "RxLev:24")).rxlev = 36 ∧
    (r.parse (str "Arfcn:24")).arfcn = 24 ∧
    (r.isUMTS = false → (r.parse (str "RxLev:24")).getRSSI = -85) := by
  have hhv : ∀ c ∈ h, c ≠ 44 ∧ c ≠ 0 := by
    intro c hc
    have := isHexDigit_bounds c (hhex c hc)
    omega
  have hrx : ∀ v : List Nat, (∀ c ∈ v, c ≠ 44 ∧ c ≠ 0) →
      r.parse (str "RxLev:" ++ v) = { r with rxlev := strtol v 16 } := by
    intro v hv
    have e : str "RxLev:" ++ v = str "RxLev" ++ 58 :: v := rfl
    rw [e, parse_single_pair r (str "RxLev") v (by decide) (by decide) hv]
    rfl
  have har : ∀ v : List Nat, (∀ c ∈ v, c ≠ 44 ∧ c ≠ 0) →
      r.parse (str "Arfcn:" ++ v) = { r with arfcn := atoi v } := by
    intro v hv
    have e : str "Arfcn:" ++ v = str "Arfcn" ++ 58 :: v := rfl
    rw [e, parse_single_pair r (str "Arfcn") v (by decide) (by decide) hv]
    rfl
  have hmcc : ∀ v : List Nat, (∀ c ∈ v, c ≠ 44 ∧ c ≠ 0) →
      r.parse (str "MCC:" ++ v) = { r with mcc := atoi v } := by
    intro v hv
    have e : str "MCC:" ++ v = str "MCC" ++ 58 :: v := rfl
    rw [e, parse_single_pair r (str "MCC") v (by decide) (by decide) hv]
    rfl
  have hmnc : ∀ v : List Nat, (∀ c ∈ v, c ≠ 44 ∧ c ≠ 0) →
      r.parse (str "MNC:" ++ v) = { r with mnc := atoi v } := by
    intro v hv
    have e : str "MNC:" ++ v = str "MNC" ++ 58 :: v := rfl
    rw [e, parse_single_pair r (str "MNC") v (by decide) (by decide) hv]
    rfl
  have h24 : r.parse (str "RxLev:24") = { r with rxlev := 36 } := by
    have e : str "RxLev:24" = str "RxLev:" ++ str "24" := rfl
    rw [e, hrx (str "24") (by decide)]
    rfl
  refine ⟨?_, ?_, ?_, ?_, ?_⟩
  · rw [hrx h hhv, strtol_hexValue h hhex hmax]
  · intro z h1 h2
    rw [har _ (formatInt_value z), hmcc _ (formatInt_value z), hmnc _ (formatInt_value z),
      atoi_formatInt z h1 h2]
    exact ⟨rfl, rfl, rfl⟩
  · rw [h24]
  · have e : str "Arfcn:24" = str "Arfcn:" ++ str "24" := rfl
    rw [e, har (str "24") (by decide)]
    rfl
  · intro h2G
    rw [h24]
    unfold CellData.getRSSI
    simp only [h2G, Bool.false_eq_true, if_false]
    rw [if_pos (by decide), wrapInt32_of_range _ (by decide) (by decide)]
    rfl

/-- Instance of C38: `RxLev:1f` on a newly constructed record. -/
theorem rxlev_read_in_base_16_witness :
    ((CellData.fresh 0 0 0 0 0 0 0).parse (str "RxLev:1f")).rxlev = 31 ∧
    ((CellData.fresh 0 0 0 0 0 0 0).parse (str "RxLev:24")).getRSSI = -85 := by
  have h := rxlev_read_in_base_16 (CellData.fresh 0 0 0 0 0 0 0) (str "1f") (by decide)
    (by decide)
  have e : str "RxLev:1f" = str "RxLev:" ++ str "1f" := rfl
  refine ⟨?_, h.2.2.2.2 rfl⟩
  rw [e, h.1]
  rfl

/-- A conditional is 0 only through a branch that is 0. -/
theorem ite_eq_zero_elim {c : Prop} [Decidable c] {a b : Int}
    (h : (if c then a else b) = 0) (ha : a ≠ 0) : ¬ c ∧ b = 0 := by
  by_cases hc : c
  · rw [if_pos hc] at h
    exact absurd h ha
  · rw [if_neg hc] at h
    exact ⟨hc, h⟩

/-- A 3G record without band has its uplink channel outside the ranges that
`getBandString` names first. -/
theorem getBand_3G_zero (r : CellData) (h3G : r.isUMTS = true) (hz : r.getBand = 0) :
    ¬ (r.ulf ≥ 0 ∧ r.ulf ≤ 124) ∧ ¬ (r.ulf ≥ 128 ∧ r.ulf ≤ 251) ∧
    ¬ (r.ulf ≥ 512 ∧ r.ulf ≤ 885) ∧ ¬ (r.ulf ≥ 975 ∧ r.ulf ≤ 1023) := by
  unfold CellData.getBand at hz
  rw [if_pos h3G] at hz
  obtain ⟨-, hz⟩ := ite_eq_zero_elim hz (by decide)
  obtain ⟨-, hz⟩ := ite_eq_zero_elim hz (by decide)
  obtain ⟨-, hz⟩ := ite_eq_zero_elim hz (by decide)
  obtain ⟨-, hz⟩ := ite_eq_zero_elim hz (by decide)
  obtain ⟨-, hz⟩ := ite_eq_zero_elim hz (by decide)
  obtain ⟨-, hz⟩ := ite_eq_zero_elim hz (by decide)
  obtain ⟨-, hz⟩ := ite_eq_zero_elim hz (by decide)
  obtain ⟨-, hz⟩ := ite_eq_zero_elim hz (by decide)
  obtain ⟨-, hz⟩ := ite_eq_zero_elim hz (by decide)
  obtain ⟨-, hz⟩ := ite_eq_zero_elim hz (by decide)
  obtain ⟨-, hz⟩ := ite_eq_zero_elim hz (by decide)
  obtain ⟨n1, hz⟩ := ite_eq_zero_elim hz (by decide)
  obtain ⟨n2, hz⟩ := ite_eq_zero_elim hz (by decide)
  obtain ⟨n3, hz⟩ := ite_eq_zero_elim hz (by decide)
  obtain ⟨n4, hz⟩ := ite_eq_zero_elim hz (by decide)
  exact ⟨n1, n2, n3, n4⟩

/-- A 2G record without band has its channel outside 512..885 and 975..1023. -/
theorem getBand_2G_zero (r : CellData) (h2G : r.isUMTS = false) (hz : r.getBand = 0) :
    ¬ (r.arfcn ≥ 512 ∧ r.arfcn ≤ 885) ∧ ¬ (r.arfcn ≥ 975 ∧ r.arfcn ≤ 1023) := by
  unfold CellData.getBand at hz
  rw [h2G, if_neg (by decide)] at hz
  obtain ⟨-, hz⟩ := ite_eq_zero_elim hz (by decide)
  obtain ⟨-, hz⟩ := ite_eq_zero_elim hz (by decide)
  obtain ⟨n3, hz⟩ := ite_eq_zero_elim hz (by decide)
  obtain ⟨n4, -⟩ := ite_eq_zero_elim hz (by decide)
  exact ⟨n3, n4⟩

/-- A band name that starts with another byte than `2` or `3` is not one of the
two names for an unknown band. -/
theorem not_unknown_of_head (c : Nat) (s : List Nat) (h2 : c ≠ 50) (h3 : c ≠ 51) :
    ¬ (c :: s = str "2G unknown" ∨ c :: s = str "3G unknown") := by
  have e2 : str "2G unknown" = 50 :: str "G unknown" := rfl
  have e3 : str "3G unknown" = 51 :: str "G unknown" := rfl
  rw [e2, e3]
  rintro (h | h)
  · exact h2 (List.cons.inj h).1
  · exact h3 (List.cons.inj h).1

/-- C39 (the code at the failing input): on a 2G record with `arfcn = 1024`
`getBand` is 0 whereas `getBandString` is `EGSM 900`, not `2G unknown`: the
test of `getBandString` reads `arfcn <= 1024` where `getBand` reads
`arfcn <= 1023`.  On every record the name of an unknown band implies band 0,
and everywhere else band 0 gives the name of an unknown band. -/
theorem bandString_unknown_iff_except_1024 (r : CellData) :
    ({ r with isUMTS := false, arfcn := 1024 }).getBand = 0 ∧
    ({ r with isUMTS := false, arfcn := 1024 }).getBandString = str "EGSM 900" ∧
    ((r.getBandString = str "2G unknown" ∨ r.getBandString = str "3G unknown") →
      r.getBand = 0) ∧
    (r.getBand = 0 → ¬ (r.isUMTS = false ∧ r.arfcn = 1024) →
      (r.getBandString = str "2G unknown" ∨ r.getBandString = str "3G unknown")) := by
  have hgsm : ∀ z : Int, ¬ (str "GSM " ++ formatInt z = str "2G unknown" ∨
      str "GSM " ++ formatInt z = str "3G unknown") :=
    fun z => not_unknown_of_head 71 _ (by decide) (by decide)
  have humts : ∀ z : Int, ¬ (str "UMTS " ++ formatInt z = str "2G unknown" ∨
      str "UMTS " ++ formatInt z = str "3G unknown") :=
    fun z => not_unknown_of_head 85 _ (by decide) (by decide)
  refine ⟨rfl, rfl, ?_, ?_⟩
  · intro h
    unfold CellData.getBandString at h
    simp only at h
    cases hU : r.isUMTS with
    | true =>
      rw [hU] at h
      simp only [if_true] at h
      by_cases c1 : (r.ulf ≥ 0 ∧ r.ulf ≤ 124) ∨ (r.ulf ≥ 128 ∧ r.ulf ≤ 251)
      · rw [if_pos c1] at h
        exact absurd h (hgsm _)
      · rw [if_neg c1] at h
        by_cases c2 : r.ulf ≥ 512 ∧ r.ulf ≤ 885
        · rw [if_pos c2] at h
          exact absurd h (by decide)
        · rw [if_neg c2] at h
          by_cases c3 : r.ulf ≥ 975 ∧ r.ulf ≤ 1023
          · rw [if_pos c3] at h
            exact absurd h (by decide)
          · rw [if_neg c3] at h
            by_cases c4 : r.getBand ≠ 0
            · rw [if_pos c4] at h
              exact absurd h (humts _)
            · exact not_not.1 c4
    | false =>
      rw [hU] at h
      simp only [Bool.false_eq_true, if_false] at h
      by_cases c1 : r.arfcn ≥ 512 ∧ r.arfcn ≤ 885
      · rw [if_pos c1] at h
        exact absurd h (by decide)
      · rw [if_neg c1] at h
        by_cases c2 : r.arfcn ≥ 975 ∧ r.arfcn ≤ 1024
        · rw [if_pos c2] at h
          exact absurd h (by decide)
        · rw [if_neg c2] at h
          by_cases c3 : r.getBand ≠ 0
          · rw [if_pos c3] at h
            exact absurd h (hgsm _)
          · exact not_not.1 c3
  · intro hz hnot
    unfold CellData.getBandString
    simp only
    cases hU : r.isUMTS with
    | true =>
      obtain ⟨n1, n2, n3, n4⟩ := getBand_3G_zero r hU hz
      simp only [if_true]
      rw [if_neg (fun h => h.elim n1 n2), if_neg n3, if_neg n4, if_neg (fun h => h hz)]
      exact Or.inr rfl
    | false =>
      obtain ⟨c1, g4⟩ := getBand_2G_zero r hU hz
      have c2 : ¬ (r.arfcn ≥ 975 ∧ r.arfcn ≤ 1024) := by
        intro h
        by_cases h1024 : r.arfcn = 1024
        · exact hnot ⟨hU, h1024⟩
        · exact g4 ⟨h.1, by omega⟩
      simp only [Bool.false_eq_true, if_false]
      rw [if_neg c1, if_neg c2, if_neg (fun h => h hz)]
      exact Or.inl rfl

/-- A line for another pair leaves the entries of a pair as they are. -/
theorem checkOperator_other (c : COPNResponse) (buf : List Nat) (mcc mnc : Int)
    (h : COPNResponse.lineKey buf ≠ some (mcc, mnc)) :
    ∃ f : OperatorName → OperatorName, (∀ o, (f o).mcc = o.mcc ∧ (f o).mnc = o.mnc) ∧
      (∀ o, o.mcc = mcc → o.mnc = mnc → f o = o) ∧
      (c.checkOperator buf).operators = c.operators.map f := by
  have hid : ∃ f : OperatorName → OperatorName, (∀ o, (f o).mcc = o.mcc ∧ (f o).mnc = o.mnc) ∧
      (∀ o, o.mcc = mcc → o.mnc = mnc → f o = o) ∧
      c.operators = c.operators.map f := ⟨id, fun _ => ⟨rfl, rfl⟩, fun _ _ _ => rfl, by simp⟩
  unfold COPNResponse.lineKey at h
  unfold COPNResponse.checkOperator
  split
  · split
    · rename_i num afterNum hnum
      split_ifs with h6
      · split
        · rename_i q nameStart hname
          split
          · rename_i name y hsplit
            simp only [hnum, if_pos h6, hname, hsplit] at h
            refine ⟨_, ?_, ?_, rfl⟩
            · intro o
              split_ifs <;> exact ⟨rfl, rfl⟩
            · intro o h1 h2
              rw [if_neg]
              rintro ⟨e1, e2⟩
              apply h
              rw [← e1, ← e2, h1, h2]
          · exact hid
        · exact hid
      · exact hid
    · exact hid
  · exact hid

/-- A fragment for another pair leaves the entries of a pair as they are. -/
theorem copn_parse_other (c : COPNResponse) (type : RespType) (buf : List Nat) (mcc mnc : Int)
    (h : COPNResponse.fragmentKey type buf ≠ some (mcc, mnc)) :
    ∃ f : OperatorName → OperatorName, (∀ o, (f o).mcc = o.mcc ∧ (f o).mnc = o.mnc) ∧
      (∀ o, o.mcc = mcc → o.mnc = mnc → f o = o) ∧
      (c.parse type buf).1.operators = c.operators.map f := by
  have hid : ∃ f : OperatorName → OperatorName, (∀ o, (f o).mcc = o.mcc ∧ (f o).mnc = o.mnc) ∧
      (∀ o, o.mcc = mcc → o.mnc = mnc → f o = o) ∧
      c.operators = c.operators.map f := ⟨id, fun _ => ⟨rfl, rfl⟩, fun _ _ _ => rfl, by simp⟩
  unfold COPNResponse.fragmentKey at h
  unfold COPNResponse.parse
  split_ifs with hp
  · rw [if_pos hp] at h
    split
    · rename_i found hfound
      rw [hfound] at h
      split
      · rename_i line rest hline
        simp only [hline] at h
        exact checkOperator_other c line mcc mnc h
      · exact hid
    · exact hid
  · exact hid

/-- The entries of a pair are pending: each has an empty name. -/
theorem pending_step (c : COPNResponse) (mcc mnc : Int) (call : CacheCall)
    (hpend : ∀ o ∈ c.operators, o.mcc = mcc → o.mnc = mnc → o.name = [])
    (hno : ∀ type buf, call = CacheCall.fragment type buf →
      COPNResponse.fragmentKey type buf ≠ some (mcc, mnc)) :
    ∀ o ∈ (c.run [call]).operators, o.mcc = mcc → o.mnc = mnc → o.name = [] := by
  cases call with
  | request a b =>
    intro o ho h1 h2
    have hrun : c.run [CacheCall.request a b] = c.requestOperator a b := rfl
    rw [hrun] at ho
    unfold COPNResponse.requestOperator at ho
    split_ifs at ho
    · exact hpend o ho h1 h2
    · rw [List.mem_append, List.mem_singleton] at ho
      rcases ho with ho | ho
      · exact hpend o ho h1 h2
      · rw [ho]
    · exact hpend o ho h1 h2
  | fragment type buf =>
    intro o ho h1 h2
    have hrun : c.run [CacheCall.fragment type buf] = (c.parse type buf).1 := rfl
    obtain ⟨f, hkeys, hfix, hops⟩ := copn_parse_other c type buf mcc mnc (hno type buf rfl)
    rw [hrun, hops, List.mem_map] at ho
    obtain ⟨o2, ho2, hfo⟩ := ho
    have hk := hkeys o2
    rw [hfo] at hk
    have hsame : f o2 = o2 := hfix o2 (by rw [← hk.1, h1]) (by rw [← hk.2, h2])
    rw [← hfo, hsame]
    exact hpend o2 ho2 (by rw [← hk.1, h1]) (by rw [← hk.2, h2])

/-- Requests and fragments for other pairs keep the entries of a pair pending. -/
theorem pending_run (calls : List CacheCall) (mcc mnc : Int)
    (hno : ∀ type buf, CacheCall.fragment type buf ∈ calls →
      COPNResponse.fragmentKey type buf ≠ some (mcc, mnc)) :
    ∀ c : COPNResponse, (∀ o ∈ c.operators, o.mcc = mcc → o.mnc = mnc → o.name = []) →
      ∀ o ∈ (c.run calls).operators, o.mcc = mcc → o.mnc = mnc → o.name = [] := by
  induction calls with
  | nil => intro c h; exact h
  | cons call rest ih =>
    intro c h
    have hrun : c.run (call :: rest) = (c.run [call]).run rest := rfl
    rw [hrun]
    apply ih (fun type buf hm => hno type buf (List.mem_cons_of_mem call hm))
    exact pending_step c mcc mnc call h
      (fun type buf he => hno type buf (by rw [he]; exact List.mem_cons_self _ rest))

/-- The calls never remove an entry and never shorten the table. -/
theorem run_mono (calls : List CacheCall) (a b : Int) :
    ∀ c : COPNResponse, entryCount c a b ≤ entryCount (c.run calls) a b ∧
      c.operators.length ≤ (c.run calls).operators.length := by
  induction calls with
  | nil => intro c; exact ⟨Nat.le_refl _, Nat.le_refl _⟩
  | cons call rest ih =>
    intro c
    have hrun : c.run (call :: rest) = (c.run [call]).run rest := rfl
    rw [hrun]
    obtain ⟨i1, i2⟩ := ih (c.run [call])
    have hstep : entryCount c a b ≤ entryCount (c.run [call]) a b ∧
        c.operators.length ≤ (c.run [call]).operators.length := by
      cases call with
      | request x y =>
        have hr : c.run [CacheCall.request x y] = c.requestOperator x y := rfl
        rw [hr, entryCount_requestOperator]
        constructor
        · split_ifs <;> omega
        · unfold COPNResponse.requestOperator
          split_ifs
          · exact Nat.le_refl _
          · simp
          · exact Nat.le_refl _
      | fragment type buf =>
        have hr : c.run [CacheCall.fragment type buf] = (c.parse type buf).1 := rfl
        rw [hr, entryCount_parse]
        obtain ⟨f, -, hops⟩ := copn_parse_keys c type buf
        rw [hops, List.length_map]
        exact ⟨Nat.le_refl _, Nat.le_refl _⟩
    exact ⟨Nat.le_trans hstep.1 i1, Nat.le_trans hstep.2 i2⟩

/-- A request made while the table never became full has its entry. -/
theorem requested_has_entry (calls : List CacheCall) (mcc mnc : Int) :
    ∀ c : COPNResponse, CacheCall.request mcc mnc ∈ calls →
      (c.run calls).operators.length < COPNResponse.MAX_OPERATORS →
      0 < entryCount (c.run calls) mcc mnc := by
  induction calls with
  | nil => intro c h; simp at h
  | cons call rest ih =>
    intro c hmem hroom
    have hrun : c.run (call :: rest) = (c.run [call]).run rest := rfl
    rw [hrun] at hroom ⊢
    rw [List.mem_cons] at hmem
    rcases hmem with hmem | hmem
    · rw [← hmem]
      have hr : c.run [CacheCall.request mcc mnc] = c.requestOperator mcc mnc := rfl
      rw [← hmem, hr] at hroom
      rw [hr]
      obtain ⟨m1, -⟩ := run_mono rest mcc mnc (c.requestOperator mcc mnc)
      obtain ⟨-, m2⟩ := run_mono rest mcc mnc (c.requestOperator mcc mnc)
      have hlen : c.operators.length ≤ (c.requestOperator mcc mnc).operators.length := by
        have := (run_mono [CacheCall.request mcc mnc] mcc mnc c).2
        exact this
      have hcount := entryCount_requestOperator c mcc mnc mcc mnc
      by_cases h0 : entryCount c mcc mnc = 0
      · rw [if_pos ⟨h0, by omega, rfl, rfl⟩] at hcount
        omega
      · rw [if_neg (fun h => h0 h.1)] at hcount
        omega
    · exact ih (c.run [call]) hmem hroom

/-- The lookup of a pair whose entries are pending. -/
theorem getOperatorName_pending (c : COPNResponse) (mcc mnc : Int)
    (hpend : ∀ o ∈ c.operators, o.mcc = mcc → o.mnc = mnc → o.name = [])
    (hentry : 0 < entryCount c mcc mnc) : c.getOperatorName mcc mnc = [] := by
  unfold COPNResponse.getOperatorName
  cases hf : c.operators.find? (fun o => o.mcc == mcc && o.mnc == mnc) with
  | none =>
    exfalso
    rw [List.find?_eq_none] at hf
    unfold entryCount at hentry
    rw [List.length_pos, ne_eq, List.filter_eq_nil_iff] at hentry
    exact hentry hf
  | some o =>
    have hmem := List.mem_of_find?_eq_some hf
    have hp := List.find?_some hf
    simp only [Bool.and_eq_true, beq_iff_eq] at hp
    simp only
    rw [hpend o hmem hp.1 hp.2]
    rfl

/-- C40: on every cache reached from a newly constructed one by requests and by
fragments none of which carries a line for the pair `(mcc, mnc)`, the lookup of
the pair gives the empty string when the pair has an entry and `"unknown"` when
it has none, and these differ; the pair has an entry as soon as it was requested
and the table has not become full. -/
theorem pending_resolves_to_empty (calls : List CacheCall) (mcc mnc : Int)
    (hno : ∀ type buf, CacheCall.fragment type buf ∈ calls →
      COPNResponse.fragmentKey type buf ≠ some (mcc, mnc)) :
    (0 < entryCount (COPNResponse.create.run calls) mcc mnc →
      (COPNResponse.create.run calls).getOperatorName mcc mnc = []) ∧
    (entryCount (COPNResponse.create.run calls) mcc mnc = 0 →
      (COPNResponse.create.run calls).getOperatorName mcc mnc = str "unknown") ∧
    ([] : List Nat) ≠ str "unknown" ∧
    ((COPNResponse.create.run calls).getOperatorName mcc mnc = str "unknown" ↔
      entryCount (COPNResponse.create.run calls) mcc mnc = 0) ∧
    (CacheCall.request mcc mnc ∈ calls →
      (COPNResponse.create.run calls).operators.length < COPNResponse.MAX_OPERATORS →
      (COPNResponse.create.run calls).getOperatorName mcc mnc = []) := by
  have hpend := pending_run calls mcc mnc hno COPNResponse.create
    (fun o ho => by simp [COPNResponse.create] at ho)
  have hne : ([] : List Nat) ≠ str "unknown" := by decide
  have h1 : 0 < entryCount (COPNResponse.create.run calls) mcc mnc →
      (COPNResponse.create.run calls).getOperatorName mcc mnc = [] :=
    getOperatorName_pending _ mcc mnc hpend
  refine ⟨h1, getOperatorName_absent _ mcc mnc, hne, ?_, ?_⟩
  · constructor
    · intro hu
      by_contra h0
      have := h1 (by omega)
      rw [this] at hu
      exact hne hu
    · exact getOperatorName_absent _ mcc mnc
  · intro hreq hroom
    exact h1 (requested_has_entry calls mcc mnc COPNResponse.create hreq hroom)

/-- Instance of C40: (310, 410) is requested and the only line ingested names
(901, 12); the lookup of (310, 410) gives the empty string and that of the
pair (1, 1), never requested, gives `"unknown"`. -/
theorem pending_resolves_to_empty_witness :
    (COPNResponse.create.run
      [CacheCall.request 310 410, CacheCall.request 901 12,
       CacheCall.fragment RespType.TYPE_PLUS
        (str "\r\n+COPN: \"901012\",\"MCP Maritime Com\"\r\n")]).getOperatorName 310 410 = [] ∧
    (COPNResponse.create.run
      [CacheCall.request 310 410, CacheCall.request 901 12,
       CacheCall.fragment RespType.TYPE_PLUS
        (str "\r\n+COPN: \"901012\",\"MCP Maritime Com\"\r\n")]).getOperatorName 1 1 =
      str "unknown" := by
  have hfrag : COPNResponse.fragmentKey RespType.TYPE_PLUS
      (str "\r\n+COPN: \"901012\",\"MCP Maritime Com\"\r\n") = some (901, 12) := by decide
  have hno : ∀ (mcc mnc : Int), (mcc, mnc) ≠ (901, 12) → ∀ type buf,
      CacheCall.fragment type buf ∈
        [CacheCall.request 310 410, CacheCall.request 901 12,
         CacheCall.fragment RespType.TYPE_PLUS
          (str "\r\n+COPN: \"901012\",\"MCP Maritime Com\"\r\n")] →
      COPNResponse.fragmentKey type buf ≠ some (mcc, mnc) := by
    intro mcc mnc hk type buf hm
    simp only [List.mem_cons, List.mem_singleton, List.not_mem_nil, or_false, reduceCtorEq,
      false_or, CacheCall.fragment.injEq] at hm
    rw [hm.1, hm.2, hfrag]
    intro he
    exact hk (Option.some.inj he).symm
  exact ⟨(pending_resolves_to_empty _ 310 410 (hno 310 410 (by decide))).2.2.2.2
      (by simp) (by decide),
    (pending_resolves_to_empty _ 1 1 (hno 1 1 (by decide))).2.1 (by decide)⟩

end CellularHelper
